import Mathlib

/-!
# Video on SEGV signals (VOSF)

A shallow embedding of `BasiliskII/src/Unix/video_vosf.h`: the screen fault
handler that marks frame buffer pages dirty, and the two update routines that
drain the dirty page table (`update_display_window_vosf`,
`update_display_dga_vosf`).

Conventions of the embedding.

* The global variables the functions only read (`mainBuffer.memStart`,
  `mainBuffer.pageCount`, `VideoMonitor.x`, `depth`, ...) are the fields of
  `Config`; the ones that change (`mainBuffer.dirty`, `mainBuffer.dirtyPages`,
  `the_buffer_copy`, ...) are the fields of `State`.
* Every call of an external routine and every store to `mainBuffer.dirty` is
  appended to `State.trace`, so the order of the effects can be stated.
* `mainBuffer.dirtyPages` is a pointer in the source: it is a map from indices
  to flags (`true` is SET, `false` is CLEAR), and a store through it is not
  bounds checked.  The table it points to has `pageCount + 2` entries.
* Addresses are natural numbers.  The arithmetic on `int` values (page
  indices, rows, byte offsets of rows) is exact: overflow of a signed
  multiplication or addition has no defined result in the source.  Arithmetic
  that wraps is reduced to its word: the unsigned `-mainBuffer.pageSize` and
  `page_extend`, and the shifts stored in `int32 offset` and `uint32 length`
  by the update routines.
* Loops whose termination is not evident from their bounds take a fuel
  argument and return `none` when it runs out.
-/

namespace VOSF

/-! ## Data model -/

/-- Protection argument of `vm_protect`. -/
inductive Prot where
  /-- Stands for `VM_PAGE_READ`. -/
  | VM_PAGE_READ
  /-- Stands for `VM_PAGE_READ | VM_PAGE_WRITE`. -/
  | VM_PAGE_READ_WRITE
  deriving DecidableEq, Repr

/-- One observable effect: a call of an external routine, or a store to
`mainBuffer.dirty`.  Buffer arguments are byte offsets from the start of the
buffer (`the_host_buffer + i` is recorded as `i`). -/
inductive Event where
  | LOCK_VOSF
  | UNLOCK_VOSF
  | PFLAG_SET (page : Nat)
  | PFLAG_CLEAR_RANGE (first last : Nat)
  | vm_protect (addr : Nat) (length : Nat) (prot : Prot)
  | set_dirty (value : Bool)
  | Screen_blit (dest src : Int) (length : Int)
  | memcpy (dest src : Int) (length : Int)
  | XShmPutImage (src_x src_y dest_x dest_y : Int) (width : Nat) (height : Int)
  | XPutImage (src_x src_y dest_x dest_y : Int) (width : Nat) (height : Int)
  deriving DecidableEq, Repr

/-- One `fprintf (stderr, ...)` call of the fault handler. -/
inductive Diag where
  | unhandled_address (addr : Nat)
  | ip (fault_instruction : Nat)
  | newline
  deriving DecidableEq, Repr

/-- Entry of `mainBuffer.pageInfo`: the display rows a page covers. -/
structure ScreenPageInfo where
  top : Int
  bottom : Int
  deriving DecidableEq, Repr

/-- The globals the functions read and never write. -/
structure Config where
  /-- Field `mainBuffer.memStart`. -/
  memStart : Nat
  /-- Field `mainBuffer.memEnd`. -/
  memEnd : Nat
  /-- Field `mainBuffer.pageSize`. -/
  pageSize : Nat
  /-- Field `mainBuffer.pageBits`. -/
  pageBits : Nat
  /-- Field `mainBuffer.pageCount`. -/
  pageCount : Nat
  /-- Table `mainBuffer.pageInfo`. -/
  pageInfo : Nat → ScreenPageInfo
  /-- Field `VideoMonitor.x`. -/
  x : Nat
  /-- Field `VideoMonitor.bytes_per_row`. -/
  bytes_per_row : Nat
  /-- Global `depth`. -/
  depth : Nat
  /-- Global `have_shm`. -/
  have_shm : Bool
  /-- Number of bits of the unsigned type of `mainBuffer.pageSize` (its
  declaration is not part of the header). -/
  sizeWidth : Nat
  /-- Constant `SIGSEGV_INVALID_PC` (its definition is not part of the header). -/
  SIGSEGV_INVALID_PC : Nat
  /-- Result of `getpagesize ()`. -/
  getpagesize : Nat

/-- The globals the functions write, the frame buffer, and the record of the
effects so far. -/
structure State where
  /-- Field `mainBuffer.dirty`. -/
  dirty : Bool
  /-- Table `mainBuffer.dirtyPages`; `true` is SET, `false` is CLEAR. -/
  dirtyPages : Nat → Bool
  /-- Bytes of `the_buffer`. -/
  the_buffer : Int → Nat
  /-- Bytes of `the_buffer_copy`. -/
  the_buffer_copy : Int → Nat
  /-- Effects so far, oldest first. -/
  trace : List Event
  /-- Output written to `stderr` so far, oldest first. -/
  stderr : List Diag

/-! ## Primitives that the header uses and does not define -/

/-- Append one effect to the trace. -/
def emit (e : Event) (s : State) : State :=
  { s with trace := s.trace ++ [e] }

/-- Modelled from the spec: the macro `PFLAG_SET` is not defined in the header;
it is the operation `set(page)` of spec 4.1, which gives the flag of `page` the
value SET. -/
def PFLAG_SET (page : Nat) (s : State) : State :=
  emit (.PFLAG_SET page)
    { s with dirtyPages := fun i => if i = page then true else s.dirtyPages i }

/-- Modelled from the spec: the macro `PFLAG_CLEAR_RANGE` is not defined in the
header; it is the operation `clearRange(firstPage, pageExclusive)` of spec 4.1,
which gives the flags `first .. last - 1` the value CLEAR. -/
def PFLAG_CLEAR_RANGE (first last : Nat) (s : State) : State :=
  emit (.PFLAG_CLEAR_RANGE first last)
    { s with dirtyPages := fun i => if first ≤ i ∧ i < last then false else s.dirtyPages i }

/-- Linear scan of the flags from `page` upwards for the first flag equal to
`v`, reading at most `fuel` entries. -/
def scan_pages (v : Bool) (flags : Nat → Bool) : Nat → Nat → Option Nat
  | 0, _ => none
  | fuel + 1, page =>
    if flags page = v then some page else scan_pages v flags fuel (page + 1)

/-- Modelled from the spec: `find_next_page_set` is not defined in the header;
it is `findNextSet(fromPage)` of spec 4.1, the smallest index `>= fromPage`
whose flag is SET.  The scan reads the table of `pageCount + 2` entries only:
the result is `none` when no entry from `page` to the end of the table is SET. -/
def find_next_page_set (c : Config) (s : State) (page : Nat) : Option Nat :=
  scan_pages true s.dirtyPages (c.pageCount + 2 - page) page

/-- Modelled from the spec: `find_next_page_clear` is not defined in the header;
it is `findNextClear(fromPage)` of spec 4.1, the smallest index `>= fromPage`
whose flag is CLEAR.  The scan reads the table of `pageCount + 2` entries only:
the result is `none` when no entry from `page` to the end of the table is
CLEAR. -/
def find_next_page_clear (c : Config) (s : State) (page : Nat) : Option Nat :=
  scan_pages false s.dirtyPages (c.pageCount + 2 - page) page

/-- The external routine `vm_protect`: only the call is recorded. -/
def vm_protect (addr length : Nat) (prot : Prot) (s : State) : State :=
  emit (.vm_protect addr length prot) s

/-- The store `mainBuffer.dirty = value`. -/
def set_dirty (value : Bool) (s : State) : State :=
  emit (.set_dirty value) { s with dirty := value }

/-- One `fprintf (stderr, ...)`. -/
def fprintf (d : Diag) (s : State) : State :=
  { s with stderr := s.stderr ++ [d] }

/-! ## Page-aligned memory allocation -/

/-- Source: `page_extend`, on `uint32` values. -/
def page_extend (c : Config) (size : Nat) : Nat :=
  let page_size := c.getpagesize % 2 ^ 32
  let page_mask := (page_size + 2 ^ 32 - 1) % 2 ^ 32
  ((size + page_mask) % 2 ^ 32) &&& (2 ^ 32 - 1 - page_mask)

/-! ## Screen fault handler -/

/-- The value of `-mainBuffer.pageSize`, negation in the unsigned type of
`mainBuffer.pageSize`. -/
def neg_pageSize (c : Config) : Nat :=
  (2 ^ c.sizeWidth - c.pageSize % 2 ^ c.sizeWidth) % 2 ^ c.sizeWidth

/-- Source: `screen_fault_handler`.  The value `uintptr addr` is the address
itself; the page index `(addr - memStart) >> pageBits` is taken to fit the
`int` it is stored in. -/
def screen_fault_handler (c : Config) (fault_address fault_instruction : Nat)
    (s : State) : Bool × State :=
  let addr := fault_address
  if addr ≥ c.memStart ∧ addr < c.memEnd then
    let page := (addr - c.memStart) >>> c.pageBits
    let page_ad := addr &&& neg_pageSize c
    let s := emit .LOCK_VOSF s
    let s := PFLAG_SET page s
    let s := vm_protect page_ad c.pageSize .VM_PAGE_READ_WRITE s
    let s := set_dirty true s
    let s := emit .UNLOCK_VOSF s
    (true, s)
  else
    let s := fprintf (.unhandled_address addr) s
    let s := if fault_instruction ≠ c.SIGSEGV_INVALID_PC then
      fprintf (.ip fault_instruction) s else s
    let s := fprintf .newline s
    (false, s)

/-! ## Update routines -/

/-- The value that the result `n` of a shift of a non-negative `int` has once
it is stored in an `int32`: `n` wrapped to the range `-2^31 .. 2^31 - 1`.  (A
shift by 32 bits or more has no defined result in the source; the model wraps
the exact product there too.) -/
def int32 (n : Nat) : Int :=
  (((n + 2 ^ 31) % 2 ^ 32 : Nat) : Int) - 2 ^ 31

/-- The value that the result `n` of a shift of a non-negative `int` has once
it is stored in a `uint32`: `n` reduced modulo `2^32`. -/
def uint32 (n : Nat) : Nat :=
  n % 2 ^ 32

/-- The run-finding loop that `update_display_window_vosf` (lines 111 to 123)
and `update_display_dga_vosf` (lines 169 to 181) share word for word: find
the next run `first_page .. page - 1` of SET flags, clear it, make its pages
read-only again, and hand it to `render`, the rest of the loop body.  One unit
of `fuel` is one iteration of `for (;;)`, the one that leaves by `break`
included.  The pointer `(char *)mainBuffer.memStart + offset` is `memStart`
moved by the signed `offset`; below address 0 there is no pointer (the source
has no defined result there) and the address of the model is 0. -/
def vosf_loop (c : Config) (render : Nat → Nat → State → State) :
    Nat → Nat → State → Option State
  | 0, _, _ => none
  | fuel + 1, page, s =>
    match find_next_page_set c s page with
    | none => none
    | some first_page =>
      if first_page ≥ c.pageCount then some s
      else
        match find_next_page_clear c s first_page with
        | none => none
        | some page =>
          let s := PFLAG_CLEAR_RANGE first_page page s
          let offset : Int := int32 (first_page <<< c.pageBits)
          let length : Nat := uint32 ((page - first_page) <<< c.pageBits)
          let s := vm_protect ((c.memStart : Int) + offset).toNat length .VM_PAGE_READ s
          vosf_loop c render fuel page (render first_page page s)

/-- The row loop `for (j = y1; j <= y2; j++)` of the windowed update, entered
with `n` rows to go and `i` the byte offset of the current row. -/
def blit_rows (c : Config) (length : Int) : Nat → Int → State → State
  | 0, _, s => s
  | n + 1, i, s =>
    blit_rows c length n (i + c.bytes_per_row) (emit (.Screen_blit i i length) s)

/-- Lines 125 to 154 of `update_display_window_vosf`: convert the rows of the
run and push them to the window.  The row loop runs `y2 - y1 + 1` times, and
not at all when `y2 < y1`.  The source divides by `VideoMonitor.x` without a
test; when it is 0 the quotient of the model is 0. -/
def window_render (c : Config) (first_page page : Nat) (s : State) : State :=
  let y1 := (c.pageInfo first_page).top
  let y2 := (c.pageInfo (page - 1)).bottom
  let height := y2 - y1 + 1
  let bytes_per_pixel := c.bytes_per_row / c.x
  let i : Int := y1 * c.bytes_per_row
  let s :=
    if c.depth = 1 then
      blit_rows c ((c.x >>> 3 : Nat) : Int) (y2 - y1 + 1).toNat i s
    else
      blit_rows c ((bytes_per_pixel * c.x : Nat) : Int) (y2 - y1 + 1).toNat i s
  if c.have_shm then emit (.XShmPutImage 0 y1 0 y1 c.x height) s
  else emit (.XPutImage 0 y1 0 y1 c.x height) s

/-- Source: `update_display_window_vosf`. -/
def update_display_window_vosf (c : Config) (fuel : Nat) (s : State) : Option State :=
  (vosf_loop c (window_render c) fuel 0 s).map (set_dirty false)

/-- The loop `for (i = 0; i < x1; i++) if (p1[i] != p2[i]) { x1 = i; break; }`,
entered at `i` with `n` iterations allowed; the result is the new `x1`. -/
def diff_from_left (p1 p2 : Int → Nat) : Nat → Int → Int → Int
  | 0, _, x1 => x1
  | n + 1, i, x1 =>
    if i < x1 then
      if p1 i ≠ p2 i then i else diff_from_left p1 p2 n (i + 1) x1
    else x1

/-- The loop `for (j = y1; j <= y2; j++)` of lines 194 to 203, entered at row
`j` with `n` rows to go; the result is the new `x1`. -/
def dga_x1 (c : Config) (s : State) : Nat → Int → Int → Int
  | 0, _, x1 => x1
  | n + 1, j, x1 =>
    let p1 := fun i : Int => s.the_buffer (j * c.bytes_per_row + i)
    let p2 := fun i : Int => s.the_buffer_copy (j * c.bytes_per_row + i)
    dga_x1 c s n (j + 1) (diff_from_left p1 p2 x1.toNat 0 x1)

/-- The loop `for (i = ...; i > x2; i--) if (p1[i] != p2[i]) { x2 = i; break; }`,
entered at `i` with `n` iterations allowed; the result is the new `x2`. -/
def diff_from_right (p1 p2 : Int → Nat) : Nat → Int → Int → Int
  | 0, _, x2 => x2
  | n + 1, i, x2 =>
    if i > x2 then
      if p1 i ≠ p2 i then i else diff_from_right p1 p2 n (i - 1) x2
    else x2

/-- The loop `for (j = y2; j >= y1; j--)` of lines 207 to 216, entered at row
`j` with `n` rows to go; the result is the new `x2`. -/
def dga_x2 (c : Config) (s : State) (bytes_per_pixel : Int) : Nat → Int → Int → Int
  | 0, _, x2 => x2
  | n + 1, j, x2 =>
    let p1 := fun i : Int => s.the_buffer (j * c.bytes_per_row + i)
    let p2 := fun i : Int => s.the_buffer_copy (j * c.bytes_per_row + i)
    let i : Int := c.x * bytes_per_pixel - 1
    dga_x2 c s bytes_per_pixel n (j - 1) (diff_from_right p1 p2 (i - x2).toNat i x2)

/-- The call `memcpy (the_buffer_copy + dest, the_buffer + src, length)`. -/
def memcpy (dest src length : Int) (s : State) : State :=
  emit (.memcpy dest src length)
    { s with the_buffer_copy := fun k =>
        if dest ≤ k ∧ k < dest + length then s.the_buffer (src + (k - dest))
        else s.the_buffer_copy k }

/-- The row loop `for (j = y1; j <= y2; j++)` of lines 223 to 227, entered with
`n` rows to go and `i` the byte offset of the current row. -/
def dga_copy_rows (c : Config) (length : Int) : Nat → Int → State → State
  | 0, _, s => s
  | n + 1, i, s =>
    let s := emit (.Screen_blit i i length) s
    let s := memcpy i i length s
    dga_copy_rows c length n (i + c.bytes_per_row) s

/-- Lines 183 to 227 of `update_display_dga_vosf`: find the columns that
changed in the rows of the run, convert them and copy them to
`the_buffer_copy`.  Division is the truncating division of the source; where
the source divides by 0 the quotient of the model is 0. -/
def dga_render (c : Config) (first_page page : Nat) (s : State) : State :=
  let y1 := (c.pageInfo first_page).top
  let y2 := (c.pageInfo (page - 1)).bottom
  let bytes_per_row : Int := c.bytes_per_row
  let bytes_per_pixel : Int := ((c.bytes_per_row / c.x : Nat) : Int)
  let rows := (y2 - y1 + 1).toNat
  let x1 := dga_x1 c s rows y1 (c.x * bytes_per_pixel - 1)
  let x1 := Int.tdiv x1 bytes_per_pixel
  let x2 := dga_x2 c s bytes_per_pixel rows y2 (x1 * bytes_per_pixel)
  let x2 := Int.tdiv x2 bytes_per_pixel
  let width := x2 - x1 + 1
  let i := y1 * bytes_per_row + x1 * bytes_per_pixel
  dga_copy_rows c (bytes_per_pixel * width) rows i s

/-- Source: `update_display_dga_vosf`. -/
def update_display_dga_vosf (c : Config) (fuel : Nat) (s : State) : Option State :=
  (vosf_loop c (dga_render c) fuel 0 s).map (set_dirty false)

/-! ## Properties of states -/

/-- The two guard entries that follow the flags of the real pages: the CLEAR
page guard at `pageCount` and the SET page guard at `pageCount + 1`. -/
def GuardsIntact (c : Config) (s : State) : Prop :=
  s.dirtyPages c.pageCount = false ∧ s.dirtyPages (c.pageCount + 1) = true

instance (c : Config) (s : State) : Decidable (GuardsIntact c s) := by
  unfold GuardsIntact; infer_instance

/-- The invariants of the frame buffer region (spec 3): `pageSize` is
`2 ^ pageBits`, and `pageCount` is `(memEnd - memStart) / pageSize` rounded
up. -/
def RegionOK (c : Config) : Prop :=
  c.pageSize = 2 ^ c.pageBits ∧
  c.pageCount = (c.memEnd - c.memStart + c.pageSize - 1) / c.pageSize

instance (c : Config) : Decidable (RegionOK c) := by
  unfold RegionOK; infer_instance

/-- A run (spec glossary): a maximal sequence `a .. b - 1` of consecutive real
pages, of `n` real pages, whose flags are all SET. -/
def IsDirtyRun (flags : Nat → Bool) (n a b : Nat) : Prop :=
  a < b ∧ b ≤ n ∧ (∀ i, a ≤ i → i < b → flags i = true) ∧
  (a = 0 ∨ flags (a - 1) = false) ∧ (b = n ∨ flags b = false)

/-- One iteration of the loop body of `vosf_loop` on the run `r.1 .. r.2 - 1`. -/
def process_run (c : Config) (render : Nat → Nat → State → State) (s : State)
    (r : Nat × Nat) : State :=
  render r.1 r.2
    (vm_protect ((c.memStart : Int) + int32 (r.1 <<< c.pageBits)).toNat
      (uint32 ((r.2 - r.1) <<< c.pageBits))
      Prot.VM_PAGE_READ (PFLAG_CLEAR_RANGE r.1 r.2 s))

/-- The loop body of `vosf_loop` on each run of a list, first to last. -/
def process_runs (c : Config) (render : Nat → Nat → State → State)
    (runs : List (Nat × Nat)) (s : State) : State :=
  runs.foldl (process_run c render) s

/-- The arguments of the `PFLAG_CLEAR_RANGE` effects of a trace, in order. -/
def cleared_ranges : List Event → List (Nat × Nat)
  | [] => []
  | Event.PFLAG_CLEAR_RANGE a b :: t => (a, b) :: cleared_ranges t
  | _ :: t => cleared_ranges t

/-- The arguments of the `vm_protect` calls of a trace, in order. -/
def protect_calls : List Event → List (Nat × Nat × Prot)
  | [] => []
  | Event.vm_protect a l p :: t => (a, l, p) :: protect_calls t
  | _ :: t => protect_calls t

/-- The effects with which a run is rendered: conversions, copies to
`the_buffer_copy` and pushes to the window. -/
def Event.is_render : Event → Bool
  | Event.Screen_blit _ _ _ => true
  | Event.memcpy _ _ _ => true
  | Event.XShmPutImage _ _ _ _ _ _ => true
  | Event.XPutImage _ _ _ _ _ _ => true
  | _ => false

/-- An effect on the dirty flags that stays inside the flags `0 .. n - 1` of
the real pages; every effect that is not on the flags qualifies. -/
def Event.on_real_pages (n : Nat) : Event → Prop
  | Event.PFLAG_SET p => p < n
  | Event.PFLAG_CLEAR_RANGE _ b => b ≤ n
  | _ => True

/-- One operation on the region: a call of the fault handler at any address,
or one complete update pass of either kind. -/
inductive Step (c : Config) : State → State → Prop where
  | fault (a fault_instruction : Nat) (s : State) :
      Step c s (screen_fault_handler c a fault_instruction s).2
  | window (fuel : Nat) (s s' : State) :
      update_display_window_vosf c fuel s = some s' → Step c s s'
  | dga (fuel : Nat) (s s' : State) :
      update_display_dga_vosf c fuel s = some s' → Step c s s'

/-- What the proofs about `vosf_loop` need of the rest of the loop body: it
leaves the dirty flags, `mainBuffer.dirty`, `the_buffer` and `stderr` alone, and
adds only render effects to the trace. -/
def RenderOK (render : Nat → Nat → State → State) : Prop :=
  ∀ a b s, (render a b s).dirtyPages = s.dirtyPages ∧ (render a b s).dirty = s.dirty ∧
    (render a b s).the_buffer = s.the_buffer ∧ (render a b s).stderr = s.stderr ∧
    ∃ evs, (render a b s).trace = s.trace ++ evs ∧ ∀ e ∈ evs, Event.is_render e = true

/-- A page geometry is valid when each page covers at least one row and the
rows do not go backwards from one page to the next. -/
def ValidGeometry (c : Config) : Prop :=
  (∀ p, p < c.pageCount → (c.pageInfo p).top ≤ (c.pageInfo p).bottom) ∧
  (∀ p q, p ≤ q → q < c.pageCount →
    (c.pageInfo p).top ≤ (c.pageInfo q).top ∧ (c.pageInfo p).bottom ≤ (c.pageInfo q).bottom)

/-- The rows `y1 .. y2` the windowed update converts for a run, as effects. -/
def window_row_events (c : Config) (y1 y2 : Int) : List Event :=
  (List.range (y2 - y1 + 1).toNat).map fun (k : Nat) =>
    Event.Screen_blit ((y1 + (k : Int)) * c.bytes_per_row) ((y1 + (k : Int)) * c.bytes_per_row)
      (if c.depth = 1 then ((c.x >>> 3 : Nat) : Int)
       else ((c.bytes_per_row / c.x * c.x : Nat) : Int))

/-- The push of the rows `y1 .. y2` to the window, as an effect. -/
def window_push_event (c : Config) (y1 y2 : Int) : Event :=
  if c.have_shm then Event.XShmPutImage 0 y1 0 y1 c.x (y2 - y1 + 1)
  else Event.XPutImage 0 y1 0 y1 c.x (y2 - y1 + 1)

/-- All the effects of one iteration of the windowed update on the run
`r.1 .. r.2 - 1`. -/
def window_run_events (c : Config) (r : Nat × Nat) : List Event :=
  [Event.PFLAG_CLEAR_RANGE r.1 r.2,
   Event.vm_protect ((c.memStart : Int) + int32 (r.1 <<< c.pageBits)).toNat
     (uint32 ((r.2 - r.1) <<< c.pageBits)) Prot.VM_PAGE_READ] ++
  window_row_events c (c.pageInfo r.1).top (c.pageInfo (r.2 - 1)).bottom ++
  [window_push_event c (c.pageInfo r.1).top (c.pageInfo (r.2 - 1)).bottom]

/-- The arguments of the `vm_protect` call of the loop body for a run: the
address `memStart` moved by `int32 offset`, `uint32 length`, and read-only. -/
def run_protect (c : Config) (r : Nat × Nat) : Nat × Nat × Prot :=
  (((c.memStart : Int) + int32 (r.1 <<< c.pageBits)).toNat,
    uint32 ((r.2 - r.1) <<< c.pageBits), Prot.VM_PAGE_READ)

/-- The destination offsets of the `Screen_blit` calls of a trace, in order. -/
def blit_offsets : List Event → List Int
  | [] => []
  | Event.Screen_blit d _ _ :: t => d :: blit_offsets t
  | _ :: t => blit_offsets t

/-! ## Example regions -/

/-- A region of three pages of 4096 bytes at address 4096, shown on a screen of
1024 pixels of four bytes a row, so that page `i` holds row `i`. -/
def demo_config : Config where
  memStart := 4096
  memEnd := 16384
  pageSize := 4096
  pageBits := 12
  pageCount := 3
  pageInfo := fun i => ⟨i, i⟩
  x := 1024
  bytes_per_row := 4096
  depth := 32
  have_shm := true
  sizeWidth := 32
  SIGSEGV_INVALID_PC := 4294967295
  getpagesize := 4096

/-- A state of `demo_config` in which only page 2 is SET; the guards are at
indices 3 and 4. -/
def demo_state : State where
  dirty := true
  dirtyPages := fun i => i == 2 || i == 4
  the_buffer := fun _ => 0
  the_buffer_copy := fun _ => 0
  trace := []
  stderr := []

/-- The state `demo_state` after a write fault at address 5000, in page 0. -/
def demo_state_faulted : State :=
  (screen_fault_handler demo_config 5000 0 demo_state).2

/-- The state `demo_state_faulted` after one windowed update, which processes
the runs of page 0 and of page 2. -/
def demo_state_updated : State :=
  set_dirty false
    (process_runs demo_config (window_render demo_config) [(0, 1), (2, 3)] demo_state_faulted)

/-- A screen of two rows of ten bytes (five pixels of two bytes) in a region of
five pages of four bytes: page 1 lies inside row 0, and rows 0 and 1 meet in
page 2. -/
def wide_config : Config where
  memStart := 0
  memEnd := 20
  pageSize := 4
  pageBits := 2
  pageCount := 5
  pageInfo := fun i => if i < 2 then ⟨0, 0⟩ else if i = 2 then ⟨0, 1⟩ else ⟨1, 1⟩
  x := 5
  bytes_per_row := 10
  depth := 16
  have_shm := false
  sizeWidth := 32
  SIGSEGV_INVALID_PC := 4294967295
  getpagesize := 4

/-- A state of `wide_config` in which pages 0 and 2 are SET and page 1 is
CLEAR; the guards are at indices 5 and 6. -/
def wide_state : State where
  dirty := true
  dirtyPages := fun i => i == 0 || i == 2 || i == 6
  the_buffer := fun _ => 0
  the_buffer_copy := fun _ => 0
  trace := []
  stderr := []

/-! ## The box of the DGA update -/

/-- The byte at index `k` of row `row` differs between `the_buffer` and
`the_buffer_copy`. -/
def differs (c : Config) (s : State) (row k : Int) : Prop :=
  s.the_buffer (row * c.bytes_per_row + k) ≠ s.the_buffer_copy (row * c.bytes_per_row + k)

instance (c : Config) (s : State) (row k : Int) : Decidable (differs c s row k) := by
  unfold differs; infer_instance

/-- The value of `x1` after line 204 of `update_display_dga_vosf`, for a run
whose rows are `y1 .. y2`: the first pixel column of the box. -/
def dga_first_column (c : Config) (s : State) (y1 y2 : Int) : Int :=
  let bytes_per_pixel : Int := ((c.bytes_per_row / c.x : Nat) : Int)
  Int.tdiv (dga_x1 c s (y2 - y1 + 1).toNat y1 (c.x * bytes_per_pixel - 1)) bytes_per_pixel

/-- The value of `x2` after line 217 of `update_display_dga_vosf`, for a run
whose rows are `y1 .. y2`: the last pixel column of the box. -/
def dga_last_column (c : Config) (s : State) (y1 y2 : Int) : Int :=
  let bytes_per_pixel : Int := ((c.bytes_per_row / c.x : Nat) : Int)
  Int.tdiv
    (dga_x2 c s bytes_per_pixel (y2 - y1 + 1).toNat y2
      (dga_first_column c s y1 y2 * bytes_per_pixel))
    bytes_per_pixel

/-- The pushes of rows to the window. -/
def Event.is_push : Event → Bool
  | Event.XShmPutImage _ _ _ _ _ _ => true
  | Event.XPutImage _ _ _ _ _ _ => true
  | _ => false

/-- The conversion and the copy of each of `n` rows, as effects: row `m`
at offset `i + m * bytes_per_row`. -/
def dga_row_events (c : Config) (length : Int) (n : Nat) (i : Int) : List Event :=
  (List.range n).flatMap fun (m : Nat) =>
    [Event.Screen_blit (i + (m : Int) * c.bytes_per_row) (i + (m : Int) * c.bytes_per_row) length,
     Event.memcpy (i + (m : Int) * c.bytes_per_row) (i + (m : Int) * c.bytes_per_row) length]

/-- The effects of the DGA update on the rows `y1 .. y2` of a run whose box is
the columns `x1 .. x2`: for each row `j`, one conversion and one copy to
`the_buffer_copy`, both at offset `j * bytes_per_row + x1 * bytes_per_pixel`
and of `bytes_per_pixel * (x2 - x1 + 1)` bytes. -/
def dga_box_events (c : Config) (y1 y2 x1 x2 : Int) : List Event :=
  (List.range (y2 - y1 + 1).toNat).flatMap fun (m : Nat) =>
    [Event.Screen_blit
       ((y1 + (m : Int)) * c.bytes_per_row + x1 * ((c.bytes_per_row / c.x : Nat) : Int))
       ((y1 + (m : Int)) * c.bytes_per_row + x1 * ((c.bytes_per_row / c.x : Nat) : Int))
       (((c.bytes_per_row / c.x : Nat) : Int) * (x2 - x1 + 1)),
     Event.memcpy
       ((y1 + (m : Int)) * c.bytes_per_row + x1 * ((c.bytes_per_row / c.x : Nat) : Int))
       ((y1 + (m : Int)) * c.bytes_per_row + x1 * ((c.bytes_per_row / c.x : Nat) : Int))
       (((c.bytes_per_row / c.x : Nat) : Int) * (x2 - x1 + 1))]

/-- The byte offset `k` lies in the part of a row of `y1 .. y2` that the DGA
update converts and copies when the box is the columns `x1 .. x2`. -/
def in_box (c : Config) (y1 y2 x1 x2 k : Int) : Prop :=
  ∃ row : Int, y1 ≤ row ∧ row ≤ y2 ∧
    row * c.bytes_per_row + x1 * ((c.bytes_per_row / c.x : Nat) : Int) ≤ k ∧
    k < row * c.bytes_per_row + x1 * ((c.bytes_per_row / c.x : Nat) : Int) +
      ((c.bytes_per_row / c.x : Nat) : Int) * (x2 - x1 + 1)

/-! ## Page protection as state -/

/-- The effect of one `vm_protect` call `(addr, length, prot)` on the
protection of each byte address. -/
def apply_protect (prot : Nat → Prot) (call : Nat × Nat × Prot) : Nat → Prot :=
  fun b => if call.1 ≤ b ∧ b < call.1 + call.2.1 then call.2.2 else prot b

/-- Page protection as explicit state: the protection of each byte address
after the `vm_protect` calls of a trace, from the protections `init`. -/
def prot_after (init : Nat → Prot) (trace : List Event) : Nat → Prot :=
  (protect_calls trace).foldl apply_protect init

/-- The indices of the flags that `scan_pages` reads, in order: the scan reads
the flag of `page`, and goes on to the next page when it is not `v`. -/
def scan_reads (v : Bool) (flags : Nat → Bool) : Nat → Nat → List Nat
  | 0, _ => []
  | fuel + 1, page =>
    page :: (if flags page = v then [] else scan_reads v flags fuel (page + 1))

/-- An index used on one of the two tables of `mainBuffer` during an update
pass. -/
inductive Access where
  /-- A scan reads `mainBuffer.dirtyPages[i]`. -/
  | dirtyPages (i : Nat)
  /-- The loop body reads `mainBuffer.pageInfo[i]`. -/
  | pageInfo (i : Nat)
  deriving DecidableEq, Repr

/-- The indices that `vosf_loop` uses on the two tables, in order: in each
iteration the flags read by `find_next_page_set`, then, unless the loop leaves,
the flags read by `find_next_page_clear` and the two entries
`pageInfo[first_page]` and `pageInfo[page - 1]` of the loop body. -/
def vosf_loop_accesses (c : Config) (render : Nat → Nat → State → State) :
    Nat → Nat → State → List Access
  | 0, _, _ => []
  | fuel + 1, page, s =>
    (scan_reads true s.dirtyPages (c.pageCount + 2 - page) page).map Access.dirtyPages ++
    match find_next_page_set c s page with
    | none => []
    | some first_page =>
      if first_page ≥ c.pageCount then []
      else
        (scan_reads false s.dirtyPages (c.pageCount + 2 - first_page) first_page).map
          Access.dirtyPages ++
        match find_next_page_clear c s first_page with
        | none => []
        | some page =>
          [Access.pageInfo first_page, Access.pageInfo (page - 1)] ++
          vosf_loop_accesses c render fuel page (process_run c render s (first_page, page))

/-- An index that lies inside its table: at most `pageCount + 1` for the
`pageCount + 2` flags, below `pageCount` for the page geometry. -/
def Access.in_bounds (c : Config) : Access → Prop
  | Access.dirtyPages i => i ≤ c.pageCount + 1
  | Access.pageInfo i => i < c.pageCount

/-! ## More example regions -/

/-- A region of four pages of 4096 bytes; only the widths and the page count
matter. -/
def four_page_config : Config where
  memStart := 4096
  memEnd := 20480
  pageSize := 4096
  pageBits := 12
  pageCount := 4
  pageInfo := fun i => ⟨i, i⟩
  x := 1024
  bytes_per_row := 4096
  depth := 32
  have_shm := true
  sizeWidth := 32
  SIGSEGV_INVALID_PC := 4294967295
  getpagesize := 4096

/-- A state of `four_page_config` in which every real page is CLEAR; the
guards are at indices 4 and 5. -/
def all_clear_state : State where
  dirty := false
  dirtyPages := fun i => i == 5
  the_buffer := fun _ => 0
  the_buffer_copy := fun _ => 0
  trace := []
  stderr := []

/-- A screen of 64 pixels of one byte a row, whose single page covers the rows
10 to 12. -/
def box_config : Config where
  memStart := 0
  memEnd := 4096
  pageSize := 4096
  pageBits := 12
  pageCount := 1
  pageInfo := fun _ => ⟨10, 12⟩
  x := 64
  bytes_per_row := 64
  depth := 8
  have_shm := false
  sizeWidth := 32
  SIGSEGV_INVALID_PC := 4294967295
  getpagesize := 4096

/-- A state of `box_config` in which page 0 is SET and `the_buffer` differs
from `the_buffer_copy` in the columns 50 to 60 of the rows 10 to 12, and
nowhere else. -/
def box_state : State where
  dirty := true
  dirtyPages := fun i => i == 0 || i == 2
  the_buffer := fun k => if 640 ≤ k ∧ k < 832 ∧ 50 ≤ k % 64 ∧ k % 64 ≤ 60 then 1 else 0
  the_buffer_copy := fun _ => 0
  trace := []
  stderr := []

/-- A state of `demo_config` in which every real page is CLEAR and
`mainBuffer.dirty` is false; the guards are at indices 3 and 4. -/
def demo_clean_state : State where
  dirty := false
  dirtyPages := fun i => i == 4
  the_buffer := fun _ => 0
  the_buffer_copy := fun _ => 0
  trace := []
  stderr := []

/-- A region of 513 pages of 4 MiB, one page more than `2^31` bytes, at address
`2^32` of a host with 64-bit addresses and a 64-bit `mainBuffer.pageSize`.  The
last page, page 512, starts `2^31` bytes after `memStart`.  Every page is shown
in row 0, so that the byte offsets of the rows stay small. -/
def large_config : Config where
  memStart := 4294967296
  memEnd := 6446645248
  pageSize := 4194304
  pageBits := 22
  pageCount := 513
  pageInfo := fun _ => ⟨0, 0⟩
  x := 1024
  bytes_per_row := 4096
  depth := 32
  have_shm := true
  sizeWidth := 64
  SIGSEGV_INVALID_PC := 18446744073709551615
  getpagesize := 4194304

/-- A state of `large_config` in which only the last page, page 512, is SET;
the guards are at indices 513 and 514. -/
def large_state : State where
  dirty := true
  dirtyPages := fun i => i == 512 || i == 514
  the_buffer := fun _ => 0
  the_buffer_copy := fun _ => 0
  trace := []
  stderr := []

/-- The region of `demo_config`, three pages of 4096 bytes, at address `2^32` of
a host with 64-bit addresses, with `mainBuffer.pageSize` an unsigned value of
32 bits. -/
def high_config : Config where
  memStart := 4294967296
  memEnd := 4294979584
  pageSize := 4096
  pageBits := 12
  pageCount := 3
  pageInfo := fun i => ⟨i, i⟩
  x := 1024
  bytes_per_row := 4096
  depth := 32
  have_shm := true
  sizeWidth := 32
  SIGSEGV_INVALID_PC := 18446744073709551615
  getpagesize := 4096

/-- Claim C1. A fault at an address `a` with `memStart <= a < memEnd` is
handled: the handler returns `true`, and its effects are, in this order and
nothing else, the lock, the flag of page `(a - memStart) >> pageBits` set, one
`vm_protect` for reading and writing of `pageSize` bytes at `a & -pageSize`,
`mainBuffer.dirty = true`, and the unlock; afterwards the flag of that page is
SET and `mainBuffer.dirty` is true. -/
theorem screen_fault_handler_handled (c : Config) (a fault_instruction : Nat) (s : State)
    (hlo : c.memStart ≤ a) (hhi : a < c.memEnd) :
    screen_fault_handler c a fault_instruction s =
      (true,
        { s with
          dirty := true
          dirtyPages := fun i =>
            if i = (a - c.memStart) >>> c.pageBits then true else s.dirtyPages i
          trace := s.trace ++
            [Event.LOCK_VOSF,
             Event.PFLAG_SET ((a - c.memStart) >>> c.pageBits),
             Event.vm_protect (a &&& neg_pageSize c) c.pageSize Prot.VM_PAGE_READ_WRITE,
             Event.set_dirty true,
             Event.UNLOCK_VOSF] }) ∧
    (screen_fault_handler c a fault_instruction s).2.dirtyPages
        ((a - c.memStart) >>> c.pageBits) = true ∧
    (screen_fault_handler c a fault_instruction s).2.dirty = true := by
  have h : a ≥ c.memStart ∧ a < c.memEnd := ⟨hlo, hhi⟩
  simp [screen_fault_handler, h, emit, PFLAG_SET, vm_protect, set_dirty]

/-- Witness of claim C1: a fault at address 5000 of `demo_config`, whose region
is `4096 .. 16383`. -/
theorem screen_fault_handler_handled_witness :
    demo_config.memStart ≤ 5000 ∧ 5000 < demo_config.memEnd ∧
    (screen_fault_handler demo_config 5000 0 demo_state =
      (true,
        { demo_state with
          dirty := true
          dirtyPages := fun i =>
            if i = (5000 - demo_config.memStart) >>> demo_config.pageBits then true
            else demo_state.dirtyPages i
          trace := demo_state.trace ++
            [Event.LOCK_VOSF,
             Event.PFLAG_SET ((5000 - demo_config.memStart) >>> demo_config.pageBits),
             Event.vm_protect (5000 &&& neg_pageSize demo_config) demo_config.pageSize
               Prot.VM_PAGE_READ_WRITE,
             Event.set_dirty true,
             Event.UNLOCK_VOSF] }) ∧
     (screen_fault_handler demo_config 5000 0 demo_state).2.dirtyPages
        ((5000 - demo_config.memStart) >>> demo_config.pageBits) = true ∧
     (screen_fault_handler demo_config 5000 0 demo_state).2.dirty = true) :=
  ⟨by decide, by decide,
    screen_fault_handler_handled demo_config 5000 0 demo_state (by decide) (by decide)⟩

/-- Claim C2. A fault at an address `a < memStart` or `a >= memEnd` is not
handled, whatever `fault_instruction` is: the handler returns `false`, and the
state is as before but for the diagnostic written to `stderr`, so the dirty
flags, `mainBuffer.dirty` and the trace (no lock, no flag set, no
`vm_protect`) are unchanged. -/
theorem screen_fault_handler_unhandled (c : Config) (a fault_instruction : Nat) (s : State)
    (h : a < c.memStart ∨ c.memEnd ≤ a) :
    screen_fault_handler c a fault_instruction s =
      (false,
        { s with
          stderr := s.stderr ++
            (Diag.unhandled_address a ::
              ((if fault_instruction ≠ c.SIGSEGV_INVALID_PC
                then [Diag.ip fault_instruction] else []) ++ [Diag.newline])) }) ∧
    (screen_fault_handler c a fault_instruction s).2.dirtyPages = s.dirtyPages ∧
    (screen_fault_handler c a fault_instruction s).2.dirty = s.dirty ∧
    (screen_fault_handler c a fault_instruction s).2.trace = s.trace := by
  have h1 : ¬ (a ≥ c.memStart ∧ a < c.memEnd) := by omega
  by_cases hip : fault_instruction = c.SIGSEGV_INVALID_PC <;>
    simp [screen_fault_handler, h1, hip, fprintf]

/-- Witness of claim C2: a fault at address 5 of `demo_config`, below the
region, with `SIGSEGV_INVALID_PC` as the faulting instruction. -/
theorem screen_fault_handler_unhandled_witness :
    (5 < demo_config.memStart ∨ demo_config.memEnd ≤ 5) ∧
    (screen_fault_handler demo_config 5 4294967295 demo_state =
      (false,
        { demo_state with
          stderr := demo_state.stderr ++
            (Diag.unhandled_address 5 ::
              ((if 4294967295 ≠ demo_config.SIGSEGV_INVALID_PC
                then [Diag.ip 4294967295] else []) ++ [Diag.newline])) }) ∧
     (screen_fault_handler demo_config 5 4294967295 demo_state).2.dirtyPages
        = demo_state.dirtyPages ∧
     (screen_fault_handler demo_config 5 4294967295 demo_state).2.dirty = demo_state.dirty ∧
     (screen_fault_handler demo_config 5 4294967295 demo_state).2.trace = demo_state.trace) :=
  ⟨by decide,
    screen_fault_handler_unhandled demo_config 5 4294967295 demo_state (by decide)⟩

/-! ## The scans and the run-finding loop -/

/-- A scan that returns `r` read the entries `page .. r`, all different from
`v` but the last. -/
theorem scan_pages_some (v : Bool) (flags : Nat → Bool) :
    ∀ (fuel page r : Nat), scan_pages v flags fuel page = some r →
      page ≤ r ∧ r < page + fuel ∧ flags r = v ∧ ∀ i, page ≤ i → i < r → flags i = !v := by
  intro fuel
  induction fuel with
  | zero => intro page r h; simp [scan_pages] at h
  | succ n ih =>
    intro page r h
    unfold scan_pages at h
    by_cases hv : flags page = v
    · simp [hv] at h
      subst h
      exact ⟨le_refl _, by omega, hv, fun i h1 h2 => by omega⟩
    · simp [hv] at h
      obtain ⟨h1, h2, h3, h4⟩ := ih (page + 1) r h
      refine ⟨by omega, by omega, h3, ?_⟩
      intro i hi hir
      by_cases hip : i = page
      · subst hip
        cases hf : flags i <;> cases v <;> simp_all
      · exact h4 i (by omega) hir

/-- A scan returns when an entry equal to `v` is within reach of its fuel. -/
theorem scan_pages_find (v : Bool) (flags : Nat → Bool) :
    ∀ (fuel page k : Nat), page ≤ k → k < page + fuel → flags k = v →
      ∃ r, scan_pages v flags fuel page = some r := by
  intro fuel
  induction fuel with
  | zero => intro page k h1 h2; omega
  | succ n ih =>
    intro page k h1 h2 h3
    unfold scan_pages
    by_cases hv : flags page = v
    · exact ⟨page, by simp [hv]⟩
    · have hk : k ≠ page := by
        intro h; subst h; exact hv h3
      obtain ⟨r, hr⟩ := ih (page + 1) k (by omega) (by omega) h3
      exact ⟨r, by simp [hv, hr]⟩

/-- With the guards intact `find_next_page_set` returns the smallest index from
`page` on whose flag is SET, at most `pageCount + 1`. -/
theorem find_next_page_set_spec (c : Config) (s : State) (page : Nat)
    (hg : GuardsIntact c s) (hp : page ≤ c.pageCount + 1) :
    ∃ r, find_next_page_set c s page = some r ∧ page ≤ r ∧ r ≤ c.pageCount + 1 ∧
      s.dirtyPages r = true ∧ ∀ i, page ≤ i → i < r → s.dirtyPages i = false := by
  obtain ⟨r, hr⟩ := scan_pages_find true s.dirtyPages (c.pageCount + 2 - page) page
    (c.pageCount + 1) hp (by omega) hg.2
  obtain ⟨h1, h2, h3, h4⟩ := scan_pages_some _ _ _ _ _ hr
  exact ⟨r, hr, h1, by omega, h3, fun i a b => by simpa using h4 i a b⟩

/-- With the guards intact `find_next_page_clear` returns the smallest index
from `page` on whose flag is CLEAR, at most `pageCount`. -/
theorem find_next_page_clear_spec (c : Config) (s : State) (page : Nat)
    (hg : GuardsIntact c s) (hp : page ≤ c.pageCount) :
    ∃ r, find_next_page_clear c s page = some r ∧ page ≤ r ∧ r ≤ c.pageCount ∧
      s.dirtyPages r = false ∧ ∀ i, page ≤ i → i < r → s.dirtyPages i = true := by
  obtain ⟨r, hr⟩ := scan_pages_find false s.dirtyPages (c.pageCount + 2 - page) page
    c.pageCount hp (by omega) hg.1
  obtain ⟨h1, h2, h3, h4⟩ := scan_pages_some _ _ _ _ _ hr
  have hrn : r ≤ c.pageCount := by
    by_contra hcon
    have := h4 c.pageCount hp (by omega)
    rw [hg.1] at this
    simp at this
  exact ⟨r, hr, h1, hrn, h3, fun i a b => by simpa using h4 i a b⟩


/-- The flags after one iteration of the loop body: the run is cleared. -/
theorem process_run_dirtyPages (c : Config) (render : Nat → Nat → State → State)
    (hr : RenderOK render) (s : State) (r : Nat × Nat) :
    (process_run c render s r).dirtyPages =
      fun i => if r.1 ≤ i ∧ i < r.2 then false else s.dirtyPages i := by
  unfold process_run
  rw [(hr _ _ _).1]
  simp [vm_protect, PFLAG_CLEAR_RANGE, emit]

/-- Main lemma on the run-finding loop.  Entered at `page` with enough fuel,
the loop returns the state obtained by processing, in order, the list of the
maximal runs of SET pages that begin at `page` or later; the list is sorted
with gaps and covers every SET real page from `page` on. -/
theorem vosf_loop_runs (c : Config) (render : Nat → Nat → State → State)
    (hr : RenderOK render) :
    ∀ (fuel page : Nat) (s : State), GuardsIntact c s → page ≤ c.pageCount →
      (page = 0 ∨ s.dirtyPages page = false) → c.pageCount - page < fuel →
      ∃ runs : List (Nat × Nat),
        vosf_loop c render fuel page s = some (process_runs c render runs s) ∧
        runs.Pairwise (fun r r' => r.2 < r'.1) ∧
        (∀ a b, (a, b) ∈ runs ↔ page ≤ a ∧ IsDirtyRun s.dirtyPages c.pageCount a b) ∧
        (∀ i, page ≤ i → i < c.pageCount → s.dirtyPages i = true →
          ∃ r ∈ runs, r.1 ≤ i ∧ i < r.2) := by
  intro fuel
  induction fuel with
  | zero => intro page s _ _ _ h; omega
  | succ n ih =>
    intro page s hg hp hinv hfuel
    obtain ⟨first, hfs, hf1, hf2, hf3, hf4⟩ := find_next_page_set_spec c s page hg (by omega)
    by_cases hbreak : first ≥ c.pageCount
    · refine ⟨[], ?_, List.Pairwise.nil, ?_, ?_⟩
      · simp [vosf_loop, hfs, hbreak, process_runs]
      · intro a b
        simp only [List.not_mem_nil, false_iff, not_and]
        intro hpa hrun
        obtain ⟨h1, h2, h3, _, _⟩ := hrun
        have := h3 a (le_refl _) h1
        rw [hf4 a hpa (by omega)] at this
        simp at this
      · intro i hi hin hset
        rw [hf4 i hi (by omega)] at hset
        simp at hset
    · have hfirst : first < c.pageCount := by omega
      obtain ⟨pg, hcs, hc1, hc2, hc3, hc4⟩ := find_next_page_clear_spec c s first hg (by omega)
      have hlt : first < pg := by
        rcases Nat.eq_or_lt_of_le hc1 with h | h
        · subst h; rw [hf3] at hc3; simp at hc3
        · exact h
      have hs1 : (process_run c render s (first, pg)).dirtyPages =
          fun i => if first ≤ i ∧ i < pg then false else s.dirtyPages i :=
        process_run_dirtyPages c render hr s (first, pg)
      have hsame : ∀ i, pg ≤ i → (process_run c render s (first, pg)).dirtyPages i
          = s.dirtyPages i := by
        intro i hi
        rw [hs1]
        have : ¬ (first ≤ i ∧ i < pg) := by omega
        simp [this]
      have hg1 : GuardsIntact c (process_run c render s (first, pg)) := by
        unfold GuardsIntact
        rw [hsame _ hc2, hsame _ (by omega)]
        exact hg
      have hpg1 : (process_run c render s (first, pg)).dirtyPages pg = false := by
        rw [hsame _ (le_refl _)]; exact hc3
      obtain ⟨runs, hloop, hpw, hmem, hcov⟩ :=
        ih pg (process_run c render s (first, pg)) hg1 hc2 (Or.inr hpg1) (by omega)
      have hstart : ∀ a b, (a, b) ∈ runs → pg < a := by
        intro a b hab
        obtain ⟨h1, h2, _, h3, _⟩ := (hmem a b).1 hab
        rcases Nat.eq_or_lt_of_le h1 with h | h
        · subst h
          have := h3 pg (le_refl _) h2
          rw [hpg1] at this; simp at this
        · exact h
      have htrans : ∀ a b, pg < a →
          (IsDirtyRun (process_run c render s (first, pg)).dirtyPages c.pageCount a b ↔
            IsDirtyRun s.dirtyPages c.pageCount a b) := by
        intro a b ha
        unfold IsDirtyRun
        constructor
        · rintro ⟨h1, h2, h3, h4, h5⟩
          refine ⟨h1, h2, ?_, ?_, ?_⟩
          · intro i hi1 hi2
            rw [← hsame i (by omega)]; exact h3 i hi1 hi2
          · rw [← hsame (a - 1) (by omega)]; exact h4
          · rw [← hsame b (by omega)]; exact h5
        · rintro ⟨h1, h2, h3, h4, h5⟩
          refine ⟨h1, h2, ?_, ?_, ?_⟩
          · intro i hi1 hi2
            rw [hsame i (by omega)]; exact h3 i hi1 hi2
          · rw [hsame (a - 1) (by omega)]; exact h4
          · rw [hsame b (by omega)]; exact h5
      refine ⟨(first, pg) :: runs, ?_, ?_, ?_, ?_⟩
      · simp only [vosf_loop, hfs, hcs, hbreak, if_false]
        simp only [process_runs, List.foldl_cons] at hloop ⊢
        exact hloop
      · refine List.Pairwise.cons ?_ hpw
        intro r hrmem
        exact hstart r.1 r.2 hrmem
      · intro a b
        simp only [List.mem_cons, Prod.mk.injEq]
        constructor
        · rintro (⟨rfl, rfl⟩ | hab)
          · refine ⟨hf1, hlt, hc2, hc4, ?_, Or.inr hc3⟩
            rcases Nat.eq_or_lt_of_le hf1 with h | h
            · rcases hinv with h0 | h0
              · left; omega
              · rw [h, hf3] at h0; simp at h0
            · right; exact hf4 (a - 1) (by omega) (by omega)
          · have := hstart a b hab
            exact ⟨by omega, (htrans a b this).1 ((hmem a b).1 hab).2⟩
        · rintro ⟨hpa, hrun⟩
          obtain ⟨h1, h2, h3, h4, h5⟩ := hrun
          have hat : s.dirtyPages a = true := h3 a (le_refl _) h1
          have hfa : first ≤ a := by
            by_contra hcon
            rw [hf4 a hpa (by omega)] at hat; simp at hat
          rcases Nat.eq_or_lt_of_le hfa with h | h
          · left
            refine ⟨h.symm, ?_⟩
            subst h
            have hbp : b ≤ pg := by
              by_contra hcon
              have := h3 pg (by omega) (by omega)
              rw [hc3] at this; simp at this
            rcases Nat.eq_or_lt_of_le hbp with h | h
            · exact h
            · exfalso
              have hb := hc4 b (by omega) h
              rcases h5 with h5 | h5
              · omega
              · rw [hb] at h5; simp at h5
          · right
            have hpa2 : pg < a := by
              by_contra hcon
              rcases Nat.eq_or_lt_of_le (Nat.le_of_not_lt hcon) with h' | h'
              · rw [h', hc3] at hat; simp at hat
              · have := hc4 (a - 1) (by omega) (by omega)
                rcases h4 with h4 | h4
                · omega
                · rw [this] at h4; simp at h4
            exact (hmem a b).2 ⟨by omega, (htrans a b hpa2).2 ⟨h1, h2, h3, h4, h5⟩⟩
      · intro i hi hin hset
        have hfi : first ≤ i := by
          by_contra hcon
          rw [hf4 i hi (by omega)] at hset; simp at hset
        by_cases hip : i < pg
        · exact ⟨(first, pg), List.mem_cons_self _ _, hfi, hip⟩
        · have hne : i ≠ pg := by
            intro h; rw [h, hc3] at hset; simp at hset
          obtain ⟨r, hrm, hr1, hr2⟩ := hcov i (by omega) hin (by rw [hsame i (by omega)]; exact hset)
          exact ⟨r, List.mem_cons_of_mem _ hrm, hr1, hr2⟩


/-- More fuel does not change the result of a loop that returned. -/
theorem vosf_loop_mono (c : Config) (render : Nat → Nat → State → State) :
    ∀ (fuel page : Nat) (s s' : State), vosf_loop c render fuel page s = some s' →
      ∀ fuel', fuel ≤ fuel' → vosf_loop c render fuel' page s = some s' := by
  intro fuel
  induction fuel with
  | zero => intro page s s' h; simp [vosf_loop] at h
  | succ n ih =>
    intro page s s' h fuel' hle
    obtain ⟨m, rfl⟩ : ∃ m, fuel' = m + 1 := ⟨fuel' - 1, by omega⟩
    unfold vosf_loop at h ⊢
    cases hfs : find_next_page_set c s page with
    | none => simp [hfs] at h
    | some first =>
      simp only [hfs] at h ⊢
      by_cases hb : first ≥ c.pageCount
      · simpa [hb] using h
      · simp only [hb, if_false] at h ⊢
        cases hcs : find_next_page_clear c s first with
        | none => simp [hcs] at h
        | some pg =>
          simp only [hcs] at h ⊢
          exact ih _ _ _ h m (by omega)

/-! ## The two renderers -/

/-- The row loop of the windowed update adds one `Screen_blit` for each row. -/
theorem blit_rows_eq (c : Config) (length : Int) :
    ∀ (n : Nat) (i : Int) (s : State),
      blit_rows c length n i s =
        { s with trace := s.trace ++ (List.range n).map fun (k : Nat) =>
            Event.Screen_blit (i + (k : Int) * c.bytes_per_row) (i + (k : Int) * c.bytes_per_row) length } := by
  intro n
  induction n with
  | zero => intro i s; simp [blit_rows]
  | succ n ih =>
    intro i s
    rw [blit_rows, ih]
    simp only [emit, List.append_assoc, List.range_succ_eq_map, List.map_cons, List.map_map]
    congr 2
    simp only [List.singleton_append, Nat.cast_zero, zero_mul, add_zero, List.cons.injEq, true_and]
    apply List.map_congr_left
    intro k _
    simp only [Function.comp, Nat.cast_succ]
    ring_nf

/-- The effects of the rendering part of the windowed update. -/
theorem window_render_eq (c : Config) (a b : Nat) (s : State) :
    window_render c a b s =
      { s with trace := s.trace ++
          (window_row_events c (c.pageInfo a).top (c.pageInfo (b - 1)).bottom ++
           [window_push_event c (c.pageInfo a).top (c.pageInfo (b - 1)).bottom]) } := by
  unfold window_render window_row_events window_push_event
  simp only [blit_rows_eq]
  by_cases hd : c.depth = 1 <;> by_cases hs : c.have_shm = true <;>
    simp [hd, hs, emit, add_mul, Nat.mul_comm]

/-- The rendering part of the windowed update leaves the flags alone. -/
theorem window_render_ok (c : Config) : RenderOK (window_render c) := by
  intro a b s
  rw [window_render_eq]
  refine ⟨rfl, rfl, rfl, rfl, _, rfl, ?_⟩
  intro e he
  simp only [List.mem_append, List.mem_singleton, window_row_events, List.mem_map] at he
  rcases he with ⟨k, _, rfl⟩ | rfl
  · rfl
  · unfold window_push_event
    split <;> rfl

/-- The copy to `the_buffer_copy` leaves the flags and `the_buffer` alone. -/
theorem memcpy_ok (d sr l : Int) (s : State) :
    (memcpy d sr l s).dirtyPages = s.dirtyPages ∧ (memcpy d sr l s).dirty = s.dirty ∧
    (memcpy d sr l s).the_buffer = s.the_buffer ∧ (memcpy d sr l s).stderr = s.stderr ∧
    (memcpy d sr l s).trace = s.trace ++ [Event.memcpy d sr l] := by
  simp [memcpy, emit]

/-- The row loop of the DGA update leaves the flags alone. -/
theorem dga_copy_rows_ok (c : Config) (length : Int) :
    ∀ (n : Nat) (i : Int) (s : State),
      (dga_copy_rows c length n i s).dirtyPages = s.dirtyPages ∧
      (dga_copy_rows c length n i s).dirty = s.dirty ∧
      (dga_copy_rows c length n i s).the_buffer = s.the_buffer ∧
      (dga_copy_rows c length n i s).stderr = s.stderr ∧
      ∃ evs, (dga_copy_rows c length n i s).trace = s.trace ++ evs ∧
        ∀ e ∈ evs, Event.is_render e = true := by
  intro n
  induction n with
  | zero => intro i s; exact ⟨rfl, rfl, rfl, rfl, [], by simp [dga_copy_rows], by simp⟩
  | succ n ih =>
    intro i s
    rw [dga_copy_rows]
    obtain ⟨h1, h2, h3, h4, evs, h5, h6⟩ :=
      ih (i + c.bytes_per_row) (memcpy i i length (emit (Event.Screen_blit i i length) s))
    refine ⟨by rw [h1]; rfl, by rw [h2]; rfl, by rw [h3]; rfl, by rw [h4]; rfl,
      Event.Screen_blit i i length :: Event.memcpy i i length :: evs, ?_, ?_⟩
    · rw [h5]; simp [memcpy, emit]
    · intro e he
      simp only [List.mem_cons] at he
      rcases he with rfl | rfl | he
      · rfl
      · rfl
      · exact h6 e he

/-- The rendering part of the DGA update leaves the flags alone. -/
theorem dga_render_ok (c : Config) : RenderOK (dga_render c) := by
  intro a b s
  unfold dga_render
  exact dga_copy_rows_ok c _ _ _ s


/-! ## Processing a list of runs -/

/-- The cleared ranges of a concatenation. -/
theorem cleared_ranges_append (l1 l2 : List Event) :
    cleared_ranges (l1 ++ l2) = cleared_ranges l1 ++ cleared_ranges l2 := by
  induction l1 with
  | nil => rfl
  | cons e t ih => cases e <;> simp [cleared_ranges, ih]

/-- The `vm_protect` calls of a concatenation. -/
theorem protect_calls_append (l1 l2 : List Event) :
    protect_calls (l1 ++ l2) = protect_calls l1 ++ protect_calls l2 := by
  induction l1 with
  | nil => rfl
  | cons e t ih => cases e <;> simp [protect_calls, ih]

/-- Render effects clear no flag. -/
theorem cleared_ranges_render (l : List Event) (h : ∀ e ∈ l, Event.is_render e = true) :
    cleared_ranges l = [] := by
  induction l with
  | nil => rfl
  | cons e t ih =>
    have he := h e (List.mem_cons_self _ _)
    have ht := ih (fun e' he' => h e' (List.mem_cons_of_mem _ he'))
    cases e <;> simp_all [cleared_ranges, Event.is_render]

/-- Render effects change no protection. -/
theorem protect_calls_render (l : List Event) (h : ∀ e ∈ l, Event.is_render e = true) :
    protect_calls l = [] := by
  induction l with
  | nil => rfl
  | cons e t ih =>
    have he := h e (List.mem_cons_self _ _)
    have ht := ih (fun e' he' => h e' (List.mem_cons_of_mem _ he'))
    cases e <;> simp_all [protect_calls, Event.is_render]

/-- A shift whose result is below `2^31` is stored in an `int32` unchanged. -/
theorem int32_of_lt (n : Nat) (h : n < 2 ^ 31) : int32 n = (n : Int) := by
  unfold int32
  rw [Nat.mod_eq_of_lt (by omega)]
  push_cast
  omega

/-- A shift whose result is below `2^32` is stored in a `uint32` unchanged. -/
theorem uint32_of_lt (n : Nat) (h : n < 2 ^ 32) : uint32 n = n :=
  Nat.mod_eq_of_lt h

/-- In a region whose pages span at most `2^31` bytes, the `vm_protect` call of
a run of real pages has the byte range of the run as its arguments: neither
`offset` nor `length` wraps. -/
theorem run_protect_exact (c : Config) (r : Nat × Nat) (h1 : r.1 < r.2)
    (h2 : r.2 ≤ c.pageCount) (hsmall : c.pageCount <<< c.pageBits ≤ 2 ^ 31) :
    run_protect c r =
      (c.memStart + (r.1 <<< c.pageBits), (r.2 - r.1) <<< c.pageBits, Prot.VM_PAGE_READ) := by
  have hP : 0 < 2 ^ c.pageBits := by positivity
  simp only [Nat.shiftLeft_eq] at hsmall
  have e1 : (r.1 + 1) * 2 ^ c.pageBits ≤ c.pageCount * 2 ^ c.pageBits :=
    Nat.mul_le_mul_right _ (by omega)
  have e2 : (r.2 - r.1) * 2 ^ c.pageBits ≤ c.pageCount * 2 ^ c.pageBits :=
    Nat.mul_le_mul_right _ (by omega)
  have e3 : (r.1 + 1) * 2 ^ c.pageBits = r.1 * 2 ^ c.pageBits + 2 ^ c.pageBits := by ring
  unfold run_protect
  rw [int32_of_lt _ (by rw [Nat.shiftLeft_eq]; omega),
    uint32_of_lt _ (by rw [Nat.shiftLeft_eq]; omega)]
  have e4 : ((c.memStart : Int) + ((r.1 <<< c.pageBits : Nat) : Int)).toNat =
      c.memStart + (r.1 <<< c.pageBits) := by
    rw [← Nat.cast_add, Int.toNat_natCast]
  rw [e4]

/-- What one iteration of the loop body leaves alone, and its effects. -/
theorem process_run_frame (c : Config) (render : Nat → Nat → State → State)
    (hr : RenderOK render) (s : State) (r : Nat × Nat) :
    (process_run c render s r).dirty = s.dirty ∧
    (process_run c render s r).the_buffer = s.the_buffer ∧
    (process_run c render s r).stderr = s.stderr ∧
    ∃ evs, (process_run c render s r).trace =
        s.trace ++ (Event.PFLAG_CLEAR_RANGE r.1 r.2 ::
          Event.vm_protect ((c.memStart : Int) + int32 (r.1 <<< c.pageBits)).toNat
            (uint32 ((r.2 - r.1) <<< c.pageBits))
            Prot.VM_PAGE_READ :: evs) ∧
      ∀ e ∈ evs, Event.is_render e = true := by
  unfold process_run
  obtain ⟨_, h2, h3, h4, evs, h5, h6⟩ := hr r.1 r.2
    (vm_protect ((c.memStart : Int) + int32 (r.1 <<< c.pageBits)).toNat
      (uint32 ((r.2 - r.1) <<< c.pageBits))
      Prot.VM_PAGE_READ (PFLAG_CLEAR_RANGE r.1 r.2 s))
  refine ⟨by rw [h2]; rfl, by rw [h3]; rfl, by rw [h4]; rfl, evs, ?_, h6⟩
  rw [h5]
  simp [vm_protect, PFLAG_CLEAR_RANGE, emit]

/-- The state after processing a list of runs: the flags of the runs are CLEAR,
the other flags are as before, and the effects on the flags and the protections
are those of the runs, in order. -/
theorem process_runs_frame (c : Config) (render : Nat → Nat → State → State)
    (hr : RenderOK render) :
    ∀ (runs : List (Nat × Nat)) (s : State),
      (∀ i, (∃ r ∈ runs, r.1 ≤ i ∧ i < r.2) →
        (process_runs c render runs s).dirtyPages i = false) ∧
      (∀ i, (¬ ∃ r ∈ runs, r.1 ≤ i ∧ i < r.2) →
        (process_runs c render runs s).dirtyPages i = s.dirtyPages i) ∧
      (process_runs c render runs s).dirty = s.dirty ∧
      (process_runs c render runs s).the_buffer = s.the_buffer ∧
      (process_runs c render runs s).stderr = s.stderr ∧
      ∃ evs, (process_runs c render runs s).trace = s.trace ++ evs ∧
        cleared_ranges evs = runs ∧
        protect_calls evs = runs.map (run_protect c) ∧
        ∀ e ∈ evs, Event.is_render e = true ∨
          ∃ r ∈ runs, e = Event.PFLAG_CLEAR_RANGE r.1 r.2 ∨
            e = Event.vm_protect ((c.memStart : Int) + int32 (r.1 <<< c.pageBits)).toNat
              (uint32 ((r.2 - r.1) <<< c.pageBits)) Prot.VM_PAGE_READ := by
  intro runs
  induction runs with
  | nil =>
    intro s
    refine ⟨?_, ?_, rfl, rfl, rfl, [], ?_, rfl, rfl, ?_⟩
    · rintro i ⟨r, hr', _⟩; simp at hr'
    · intro i _; rfl
    · simp [process_runs]
    · simp
  | cons r t ih =>
    intro s
    obtain ⟨i1, i2, i3, i4, i5, evs, i6, i7, i8, i9⟩ := ih (process_run c render s r)
    obtain ⟨f1, f2, f3, ev1, f4, f5⟩ := process_run_frame c render hr s r
    have hd := process_run_dirtyPages c render hr s r
    have hfold : process_runs c render (r :: t) s =
        process_runs c render t (process_run c render s r) := by
      simp [process_runs]
    rw [hfold]
    refine ⟨?_, ?_, by rw [i3, f1], by rw [i4, f2], by rw [i5, f3],
      (Event.PFLAG_CLEAR_RANGE r.1 r.2 ::
          Event.vm_protect ((c.memStart : Int) + int32 (r.1 <<< c.pageBits)).toNat
            (uint32 ((r.2 - r.1) <<< c.pageBits))
            Prot.VM_PAGE_READ :: ev1) ++ evs, ?_, ?_, ?_, ?_⟩
    · rintro i ⟨r', hr', hi⟩
      by_cases hex : ∃ r ∈ t, r.1 ≤ i ∧ i < r.2
      · exact i1 i hex
      · rw [i2 i hex, hd]
        rcases List.mem_cons.1 hr' with h | h
        · subst h; simp [hi]
        · exact absurd ⟨r', h, hi⟩ hex
    · intro i hi
      have hex : ¬ ∃ r ∈ t, r.1 ≤ i ∧ i < r.2 := by
        rintro ⟨r', hr', h⟩
        exact hi ⟨r', List.mem_cons_of_mem _ hr', h⟩
      have hr0 : ¬ (r.1 ≤ i ∧ i < r.2) := fun h => hi ⟨r, List.mem_cons_self _ _, h⟩
      rw [i2 i hex, hd]
      simp [hr0]
    · rw [i6, f4]; simp
    · rw [cleared_ranges_append]
      simp [cleared_ranges, cleared_ranges_render ev1 f5, i7]
    · rw [protect_calls_append]
      simp [protect_calls, protect_calls_render ev1 f5, i8, run_protect]
    · intro e he
      rcases List.mem_append.1 he with h | h
      · simp only [List.mem_cons] at h
        rcases h with rfl | rfl | h
        · exact Or.inr ⟨r, List.mem_cons_self _ _, Or.inl rfl⟩
        · exact Or.inr ⟨r, List.mem_cons_self _ _, Or.inr rfl⟩
        · exact Or.inl (f5 e h)
      · rcases i9 e h with h' | ⟨r', hr', h'⟩
        · exact Or.inl h'
        · exact Or.inr ⟨r', List.mem_cons_of_mem _ hr', h'⟩

/-- The trace of the windowed update after processing a list of runs. -/
theorem process_runs_window_trace (c : Config) :
    ∀ (runs : List (Nat × Nat)) (s : State),
      (process_runs c (window_render c) runs s).trace =
        s.trace ++ runs.flatMap (window_run_events c) := by
  intro runs
  induction runs with
  | nil => intro s; simp [process_runs]
  | cons r t ih =>
    intro s
    have hfold : process_runs c (window_render c) (r :: t) s =
        process_runs c (window_render c) t (process_run c (window_render c) s r) := by
      simp [process_runs]
    rw [hfold, ih]
    simp [process_run, window_render_eq, vm_protect, PFLAG_CLEAR_RANGE, emit,
      window_run_events]

/-- Whatever the fuel, a loop that returned from page 0 has processed the
maximal runs of SET pages. -/
theorem vosf_loop_result (c : Config) (render : Nat → Nat → State → State)
    (hr : RenderOK render) (s s0 : State) (fuel : Nat) (hg : GuardsIntact c s)
    (h : vosf_loop c render fuel 0 s = some s0) :
    ∃ runs : List (Nat × Nat), s0 = process_runs c render runs s ∧
      runs.Pairwise (fun r r' => r.2 < r'.1) ∧
      (∀ a b, (a, b) ∈ runs ↔ IsDirtyRun s.dirtyPages c.pageCount a b) ∧
      (∀ i, i < c.pageCount → s.dirtyPages i = true → ∃ r ∈ runs, r.1 ≤ i ∧ i < r.2) := by
  obtain ⟨runs, h1, h2, h3, h4⟩ :=
    vosf_loop_runs c render hr (c.pageCount + 1) 0 s hg (Nat.zero_le _) (Or.inl rfl) (by omega)
  have e1 := vosf_loop_mono c render _ _ _ _ h (max fuel (c.pageCount + 1)) (le_max_left _ _)
  have e2 := vosf_loop_mono c render _ _ _ _ h1 (max fuel (c.pageCount + 1)) (le_max_right _ _)
  rw [e1] at e2
  refine ⟨runs, Option.some.inj e2, h2, ?_, ?_⟩
  · intro a b; rw [h3]; simp
  · intro i hi hs; exact h4 i (Nat.zero_le _) hi hs

/-- With more than `pageCount` units of fuel the loop returns from page 0. -/
theorem vosf_loop_total (c : Config) (render : Nat → Nat → State → State)
    (hr : RenderOK render) (s : State) (fuel : Nat) (hg : GuardsIntact c s)
    (hf : c.pageCount < fuel) :
    ∃ runs : List (Nat × Nat),
      vosf_loop c render fuel 0 s = some (process_runs c render runs s) ∧
      runs.Pairwise (fun r r' => r.2 < r'.1) ∧
      (∀ a b, (a, b) ∈ runs ↔ IsDirtyRun s.dirtyPages c.pageCount a b) ∧
      (∀ i, i < c.pageCount → s.dirtyPages i = true → ∃ r ∈ runs, r.1 ≤ i ∧ i < r.2) := by
  obtain ⟨runs, h1, h2, h3, h4⟩ :=
    vosf_loop_runs c render hr fuel 0 s hg (Nat.zero_le _) (Or.inl rfl) (by omega)
  refine ⟨runs, h1, h2, ?_, ?_⟩
  · intro a b; rw [h3]; simp
  · intro i hi hs; exact h4 i (Nat.zero_le _) hi hs


/-! ## Sequences of operations -/

/-- In a region that satisfies its invariants the page of an address inside the
region is a real page. -/
theorem fault_page_lt (c : Config) (hc : RegionOK c) (a : Nat)
    (hlo : c.memStart ≤ a) (hhi : a < c.memEnd) :
    (a - c.memStart) >>> c.pageBits < c.pageCount := by
  obtain ⟨h1, h2⟩ := hc
  have hP : 0 < c.pageSize := by rw [h1]; positivity
  rw [Nat.shiftRight_eq_div_pow, ← h1, h2, Nat.div_lt_iff_lt_mul hP]
  have hm := Nat.div_add_mod (c.memEnd - c.memStart + c.pageSize - 1) c.pageSize
  have hlt := Nat.mod_lt (c.memEnd - c.memStart + c.pageSize - 1) hP
  have hcomm : (c.memEnd - c.memStart + c.pageSize - 1) / c.pageSize * c.pageSize
      = c.pageSize * ((c.memEnd - c.memStart + c.pageSize - 1) / c.pageSize) := Nat.mul_comm _ _
  rw [hcomm]
  generalize c.pageSize * ((c.memEnd - c.memStart + c.pageSize - 1) / c.pageSize) = q at hm
  omega

/-- Render effects do not touch the flags. -/
theorem render_on_real_pages (n : Nat) (e : Event) (h : Event.is_render e = true) :
    Event.on_real_pages n e := by
  cases e <;> trivial

/-- Processing runs that end at `pageCount` at most keeps the guards. -/
theorem process_runs_guards (c : Config) (render : Nat → Nat → State → State)
    (hr : RenderOK render) (runs : List (Nat × Nat)) (s : State)
    (hb : ∀ r ∈ runs, r.2 ≤ c.pageCount) (hg : GuardsIntact c s) :
    GuardsIntact c (process_runs c render runs s) := by
  obtain ⟨_, h2, _⟩ := process_runs_frame c render hr runs s
  unfold GuardsIntact
  rw [h2 c.pageCount, h2 (c.pageCount + 1)]
  · exact hg
  · rintro ⟨r, hr', _, h⟩; have := hb r hr'; omega
  · rintro ⟨r, hr', _, h⟩; have := hb r hr'; omega

/-- A complete pass keeps the guards and touches the flags of real pages only.
-/
theorem pass_step (c : Config) (render : Nat → Nat → State → State)
    (hr : RenderOK render) (s s' : State) (fuel : Nat) (hg : GuardsIntact c s)
    (h : (vosf_loop c render fuel 0 s).map (set_dirty false) = some s') :
    GuardsIntact c s' ∧
      ∃ evs, s'.trace = s.trace ++ evs ∧ ∀ e ∈ evs, Event.on_real_pages c.pageCount e := by
  obtain ⟨s0, h0, rfl⟩ := Option.map_eq_some'.1 h
  obtain ⟨runs, rfl, _, hmem, _⟩ := vosf_loop_result c render hr s s0 fuel hg h0
  have hb : ∀ r ∈ runs, r.2 ≤ c.pageCount := fun r hr' => ((hmem r.1 r.2).1 hr').2.1
  have hg' := process_runs_guards c render hr runs s hb hg
  obtain ⟨_, _, _, _, _, evs, h6, _, _, h9⟩ := process_runs_frame c render hr runs s
  refine ⟨hg', evs ++ [Event.set_dirty false], ?_, ?_⟩
  · simp [set_dirty, emit, h6]
  · intro e he
    rcases List.mem_append.1 he with h | h
    · rcases h9 e h with h' | ⟨r, hr', rfl | rfl⟩
      · exact render_on_real_pages c.pageCount e h'
      · exact hb r hr'
      · trivial
    · simp only [List.mem_singleton] at h
      subst h; trivial

/-- One operation keeps the guards and touches the flags of real pages only. -/
theorem step_guards (c : Config) (hc : RegionOK c) (s s' : State)
    (hg : GuardsIntact c s) (h : Step c s s') :
    GuardsIntact c s' ∧
      ∃ evs, s'.trace = s.trace ++ evs ∧ ∀ e ∈ evs, Event.on_real_pages c.pageCount e := by
  cases h with
  | fault a ip =>
    by_cases hin : c.memStart ≤ a ∧ a < c.memEnd
    · have hpage := fault_page_lt c hc a hin.1 hin.2
      have hin' : a ≥ c.memStart ∧ a < c.memEnd := hin
      refine ⟨?_, [Event.LOCK_VOSF, Event.PFLAG_SET ((a - c.memStart) >>> c.pageBits),
        Event.vm_protect (a &&& neg_pageSize c) c.pageSize Prot.VM_PAGE_READ_WRITE,
        Event.set_dirty true, Event.UNLOCK_VOSF], ?_, ?_⟩
      · have e1 : c.pageCount ≠ (a - c.memStart) >>> c.pageBits := by omega
        have e2 : c.pageCount + 1 ≠ (a - c.memStart) >>> c.pageBits := by omega
        simpa [GuardsIntact, screen_fault_handler, hin', emit, PFLAG_SET, vm_protect, set_dirty,
          e1, e2] using hg
      · simp [screen_fault_handler, hin', emit, PFLAG_SET, vm_protect, set_dirty]
      · intro e he
        simp only [List.mem_cons, List.mem_singleton, List.not_mem_nil, or_false] at he
        rcases he with rfl | rfl | rfl | rfl | rfl <;> trivial
    · have hout : a < c.memStart ∨ c.memEnd ≤ a := by omega
      have hno : ¬ (a ≥ c.memStart ∧ a < c.memEnd) := hin
      refine ⟨?_, [], ?_, by simp⟩
      · by_cases hip : ip = c.SIGSEGV_INVALID_PC <;>
          simpa [GuardsIntact, screen_fault_handler, hno, hip, fprintf] using hg
      · by_cases hip : ip = c.SIGSEGV_INVALID_PC <;>
          simp [screen_fault_handler, hno, hip, fprintf]
  | window fuel _ _ h => exact pass_step c _ (window_render_ok c) s s' fuel hg h
  | dga fuel _ _ h => exact pass_step c _ (dga_render_ok c) s s' fuel hg h

/-- Claim C3. Guard invariance: in a region that satisfies its invariants
(`pageSize = 2 ^ pageBits`, `pageCount` the rounded-up quotient of
`memEnd - memStart` by `pageSize`), from a state whose guards are intact
(`flags[pageCount]` CLEAR, `flags[pageCount + 1]` SET), after any finite
sequence of fault handler calls at arbitrary addresses and of complete update
passes of either kind the guards are still intact, and every `PFLAG_SET` and
every `PFLAG_CLEAR_RANGE` performed on the way touches only indices below
`pageCount`. -/
theorem guards_invariant (c : Config) (hc : RegionOK c) (s s' : State)
    (hg : GuardsIntact c s) (h : Relation.ReflTransGen (Step c) s s') :
    GuardsIntact c s' ∧
      ∃ evs, s'.trace = s.trace ++ evs ∧ ∀ e ∈ evs, Event.on_real_pages c.pageCount e := by
  induction h with
  | refl => exact ⟨hg, [], by simp, by simp⟩
  | tail _ hstep ih =>
    obtain ⟨hg1, evs1, ht1, he1⟩ := ih
    obtain ⟨hg2, evs2, ht2, he2⟩ := step_guards c hc _ _ hg1 hstep
    refine ⟨hg2, evs1 ++ evs2, by rw [ht2, ht1, List.append_assoc], ?_⟩
    intro e he
    rcases List.mem_append.1 he with h | h
    · exact he1 e h
    · exact he2 e h


/-- Witness of claim C3: a fault in page 0 of `demo_config`, then one windowed
update. -/
theorem guards_invariant_witness :
    RegionOK demo_config ∧ GuardsIntact demo_config demo_state ∧
    Relation.ReflTransGen (Step demo_config) demo_state demo_state_updated ∧
    (GuardsIntact demo_config demo_state_updated ∧
     ∃ evs, demo_state_updated.trace = demo_state.trace ++ evs ∧
      ∀ e ∈ evs, Event.on_real_pages demo_config.pageCount e) :=
  ⟨by decide, by decide,
    Relation.ReflTransGen.tail
      (Relation.ReflTransGen.single (Step.fault 5000 0 demo_state))
      (Step.window 4 demo_state_faulted demo_state_updated rfl),
    guards_invariant demo_config (by decide) demo_state demo_state_updated (by decide)
      (Relation.ReflTransGen.tail
        (Relation.ReflTransGen.single (Step.fault 5000 0 demo_state))
        (Step.window 4 demo_state_faulted demo_state_updated rfl))⟩

/-! ## The update passes -/

/-- With more than `pageCount` units of fuel a pass returns, having processed
the maximal runs of SET pages. -/
theorem vosf_pass (c : Config) (render : Nat → Nat → State → State)
    (hr : RenderOK render) (s : State) (fuel : Nat) (hg : GuardsIntact c s)
    (hf : c.pageCount < fuel) :
    ∃ runs : List (Nat × Nat),
      (vosf_loop c render fuel 0 s).map (set_dirty false) =
        some (set_dirty false (process_runs c render runs s)) ∧
      runs.Pairwise (fun r r' => r.2 < r'.1) ∧
      (∀ a b, (a, b) ∈ runs ↔ IsDirtyRun s.dirtyPages c.pageCount a b) ∧
      (∀ i, i < c.pageCount → s.dirtyPages i = true → ∃ r ∈ runs, r.1 ≤ i ∧ i < r.2) := by
  obtain ⟨runs, h1, h2, h3, h4⟩ := vosf_loop_total c render hr s fuel hg hf
  exact ⟨runs, by rw [h1]; rfl, h2, h3, h4⟩

/-- A pass returns a state with the guards intact, all real pages CLEAR and
`mainBuffer.dirty` false. -/
theorem vosf_pass_clears (c : Config) (render : Nat → Nat → State → State)
    (hr : RenderOK render) (s : State) (fuel : Nat) (hg : GuardsIntact c s)
    (hf : c.pageCount < fuel) :
    ∃ s', (vosf_loop c render fuel 0 s).map (set_dirty false) = some s' ∧
      GuardsIntact c s' ∧
      (∀ i, i < c.pageCount → s'.dirtyPages i = false) ∧ s'.dirty = false := by
  obtain ⟨runs, h1, _, h3, h4⟩ := vosf_pass c render hr s fuel hg hf
  obtain ⟨f1, f2, _⟩ := process_runs_frame c render hr runs s
  have hb : ∀ r ∈ runs, r.2 ≤ c.pageCount := fun r hr' => ((h3 r.1 r.2).1 hr').2.1
  refine ⟨_, h1, process_runs_guards c render hr runs s hb hg, ?_, rfl⟩
  intro i hi
  show (process_runs c render runs s).dirtyPages i = false
  by_cases hex : ∃ r ∈ runs, r.1 ≤ i ∧ i < r.2
  · exact f1 i hex
  · rw [f2 i hex]
    cases hs : s.dirtyPages i with
    | false => rfl
    | true => exact absurd (h4 i hi hs) hex

/-- When no real page is SET the loop leaves at its first test. -/
theorem vosf_loop_clean (c : Config) (render : Nat → Nat → State → State)
    (s : State) (fuel : Nat) (hg : GuardsIntact c s)
    (hclean : ∀ i, i < c.pageCount → s.dirtyPages i = false) (hf : 0 < fuel) :
    vosf_loop c render fuel 0 s = some s := by
  obtain ⟨m, rfl⟩ : ∃ m, fuel = m + 1 := ⟨fuel - 1, by omega⟩
  obtain ⟨first, hfs, _, _, hf3, _⟩ := find_next_page_set_spec c s 0 hg (by omega)
  have hge : first ≥ c.pageCount := by
    by_contra hcon
    rw [hclean first (by omega)] at hf3
    simp at hf3
  simp [vosf_loop, hfs, hge]

/-- Claim C4. Termination: whatever the flags of the real pages are, when the
guards are intact the run-finding loop of either update pass ends within
`pageCount + 1` iterations of its outer loop (one `find_next_page_set`, then
at most one `find_next_page_clear`): the fuel `pageCount + 1`, one unit for
each iteration, is enough for the pass to return a state. -/
theorem update_pass_terminates (c : Config) (s : State) (hg : GuardsIntact c s) :
    (∃ s', update_display_window_vosf c (c.pageCount + 1) s = some s') ∧
    (∃ s', update_display_dga_vosf c (c.pageCount + 1) s = some s') := by
  obtain ⟨r1, h1, _⟩ :=
    vosf_pass c _ (window_render_ok c) s (c.pageCount + 1) hg (Nat.lt_succ_self _)
  obtain ⟨r2, h2, _⟩ :=
    vosf_pass c _ (dga_render_ok c) s (c.pageCount + 1) hg (Nat.lt_succ_self _)
  exact ⟨⟨_, h1⟩, ⟨_, h2⟩⟩

/-- Witness of claim C4: the passes on `demo_state`, with four iterations
allowed. -/
theorem update_pass_terminates_witness :
    GuardsIntact demo_config demo_state ∧
    ((∃ s', update_display_window_vosf demo_config (demo_config.pageCount + 1) demo_state
        = some s') ∧
     (∃ s', update_display_dga_vosf demo_config (demo_config.pageCount + 1) demo_state
        = some s')) :=
  ⟨by decide, update_pass_terminates demo_config demo_state (by decide)⟩

/-- Claim C5. Completeness of the clearing: from a state whose guards are
intact, one complete pass of either update routine, with no fault in between,
returns a state in which the flag of every real page (index below `pageCount`,
so every page that was SET when the pass began) is CLEAR and
`mainBuffer.dirty` is false. -/
theorem update_pass_clears_all (c : Config) (s : State) (fuel : Nat)
    (hg : GuardsIntact c s) (hf : c.pageCount < fuel) :
    (∃ s', update_display_window_vosf c fuel s = some s' ∧
      (∀ i, i < c.pageCount → s'.dirtyPages i = false) ∧ s'.dirty = false) ∧
    (∃ s', update_display_dga_vosf c fuel s = some s' ∧
      (∀ i, i < c.pageCount → s'.dirtyPages i = false) ∧ s'.dirty = false) := by
  obtain ⟨s1, h1, _, h2, h3⟩ := vosf_pass_clears c _ (window_render_ok c) s fuel hg hf
  obtain ⟨s2, k1, _, k2, k3⟩ := vosf_pass_clears c _ (dga_render_ok c) s fuel hg hf
  exact ⟨⟨s1, h1, h2, h3⟩, ⟨s2, k1, k2, k3⟩⟩

/-- Witness of claim C5: the passes on `demo_state`, with four iterations
allowed. -/
theorem update_pass_clears_all_witness :
    GuardsIntact demo_config demo_state ∧ demo_config.pageCount < 4 ∧
    ((∃ s', update_display_window_vosf demo_config 4 demo_state = some s' ∧
      (∀ i, i < demo_config.pageCount → s'.dirtyPages i = false) ∧ s'.dirty = false) ∧
     (∃ s', update_display_dga_vosf demo_config 4 demo_state = some s' ∧
      (∀ i, i < demo_config.pageCount → s'.dirtyPages i = false) ∧ s'.dirty = false)) :=
  ⟨by decide, by decide,
    update_pass_clears_all demo_config demo_state 4 (by decide) (by decide)⟩

/-- Claim C8. Idempotence: from a state whose guards are intact, either update
pass returns a state `s'` with `mainBuffer.dirty` false, and the same pass run
again on `s'`, with no fault in between, returns `s'` with nothing but the
store `mainBuffer.dirty = false` added to the trace: no conversion, no copy to
`the_buffer_copy`, no push to the window, no `PFLAG_CLEAR_RANGE`, no
`vm_protect`; the flags are those of `s'` and `mainBuffer.dirty` is still
false. -/
theorem update_pass_idempotent (c : Config) (s : State) (fuel fuel' : Nat)
    (hg : GuardsIntact c s) (hf : c.pageCount < fuel) (hf' : c.pageCount < fuel') :
    (∃ s', update_display_window_vosf c fuel s = some s' ∧ s'.dirty = false ∧
      update_display_window_vosf c fuel' s' =
        some { s' with trace := s'.trace ++ [Event.set_dirty false] }) ∧
    (∃ s', update_display_dga_vosf c fuel s = some s' ∧ s'.dirty = false ∧
      update_display_dga_vosf c fuel' s' =
        some { s' with trace := s'.trace ++ [Event.set_dirty false] }) := by
  obtain ⟨s1, h1, g1, h2, h3⟩ := vosf_pass_clears c _ (window_render_ok c) s fuel hg hf
  obtain ⟨s2, k1, g2, k2, k3⟩ := vosf_pass_clears c _ (dga_render_ok c) s fuel hg hf
  refine ⟨⟨s1, h1, h3, ?_⟩, ⟨s2, k1, k3, ?_⟩⟩
  · unfold update_display_window_vosf
    rw [vosf_loop_clean c _ s1 fuel' g1 h2 (by omega)]
    simp [set_dirty, emit, ← h3]
  · unfold update_display_dga_vosf
    rw [vosf_loop_clean c _ s2 fuel' g2 k2 (by omega)]
    simp [set_dirty, emit, ← k3]

/-- Witness of claim C8: the passes on `demo_state`, with four iterations
allowed each time. -/
theorem update_pass_idempotent_witness :
    GuardsIntact demo_config demo_state ∧ demo_config.pageCount < 4 ∧
    ((∃ s', update_display_window_vosf demo_config 4 demo_state = some s' ∧
      s'.dirty = false ∧
      update_display_window_vosf demo_config 4 s' =
        some { s' with trace := s'.trace ++ [Event.set_dirty false] }) ∧
     (∃ s', update_display_dga_vosf demo_config 4 demo_state = some s' ∧
      s'.dirty = false ∧
      update_display_dga_vosf demo_config 4 s' =
        some { s' with trace := s'.trace ++ [Event.set_dirty false] })) :=
  ⟨by decide, by decide,
    update_pass_idempotent demo_config demo_state 4 4 (by decide) (by decide) (by decide)⟩

set_option maxRecDepth 100000 in
/-- Counterexample to claim C9.  In `large_config`, 513 pages of 4 MiB at
address `2^32`, only the last page, page 512, is SET: the guards are intact and
`[512, 513)` is a maximal run, whose byte range is the 4194304 bytes at
`memStart + (512 << 22) = 6442450944`.  Either pass clears the flags of the
run, but `512 << 22 = 2^31` stored in `int32 offset` is `-2^31`, and the pass
makes read-only the 4194304 bytes at `memStart - 2^31 = 2147483648`: they end
below `memStart`, and no byte of the run is among them. -/
theorem update_pass_offset_wraps :
    GuardsIntact large_config large_state ∧
    IsDirtyRun large_state.dirtyPages large_config.pageCount 512 513 ∧
    large_config.memStart + (512 <<< large_config.pageBits) = 6442450944 ∧
    (513 - 512) <<< large_config.pageBits = 4194304 ∧
    int32 (512 <<< large_config.pageBits) = -2147483648 ∧
    (update_display_window_vosf large_config 514 large_state).map
        (fun s' => (cleared_ranges s'.trace, protect_calls s'.trace)) =
      some ([(512, 513)], [(2147483648, 4194304, Prot.VM_PAGE_READ)]) ∧
    (update_display_dga_vosf large_config 514 large_state).map
        (fun s' => (cleared_ranges s'.trace, protect_calls s'.trace)) =
      some ([(512, 513)], [(2147483648, 4194304, Prot.VM_PAGE_READ)]) ∧
    2147483648 + 4194304 ≤ large_config.memStart ∧
    ¬ (large_config.pageCount <<< large_config.pageBits ≤ 2 ^ 31) := by
  refine ⟨by decide, ⟨by decide, by decide, ?_, Or.inr (by decide), Or.inl rfl⟩,
    by decide, by decide, by decide, by decide, by decide, by decide, by decide⟩
  intro i h1 h2
  have hi : i = 512 := by omega
  subst hi
  rfl

/-- Claim C9, amended. Run enumeration: from a state whose guards are intact,
a pass `pass` of either update routine processes the list `runs` of pairs
`(first_page, page)` that is exactly the list of the maximal runs of
consecutive SET real pages of the initial flags, in strictly ascending order
(each run ends before the next begins).  Its `PFLAG_CLEAR_RANGE` calls are
those of `runs`, in order, and nothing else; the flags inside a run end CLEAR
and every flag outside all runs is as it was.  Its `vm_protect` calls are one
read-only call for each run, in order, and nothing else, of
`uint32 length = (page - first_page) << pageBits` bytes at `memStart` moved by
`int32 offset = first_page << pageBits`; when the pages of the region span at
most `2^31` bytes (`pageCount << pageBits <= 2^31`) neither value wraps, and
the call of a run is the protection of exactly
`(page - first_page) << pageBits` bytes at
`memStart + (first_page << pageBits)`. -/
theorem update_pass_runs (c : Config) (s : State) (fuel : Nat)
    (pass : Config → Nat → State → Option State)
    (hp : pass = update_display_window_vosf ∨ pass = update_display_dga_vosf)
    (hg : GuardsIntact c s) (hf : c.pageCount < fuel) :
    ∃ (runs : List (Nat × Nat)) (s' : State) (evs : List Event),
      pass c fuel s = some s' ∧
      runs.Pairwise (fun r r' => r.2 < r'.1) ∧
      (∀ a b, (a, b) ∈ runs ↔ IsDirtyRun s.dirtyPages c.pageCount a b) ∧
      s'.trace = s.trace ++ evs ∧
      cleared_ranges evs = runs ∧
      protect_calls evs = runs.map (fun r =>
        (((c.memStart : Int) + int32 (r.1 <<< c.pageBits)).toNat,
          uint32 ((r.2 - r.1) <<< c.pageBits), Prot.VM_PAGE_READ)) ∧
      (c.pageCount <<< c.pageBits ≤ 2 ^ 31 →
        protect_calls evs = runs.map (fun r =>
          (c.memStart + (r.1 <<< c.pageBits), (r.2 - r.1) <<< c.pageBits,
            Prot.VM_PAGE_READ))) ∧
      (∀ i, (∃ r ∈ runs, r.1 ≤ i ∧ i < r.2) → s'.dirtyPages i = false) ∧
      (∀ i, (¬ ∃ r ∈ runs, r.1 ≤ i ∧ i < r.2) → s'.dirtyPages i = s.dirtyPages i) := by
  have key : ∀ render, RenderOK render →
      ∃ (runs : List (Nat × Nat)) (s' : State) (evs : List Event),
      (vosf_loop c render fuel 0 s).map (set_dirty false) = some s' ∧
      runs.Pairwise (fun r r' => r.2 < r'.1) ∧
      (∀ a b, (a, b) ∈ runs ↔ IsDirtyRun s.dirtyPages c.pageCount a b) ∧
      s'.trace = s.trace ++ evs ∧
      cleared_ranges evs = runs ∧
      protect_calls evs = runs.map (fun r =>
        (((c.memStart : Int) + int32 (r.1 <<< c.pageBits)).toNat,
          uint32 ((r.2 - r.1) <<< c.pageBits), Prot.VM_PAGE_READ)) ∧
      (c.pageCount <<< c.pageBits ≤ 2 ^ 31 →
        protect_calls evs = runs.map (fun r =>
          (c.memStart + (r.1 <<< c.pageBits), (r.2 - r.1) <<< c.pageBits,
            Prot.VM_PAGE_READ))) ∧
      (∀ i, (∃ r ∈ runs, r.1 ≤ i ∧ i < r.2) → s'.dirtyPages i = false) ∧
      (∀ i, (¬ ∃ r ∈ runs, r.1 ≤ i ∧ i < r.2) → s'.dirtyPages i = s.dirtyPages i) := by
    intro render hr
    obtain ⟨runs, h1, h2, h3, _⟩ := vosf_pass c render hr s fuel hg hf
    obtain ⟨f1, f2, _, _, _, evs, f6, f7, f8, _⟩ := process_runs_frame c render hr runs s
    have hcalls : protect_calls (evs ++ [Event.set_dirty false]) =
        runs.map (run_protect c) := by
      rw [protect_calls_append, f8]
      simp only [protect_calls, List.append_nil]
    refine ⟨runs, _, evs ++ [Event.set_dirty false], h1, h2, h3, ?_, ?_, ?_, ?_, f1, f2⟩
    · simp [set_dirty, emit, f6]
    · rw [cleared_ranges_append, f7]; simp [cleared_ranges]
    · rw [hcalls]; rfl
    · intro hsmall
      rw [hcalls]
      apply List.map_congr_left
      intro r hr'
      obtain ⟨k1, k2, _⟩ := (h3 r.1 r.2).1 hr'
      exact run_protect_exact c r k1 k2 hsmall
  rcases hp with rfl | rfl
  · exact key _ (window_render_ok c)
  · exact key _ (dga_render_ok c)

/-- Witness of claim C9, amended: the windowed pass on `demo_state_faulted`, in
which pages 0 and 2 of `demo_config` are SET and page 1 is CLEAR.  The three
pages of the region span 12288 bytes.  The pass clears the runs `[0, 1)` and
`[2, 3)` and makes their pages read-only, after the call with which the fault
handler had made page 0 writable. -/
theorem update_pass_runs_witness :
    (update_display_window_vosf = update_display_window_vosf ∨
      update_display_window_vosf = update_display_dga_vosf) ∧
    GuardsIntact demo_config demo_state_faulted ∧ demo_config.pageCount < 4 ∧
    demo_config.pageCount <<< demo_config.pageBits ≤ 2 ^ 31 ∧
    (update_display_window_vosf demo_config 4 demo_state_faulted).map
        (fun s' => (cleared_ranges s'.trace, protect_calls s'.trace)) =
      some ([(0, 1), (2, 3)],
        [(4096, 4096, Prot.VM_PAGE_READ_WRITE), (4096, 4096, Prot.VM_PAGE_READ),
         (12288, 4096, Prot.VM_PAGE_READ)]) ∧
    ∃ (runs : List (Nat × Nat)) (s' : State) (evs : List Event),
      update_display_window_vosf demo_config 4 demo_state_faulted = some s' ∧
      runs.Pairwise (fun r r' => r.2 < r'.1) ∧
      (∀ a b, (a, b) ∈ runs ↔
        IsDirtyRun demo_state_faulted.dirtyPages demo_config.pageCount a b) ∧
      s'.trace = demo_state_faulted.trace ++ evs ∧
      cleared_ranges evs = runs ∧
      protect_calls evs = runs.map (fun r =>
        (((demo_config.memStart : Int) + int32 (r.1 <<< demo_config.pageBits)).toNat,
          uint32 ((r.2 - r.1) <<< demo_config.pageBits), Prot.VM_PAGE_READ)) ∧
      (demo_config.pageCount <<< demo_config.pageBits ≤ 2 ^ 31 →
        protect_calls evs = runs.map (fun r =>
          (demo_config.memStart + (r.1 <<< demo_config.pageBits),
            (r.2 - r.1) <<< demo_config.pageBits, Prot.VM_PAGE_READ))) ∧
      (∀ i, (∃ r ∈ runs, r.1 ≤ i ∧ i < r.2) → s'.dirtyPages i = false) ∧
      (∀ i, (¬ ∃ r ∈ runs, r.1 ≤ i ∧ i < r.2) →
        s'.dirtyPages i = demo_state_faulted.dirtyPages i) :=
  ⟨Or.inl rfl, by decide, by decide, by decide, by decide,
    update_pass_runs demo_config demo_state_faulted 4 update_display_window_vosf (Or.inl rfl)
      (by decide) (by decide)⟩

/-- The scenario of claim C9 evaluated: with only page 2 SET, either pass
clears the single run `[2, 3)` and makes the 4096 bytes of page 2 read-only. -/
theorem demo_single_run :
    (update_display_window_vosf demo_config 4 demo_state).map
        (fun s' => (cleared_ranges s'.trace, protect_calls s'.trace)) =
      some ([(2, 3)], [(12288, 4096, Prot.VM_PAGE_READ)]) ∧
    (update_display_dga_vosf demo_config 4 demo_state).map
        (fun s' => (cleared_ranges s'.trace, protect_calls s'.trace)) =
      some ([(2, 3)], [(12288, 4096, Prot.VM_PAGE_READ)]) := by
  constructor <;> decide


/-! ## The windowed update -/

/-- Every row of `y1 .. y2` is among the conversions of the rows `y1 .. y2`. -/
theorem mem_window_row_events (c : Config) (y1 y2 row : Int) (h1 : y1 ≤ row) (h2 : row ≤ y2) :
    Event.Screen_blit (row * c.bytes_per_row) (row * c.bytes_per_row)
      (if c.depth = 1 then ((c.x >>> 3 : Nat) : Int)
       else ((c.bytes_per_row / c.x * c.x : Nat) : Int)) ∈ window_row_events c y1 y2 := by
  unfold window_row_events
  rw [List.mem_map]
  refine ⟨(row - y1).toNat, ?_, ?_⟩
  · rw [List.mem_range]; omega
  · have : ((row - y1).toNat : Int) = row - y1 := Int.toNat_of_nonneg (by omega)
    rw [this]
    have e : y1 + (row - y1) = row := by ring
    rw [e]

/-- The whole trace of a windowed pass, run by run. -/
theorem window_pass_trace (c : Config) (s : State) (fuel : Nat)
    (hg : GuardsIntact c s) (hf : c.pageCount < fuel) :
    ∃ (runs : List (Nat × Nat)) (s' : State),
      update_display_window_vosf c fuel s = some s' ∧
      runs.Pairwise (fun r r' => r.2 < r'.1) ∧
      (∀ a b, (a, b) ∈ runs ↔ IsDirtyRun s.dirtyPages c.pageCount a b) ∧
      (∀ i, i < c.pageCount → s.dirtyPages i = true → ∃ r ∈ runs, r.1 ≤ i ∧ i < r.2) ∧
      s'.trace = s.trace ++ (runs.flatMap (window_run_events c) ++ [Event.set_dirty false]) := by
  obtain ⟨runs, h1, h2, h3, h4⟩ := vosf_pass c _ (window_render_ok c) s fuel hg hf
  refine ⟨runs, _, h1, h2, h3, h4, ?_⟩
  simp [set_dirty, emit, process_runs_window_trace]

/-- Claim C6. No lost rows: with a valid page geometry (`top <= bottom` for
each page, `top` and `bottom` non-decreasing in the page index) and the guards
intact, `update_display_window_vosf` returns a state whose new effects `evs`
are such that, for every real page `p` that was SET when the pass began, every
row of `pageInfo[p].top .. pageInfo[p].bottom` is handed to `Screen_blit` (at
the byte offset of the row, for the full row width) and lies inside a rectangle
pushed to the window with `XShmPutImage` or `XPutImage`. -/
theorem window_pass_no_lost_rows (c : Config) (s : State) (fuel : Nat)
    (hg : GuardsIntact c s) (hgeo : ValidGeometry c) (hf : c.pageCount < fuel) :
    ∃ (s' : State) (evs : List Event),
      update_display_window_vosf c fuel s = some s' ∧ s'.trace = s.trace ++ evs ∧
      ∀ p, p < c.pageCount → s.dirtyPages p = true →
        ∀ row : Int, (c.pageInfo p).top ≤ row → row ≤ (c.pageInfo p).bottom →
          Event.Screen_blit (row * c.bytes_per_row) (row * c.bytes_per_row)
            (if c.depth = 1 then ((c.x >>> 3 : Nat) : Int)
             else ((c.bytes_per_row / c.x * c.x : Nat) : Int)) ∈ evs ∧
          ∃ y height : Int, y ≤ row ∧ row < y + height ∧
            (if c.have_shm then Event.XShmPutImage 0 y 0 y c.x height
             else Event.XPutImage 0 y 0 y c.x height) ∈ evs := by
  obtain ⟨runs, s', h1, _, h3, h4, h5⟩ := window_pass_trace c s fuel hg hf
  refine ⟨s', _, h1, h5, ?_⟩
  intro p hp hset row hr1 hr2
  obtain ⟨r, hrm, hr3, hr4⟩ := h4 p hp hset
  obtain ⟨_, hb, _⟩ := (h3 r.1 r.2).1 hrm
  have ht := (hgeo.2 r.1 p hr3 hp).1
  have hbm := (hgeo.2 p (r.2 - 1) (by omega) (by omega)).2
  constructor
  · rw [List.mem_append]
    left
    rw [List.mem_flatMap]
    refine ⟨r, hrm, ?_⟩
    unfold window_run_events
    rw [List.mem_append, List.mem_append]
    left; right
    exact mem_window_row_events c _ _ row (by omega) (by omega)
  · refine ⟨(c.pageInfo r.1).top, (c.pageInfo (r.2 - 1)).bottom - (c.pageInfo r.1).top + 1,
      by omega, by omega, ?_⟩
    rw [List.mem_append]
    left
    rw [List.mem_flatMap]
    refine ⟨r, hrm, ?_⟩
    unfold window_run_events
    rw [List.mem_append]
    right
    simp only [List.mem_singleton, window_push_event]

/-- Witness of claim C6: the windowed pass on `demo_state`; page `i` of
`demo_config` covers row `i`. -/
theorem window_pass_no_lost_rows_witness :
    GuardsIntact demo_config demo_state ∧ ValidGeometry demo_config ∧
    demo_config.pageCount < 4 ∧
    ∃ (s' : State) (evs : List Event),
      update_display_window_vosf demo_config 4 demo_state = some s' ∧
      s'.trace = demo_state.trace ++ evs ∧
      ∀ p, p < demo_config.pageCount → demo_state.dirtyPages p = true →
        ∀ row : Int, (demo_config.pageInfo p).top ≤ row →
          row ≤ (demo_config.pageInfo p).bottom →
          Event.Screen_blit (row * demo_config.bytes_per_row)
            (row * demo_config.bytes_per_row)
            (if demo_config.depth = 1 then ((demo_config.x >>> 3 : Nat) : Int)
             else ((demo_config.bytes_per_row / demo_config.x * demo_config.x : Nat) : Int))
              ∈ evs ∧
          ∃ y height : Int, y ≤ row ∧ row < y + height ∧
            (if demo_config.have_shm then Event.XShmPutImage 0 y 0 y demo_config.x height
             else Event.XPutImage 0 y 0 y demo_config.x height) ∈ evs :=
  ⟨by decide,
    ⟨fun p _ => le_refl _, fun p q hpq _ => by
      simp only [demo_config]
      exact ⟨by exact_mod_cast hpq, by exact_mod_cast hpq⟩⟩,
    by decide,
    window_pass_no_lost_rows demo_config demo_state 4 (by decide)
      ⟨fun p _ => le_refl _, fun p q hpq _ => by
        simp only [demo_config]
        exact ⟨by exact_mod_cast hpq, by exact_mod_cast hpq⟩⟩
      (by decide)⟩

/-- Claim C10. Windowed output: from a state whose guards are intact,
`update_display_window_vosf` processes the maximal runs `runs` of SET pages,
and its effects are, for each run `(first_page, page)` in order, with
`y1 = pageInfo[first_page].top` and `y2 = pageInfo[page - 1].bottom`: the
clearing of the flags, the read-only `vm_protect` (of `uint32 length` bytes at
`memStart + int32 offset`), the conversions `window_row_events c y1 y2`, and
then exactly one push of the rectangle
`(x = 0, y = y1, width = VideoMonitor.x, height = y2 - y1 + 1)`; then the store
`mainBuffer.dirty = false`.  The conversions of a run are `y2 - y1 + 1` calls
of `Screen_blit` (none when `y2 < y1`), and the call for row `j`,
`y1 <= j <= y2`, is the one in position `j - y1`: source and destination
offset `j * bytes_per_row`, length `(bytes_per_row / x) * x`, or `x >> 3` when
`depth == 1`. -/
theorem window_pass_output (c : Config) (s : State) (fuel : Nat)
    (hg : GuardsIntact c s) (hf : c.pageCount < fuel) :
    ∃ (runs : List (Nat × Nat)) (s' : State),
      update_display_window_vosf c fuel s = some s' ∧
      (∀ a b, (a, b) ∈ runs ↔ IsDirtyRun s.dirtyPages c.pageCount a b) ∧
      s'.trace = s.trace ++
        (runs.flatMap (fun r =>
          [Event.PFLAG_CLEAR_RANGE r.1 r.2,
           Event.vm_protect ((c.memStart : Int) + int32 (r.1 <<< c.pageBits)).toNat
             (uint32 ((r.2 - r.1) <<< c.pageBits)) Prot.VM_PAGE_READ] ++
          window_row_events c (c.pageInfo r.1).top (c.pageInfo (r.2 - 1)).bottom ++
          [if c.have_shm then
             Event.XShmPutImage 0 (c.pageInfo r.1).top 0 (c.pageInfo r.1).top c.x
               ((c.pageInfo (r.2 - 1)).bottom - (c.pageInfo r.1).top + 1)
           else
             Event.XPutImage 0 (c.pageInfo r.1).top 0 (c.pageInfo r.1).top c.x
               ((c.pageInfo (r.2 - 1)).bottom - (c.pageInfo r.1).top + 1)]) ++
         [Event.set_dirty false]) ∧
      ∀ y1 y2 : Int,
        ((window_row_events c y1 y2).length : Int) = max (y2 - y1 + 1) 0 ∧
        ∀ j : Int, y1 ≤ j → j ≤ y2 →
          (window_row_events c y1 y2)[(j - y1).toNat]? =
            some (Event.Screen_blit (j * c.bytes_per_row) (j * c.bytes_per_row)
              (if c.depth = 1 then ((c.x >>> 3 : Nat) : Int)
               else ((c.bytes_per_row / c.x * c.x : Nat) : Int))) := by
  obtain ⟨runs, s', h1, _, h3, _, h5⟩ := window_pass_trace c s fuel hg hf
  refine ⟨runs, s', h1, h3, ?_, ?_⟩
  · rw [h5]; rfl
  · intro y1 y2
    constructor
    · simp [window_row_events, Int.toNat_eq_max]
    · intro j hj1 hj2
      have hlt : (j - y1).toNat < (y2 - y1 + 1).toNat := by omega
      have hk : ((j - y1).toNat : Int) = j - y1 := Int.toNat_of_nonneg (by omega)
      simp only [window_row_events]
      rw [List.getElem?_map, List.getElem?_range hlt]
      simp only [Option.map_some', hk]
      have e : y1 + (j - y1) = j := by ring
      rw [e]


/-- Witness of claim C10: the windowed pass on `demo_state`. -/
theorem window_pass_output_witness :
    GuardsIntact demo_config demo_state ∧ demo_config.pageCount < 4 ∧
    ∃ (runs : List (Nat × Nat)) (s' : State),
      update_display_window_vosf demo_config 4 demo_state = some s' ∧
      (∀ a b, (a, b) ∈ runs ↔
        IsDirtyRun demo_state.dirtyPages demo_config.pageCount a b) ∧
      s'.trace = demo_state.trace ++
        (runs.flatMap (fun r =>
          [Event.PFLAG_CLEAR_RANGE r.1 r.2,
           Event.vm_protect
             ((demo_config.memStart : Int) + int32 (r.1 <<< demo_config.pageBits)).toNat
             (uint32 ((r.2 - r.1) <<< demo_config.pageBits)) Prot.VM_PAGE_READ] ++
          window_row_events demo_config (demo_config.pageInfo r.1).top
            (demo_config.pageInfo (r.2 - 1)).bottom ++
          [if demo_config.have_shm then
             Event.XShmPutImage 0 (demo_config.pageInfo r.1).top 0
               (demo_config.pageInfo r.1).top demo_config.x
               ((demo_config.pageInfo (r.2 - 1)).bottom - (demo_config.pageInfo r.1).top + 1)
           else
             Event.XPutImage 0 (demo_config.pageInfo r.1).top 0
               (demo_config.pageInfo r.1).top demo_config.x
               ((demo_config.pageInfo (r.2 - 1)).bottom - (demo_config.pageInfo r.1).top + 1)]) ++
         [Event.set_dirty false]) ∧
      ∀ y1 y2 : Int,
        ((window_row_events demo_config y1 y2).length : Int) = max (y2 - y1 + 1) 0 ∧
        ∀ j : Int, y1 ≤ j → j ≤ y2 →
          (window_row_events demo_config y1 y2)[(j - y1).toNat]? =
            some (Event.Screen_blit (j * demo_config.bytes_per_row)
              (j * demo_config.bytes_per_row)
              (if demo_config.depth = 1 then ((demo_config.x >>> 3 : Nat) : Int)
               else ((demo_config.bytes_per_row / demo_config.x * demo_config.x : Nat) : Int))) :=
  ⟨by decide, by decide,
    window_pass_output demo_config demo_state 4 (by decide) (by decide)⟩

/-- The scenario of claim C10 evaluated: the windowed pass on `demo_state`
converts row 2, the row of page 2, and pushes the rectangle of that one row. -/
theorem demo_window_trace :
    (update_display_window_vosf demo_config 4 demo_state).map State.trace =
      some [Event.PFLAG_CLEAR_RANGE 2 3,
            Event.vm_protect 12288 4096 Prot.VM_PAGE_READ,
            Event.Screen_blit 8192 8192 4096,
            Event.XShmPutImage 0 2 0 2 1024 1,
            Event.set_dirty false] := by
  decide

/-- The conversion offsets of a concatenation. -/
theorem blit_offsets_append (l1 l2 : List Event) :
    blit_offsets (l1 ++ l2) = blit_offsets l1 ++ blit_offsets l2 := by
  induction l1 with
  | nil => rfl
  | cons e t ih => cases e <;> simp [blit_offsets, ih]

/-- The conversion offsets of the effects of a list of runs. -/
theorem blit_offsets_flatMap (f : Nat × Nat → List Event) (runs : List (Nat × Nat)) :
    blit_offsets (runs.flatMap f) = runs.flatMap (fun r => blit_offsets (f r)) := by
  induction runs with
  | nil => rfl
  | cons r t ih => simp [List.flatMap_cons, blit_offsets_append, ih]

/-- The conversion offsets of a list of conversions. -/
theorem blit_offsets_map (f g l : Nat → Int) (ks : List Nat) :
    blit_offsets (ks.map (fun k => Event.Screen_blit (f k) (g k) (l k))) = ks.map f := by
  induction ks with
  | nil => rfl
  | cons k t ih => simp only [List.map_cons, blit_offsets, ih]

/-- The conversion offsets of the rows `y1 .. y2`. -/
theorem blit_offsets_row_events (c : Config) (y1 y2 : Int) :
    blit_offsets (window_row_events c y1 y2) =
      (List.range (y2 - y1 + 1).toNat).map (fun (k : Nat) => (y1 + (k : Int)) * c.bytes_per_row) := by
  unfold window_row_events
  exact blit_offsets_map _ _ _ _

/-- The conversion offsets of one iteration of the windowed update. -/
theorem blit_offsets_run_events (c : Config) (r : Nat × Nat) :
    blit_offsets (window_run_events c r) =
      (List.range ((c.pageInfo (r.2 - 1)).bottom - (c.pageInfo r.1).top + 1).toNat).map
        (fun (k : Nat) => ((c.pageInfo r.1).top + (k : Int)) * c.bytes_per_row) := by
  unfold window_run_events
  rw [blit_offsets_append, blit_offsets_append, blit_offsets_row_events]
  unfold window_push_event
  by_cases h : c.have_shm = true <;> simp [h, blit_offsets]

/-- Counterexample to claim C7.  In `wide_config` the geometry is valid and
page 1 lies inside row 0.  With pages 0 and 2 SET and page 1 CLEAR, the
windowed pass processes the two runs `[0, 1)` (row 0) and `[2, 3)` (rows 0 and
1): the row ranges of the two runs share row 0, which is converted twice, at
offset 0, and pushed twice, so the offsets of the conversions of the pass,
`[0, 0, 10]`, have a duplicate. -/
theorem window_pass_converts_row_twice :
    ValidGeometry wide_config ∧ GuardsIntact wide_config wide_state ∧
    (update_display_window_vosf wide_config 6 wide_state).map State.trace =
      some [Event.PFLAG_CLEAR_RANGE 0 1, Event.vm_protect 0 4 Prot.VM_PAGE_READ,
            Event.Screen_blit 0 0 10,
            Event.XPutImage 0 0 0 0 5 1,
            Event.PFLAG_CLEAR_RANGE 2 3, Event.vm_protect 8 4 Prot.VM_PAGE_READ,
            Event.Screen_blit 0 0 10, Event.Screen_blit 10 10 10,
            Event.XPutImage 0 0 0 0 5 2,
            Event.set_dirty false] ∧
    ((wide_config.pageInfo 0).top ≤ 0 ∧ 0 ≤ (wide_config.pageInfo (1 - 1)).bottom) ∧
    ((wide_config.pageInfo 2).top ≤ 0 ∧ 0 ≤ (wide_config.pageInfo (3 - 1)).bottom) ∧
    (update_display_window_vosf wide_config 6 wide_state).map
        (fun s' => blit_offsets s'.trace) = some [0, 0, 10] ∧
    ¬ ([0, 0, 10] : List Int).Nodup := by
  refine ⟨⟨?_, ?_⟩, by decide, by decide, by decide, by decide, by decide, by decide⟩
  · intro p hp
    simp only [wide_config] at hp ⊢
    interval_cases p <;> simp
  · intro p q hpq hq
    simp only [wide_config] at hq ⊢
    interval_cases q <;> interval_cases p <;> simp

/-- Claim C7, amended.  When two real pages that are not neighbours share no
row (`pageInfo[p].bottom < pageInfo[q].top` whenever `p + 1 < q`) and a row has
at least one byte, then from a state whose guards are intact the windowed pass
processes the maximal runs `runs` of SET pages, the row ranges
`pageInfo[first_page].top .. pageInfo[page - 1].bottom` of two different runs
never share a row (the range of the earlier run ends above the start of the
later one), and the offsets of the conversions of the pass are strictly
increasing, so no row is converted more than once. -/
theorem window_pass_rows_once (c : Config) (s : State) (fuel : Nat)
    (hg : GuardsIntact c s) (hf : c.pageCount < fuel)
    (hsep : ∀ p q, p + 1 < q → q < c.pageCount →
      (c.pageInfo p).bottom < (c.pageInfo q).top)
    (hrow : 0 < c.bytes_per_row) :
    ∃ (runs : List (Nat × Nat)) (s' : State) (evs : List Event),
      update_display_window_vosf c fuel s = some s' ∧
      (∀ a b, (a, b) ∈ runs ↔ IsDirtyRun s.dirtyPages c.pageCount a b) ∧
      s'.trace = s.trace ++ evs ∧
      cleared_ranges evs = runs ∧
      runs.Pairwise (fun r r' =>
        (c.pageInfo (r.2 - 1)).bottom < (c.pageInfo r'.1).top) ∧
      (blit_offsets evs).Pairwise (fun d d' => d < d') ∧
      (blit_offsets evs).Nodup := by
  obtain ⟨runs, s', h1, h2, h3, _, h5⟩ := window_pass_trace c s fuel hg hf
  have hpw : runs.Pairwise (fun r r' =>
      (c.pageInfo (r.2 - 1)).bottom < (c.pageInfo r'.1).top) := by
    refine List.Pairwise.imp_of_mem ?_ h2
    intro r r' hr hr' hlt
    obtain ⟨k1, k2, _⟩ := (h3 r.1 r.2).1 hr
    obtain ⟨k3, k4, _⟩ := (h3 r'.1 r'.2).1 hr'
    exact hsep (r.2 - 1) r'.1 (by omega) (by omega)
  have hbpr : (0 : Int) < (c.bytes_per_row : Int) := by exact_mod_cast hrow
  have hsorted : (blit_offsets (runs.flatMap (window_run_events c) ++
      [Event.set_dirty false])).Pairwise (fun d d' => d < d') := by
    have hnil : blit_offsets [Event.set_dirty false] = [] := rfl
    rw [blit_offsets_append, blit_offsets_flatMap, hnil, List.append_nil]
    rw [List.pairwise_flatMap]
    constructor
    · intro r _
      rw [blit_offsets_run_events, List.pairwise_map]
      refine List.Pairwise.imp ?_ (List.pairwise_lt_range _)
      intro k k' hk
      apply mul_lt_mul_of_pos_right _ hbpr
      omega
    · refine List.Pairwise.imp ?_ hpw
      intro r r' hlt x hx y hy
      rw [blit_offsets_run_events, List.mem_map] at hx hy
      obtain ⟨k, hk, rfl⟩ := hx
      obtain ⟨k', hk', rfl⟩ := hy
      rw [List.mem_range] at hk hk'
      apply mul_lt_mul_of_pos_right _ hbpr
      omega
  refine ⟨runs, s', _, h1, h3, h5, ?_, hpw, hsorted, ?_⟩
  · rw [cleared_ranges_append]
    have : ∀ l : List (Nat × Nat), cleared_ranges (l.flatMap (window_run_events c)) = l := by
      intro l
      induction l with
      | nil => rfl
      | cons r t ih =>
        rw [List.flatMap_cons, cleared_ranges_append, ih]
        unfold window_run_events
        rw [cleared_ranges_append, cleared_ranges_append]
        have e1 : cleared_ranges (window_row_events c (c.pageInfo r.1).top
            (c.pageInfo (r.2 - 1)).bottom) = [] := by
          apply cleared_ranges_render
          intro e he
          simp only [window_row_events, List.mem_map] at he
          obtain ⟨k, _, rfl⟩ := he
          rfl
        have e2 : cleared_ranges [window_push_event c (c.pageInfo r.1).top
            (c.pageInfo (r.2 - 1)).bottom] = [] := by
          unfold window_push_event
          by_cases h : c.have_shm = true <;> simp [h, cleared_ranges]
        rw [e1, e2]
        simp [cleared_ranges]
    rw [this]
    simp [cleared_ranges]
  · exact hsorted.imp (fun h => ne_of_lt h)


/-- Witness of claim C7, amended: the windowed pass on `demo_state_faulted`, in
which pages 0 and 2 of `demo_config` are SET and page 1 is CLEAR; page `i`
covers row `i` only.  The pass processes the two runs `[0, 1)` and `[2, 3)`
and converts row 0, at offset 0, and row 2, at offset 8192, once each. -/
theorem window_pass_rows_once_witness :
    GuardsIntact demo_config demo_state_faulted ∧ demo_config.pageCount < 4 ∧
    (∀ p q, p + 1 < q → q < demo_config.pageCount →
      (demo_config.pageInfo p).bottom < (demo_config.pageInfo q).top) ∧
    0 < demo_config.bytes_per_row ∧
    (update_display_window_vosf demo_config 4 demo_state_faulted).map
        (fun s' => (cleared_ranges s'.trace, blit_offsets s'.trace)) =
      some ([(0, 1), (2, 3)], [0, 8192]) ∧
    ∃ (runs : List (Nat × Nat)) (s' : State) (evs : List Event),
      update_display_window_vosf demo_config 4 demo_state_faulted = some s' ∧
      (∀ a b, (a, b) ∈ runs ↔
        IsDirtyRun demo_state_faulted.dirtyPages demo_config.pageCount a b) ∧
      s'.trace = demo_state_faulted.trace ++ evs ∧
      cleared_ranges evs = runs ∧
      runs.Pairwise (fun r r' =>
        (demo_config.pageInfo (r.2 - 1)).bottom < (demo_config.pageInfo r'.1).top) ∧
      (blit_offsets evs).Pairwise (fun d d' => d < d') ∧
      (blit_offsets evs).Nodup :=
  ⟨by decide, by decide,
    fun p q hpq _ => by
      simp only [demo_config]
      exact_mod_cast (by omega : p < q),
    by decide, by decide,
    window_pass_rows_once demo_config demo_state_faulted 4 (by decide) (by decide)
      (fun p q hpq _ => by
        simp only [demo_config]
        exact_mod_cast (by omega : p < q))
      (by decide)⟩

/-! ## The page of a fault address -/

/-- Masking a `w`-bit value with `2 ^ w - 2 ^ k` rounds it down to a multiple
of `2 ^ k`. -/
theorem and_neg_pow_two (w k n : Nat) (hk : k ≤ w) (hn : n < 2 ^ w) :
    n &&& (2 ^ w - 2 ^ k) = n / 2 ^ k * 2 ^ k := by
  have e1 : 2 ^ w - 2 ^ k = 2 ^ k * (2 ^ (w - k) - 1) := by
    have : 2 ^ w = 2 ^ k * 2 ^ (w - k) := by
      rw [← pow_add]; congr 1; omega
    rw [this, Nat.mul_sub, Nat.mul_one]
  have e2 : n / 2 ^ k * 2 ^ k = 2 ^ k * (n >>> k) := by
    rw [Nat.shiftRight_eq_div_pow, Nat.mul_comm]
  rw [e1, e2]
  apply Nat.eq_of_testBit_eq
  intro j
  rw [Nat.testBit_and, Nat.testBit_mul_pow_two, Nat.testBit_mul_pow_two,
    Nat.testBit_two_pow_sub_one, Nat.testBit_shiftRight]
  by_cases hjk : j ≥ k
  · have e3 : k + (j - k) = j := by omega
    rw [e3]
    by_cases hjw : j < w
    · have : j - k < w - k := by omega
      simp [hjk, this]
    · have hlt : n < 2 ^ j := lt_of_lt_of_le hn (Nat.pow_le_pow_right (by decide) (by omega))
      have : ¬ (j - k < w - k) := by omega
      simp [hjk, this, Nat.testBit_lt_two_pow hlt]
  · simp [hjk]

/-- Claim C13 at a failing input.  In `high_config` the region lies at address
`2^32` and `mainBuffer.pageSize` is an unsigned value of 32 bits;
`pageSize = 2 ^ pageBits` and `memStart` is a multiple of `pageSize`.  A write
fault at address 4294972296, byte 904 of page 1, is handled: the handler marks
page 1, whose range starts at `memStart + (1 << 12) = 4294971392`, but
`-pageSize` is `2^32 - 4096` and `a & -pageSize` is 4096: the 4096 bytes the
handler makes writable start at address 4096, they are not the range of page 1
and they do not contain the fault address, which stays read-only. -/
theorem screen_fault_handler_wrong_page :
    high_config.pageSize = 2 ^ high_config.pageBits ∧
    high_config.pageSize ∣ high_config.memStart ∧
    high_config.memStart ≤ 4294972296 ∧ 4294972296 < high_config.memEnd ∧
    (4294972296 - high_config.memStart) >>> high_config.pageBits = 1 ∧
    high_config.memStart + (1 <<< high_config.pageBits) = 4294971392 ∧
    neg_pageSize high_config = 4294963200 ∧
    4294972296 &&& neg_pageSize high_config = 4096 ∧
    (screen_fault_handler high_config 4294972296 0 demo_clean_state).1 = true ∧
    (screen_fault_handler high_config 4294972296 0 demo_clean_state).2.trace =
      [Event.LOCK_VOSF, Event.PFLAG_SET 1,
       Event.vm_protect 4096 4096 Prot.VM_PAGE_READ_WRITE,
       Event.set_dirty true, Event.UNLOCK_VOSF] ∧
    ¬ (4294972296 &&& neg_pageSize high_config =
        high_config.memStart +
          (((4294972296 - high_config.memStart) >>> high_config.pageBits) <<<
            high_config.pageBits)) ∧
    ¬ (4294972296 &&& neg_pageSize high_config ≤ 4294972296 ∧
        4294972296 < (4294972296 &&& neg_pageSize high_config) + high_config.pageSize) ∧
    prot_after (fun _ => Prot.VM_PAGE_READ)
        (screen_fault_handler high_config 4294972296 0 demo_clean_state).2.trace
        4294972296 = Prot.VM_PAGE_READ := by
  refine ⟨by decide, by decide, by decide, by decide, by decide, by decide, by decide,
    by decide, by decide, by decide, by decide, by decide, by decide⟩

/-! ## Rounding to a page boundary -/

/-- The value of `page_extend`: the size plus the page size less one, rounded
down to a multiple of the page size. -/
theorem page_extend_eq (c : Config) (k size : Nat) (hP : c.getpagesize = 2 ^ k)
    (hfit : size + 2 ^ k - 1 < 2 ^ 32) :
    page_extend c size = (size + 2 ^ k - 1) / 2 ^ k * 2 ^ k := by
  have hpos : 0 < 2 ^ k := by positivity
  have hle : 2 ^ k ≤ 2 ^ 32 := by omega
  have hk : k ≤ 32 := by
    by_contra hcon
    have : 2 ^ 33 ≤ 2 ^ k := Nat.pow_le_pow_right (by decide) (by omega)
    omega
  unfold page_extend
  simp only [hP]
  rcases Nat.eq_or_lt_of_le hle with h | h
  · have hs : size = 0 := by omega
    subst hs
    rw [h]
    norm_num
  · have e1 : (2 ^ k % 2 ^ 32 + 2 ^ 32 - 1) % 2 ^ 32 = 2 ^ k - 1 := by
      rw [Nat.mod_eq_of_lt h]
      have : 2 ^ k + 2 ^ 32 - 1 = (2 ^ k - 1) + 2 ^ 32 := by omega
      rw [this, Nat.add_mod_right, Nat.mod_eq_of_lt (by omega)]
    rw [e1]
    have e2 : (size + (2 ^ k - 1)) % 2 ^ 32 = size + 2 ^ k - 1 := by
      rw [Nat.mod_eq_of_lt (by omega)]; omega
    have e3 : 2 ^ 32 - 1 - (2 ^ k - 1) = 2 ^ 32 - 2 ^ k := by omega
    rw [e2, e3]
    exact and_neg_pow_two 32 k _ hk hfit

/-- Claim C19. `page_extend` rounds up to a page boundary: for a page size
`2 ^ k` and a size `s` with `s + 2 ^ k - 1 < 2 ^ 32`, `page_extend (s)` is a
multiple of the page size, is at least `s`, is at most every multiple of the
page size that is at least `s`, is below `s + 2 ^ k`, equals `s` exactly when
`s` is a multiple of the page size, and is a fixed point of `page_extend`. -/
theorem page_extend_rounds_up (c : Config) (k size : Nat) (hP : c.getpagesize = 2 ^ k)
    (hfit : size + 2 ^ k - 1 < 2 ^ 32) :
    2 ^ k ∣ page_extend c size ∧
    size ≤ page_extend c size ∧
    (∀ m, 2 ^ k ∣ m → size ≤ m → page_extend c size ≤ m) ∧
    page_extend c size < size + 2 ^ k ∧
    (page_extend c size = size ↔ 2 ^ k ∣ size) ∧
    page_extend c (page_extend c size) = page_extend c size := by
  have hpos : 0 < 2 ^ k := by positivity
  have heq := page_extend_eq c k size hP hfit
  have hdm := Nat.div_add_mod (size + 2 ^ k - 1) (2 ^ k)
  have hml := Nat.mod_lt (size + 2 ^ k - 1) hpos
  have hcomm : (size + 2 ^ k - 1) / 2 ^ k * 2 ^ k = 2 ^ k * ((size + 2 ^ k - 1) / 2 ^ k) :=
    Nat.mul_comm _ _
  have hdvd : 2 ^ k ∣ page_extend c size := by rw [heq]; exact Dvd.intro_left _ rfl
  have hge : size ≤ page_extend c size := by rw [heq, hcomm]; omega
  have hlt : page_extend c size < size + 2 ^ k := by rw [heq, hcomm]; omega
  have hleast : ∀ m, 2 ^ k ∣ m → size ≤ m → page_extend c size ≤ m := by
    intro m hm hsm
    obtain ⟨q, rfl⟩ := hm
    rw [heq]
    have : (size + 2 ^ k - 1) / 2 ^ k ≤ q := by
      rw [Nat.div_le_iff_le_mul_add_pred hpos]
      omega
    calc (size + 2 ^ k - 1) / 2 ^ k * 2 ^ k ≤ q * 2 ^ k := Nat.mul_le_mul_right _ this
      _ = 2 ^ k * q := Nat.mul_comm _ _
  have hiff : page_extend c size = size ↔ 2 ^ k ∣ size := by
    constructor
    · intro h; rw [← h]; exact hdvd
    · intro h; exact le_antisymm (hleast size h (le_refl _)) hge
  refine ⟨hdvd, hge, hleast, hlt, hiff, ?_⟩
  have hfit2 : page_extend c size + 2 ^ k - 1 < 2 ^ 32 := by
    obtain ⟨q, hq⟩ := hdvd
    have h1 : 2 ^ k * q < size + 2 ^ k := by rw [← hq]; exact hlt
    have h2 : 2 ^ k * q ≤ size + 2 ^ k - 1 := by omega
    have h3 : 2 ^ k * q + 2 ^ k - 1 < 2 ^ 32 := by
      by_contra hcon
      -- 2^32 is a multiple of 2^k, and 2^k*q < 2^32 forces 2^k*q + 2^k ≤ 2^32
      have hk : k ≤ 32 := by
        by_contra hcon2
        have : 2 ^ 33 ≤ 2 ^ k := Nat.pow_le_pow_right (by decide) (by omega)
        omega
      obtain ⟨t, ht⟩ : 2 ^ k ∣ 2 ^ 32 := Nat.pow_dvd_pow 2 hk
      have hqt : q < t := by
        by_contra hqt
        have : 2 ^ k * t ≤ 2 ^ k * q := Nat.mul_le_mul_left _ (by omega)
        omega
      have : 2 ^ k * (q + 1) ≤ 2 ^ k * t := Nat.mul_le_mul_left _ (by omega)
      rw [Nat.mul_add, Nat.mul_one] at this
      omega
    rw [hq]; exact h3
  have heq2 := page_extend_eq c k (page_extend c size) hP hfit2
  rw [heq2]
  obtain ⟨q, hq⟩ := hdvd
  rw [hq]
  have : (2 ^ k * q + 2 ^ k - 1) / 2 ^ k = q := by
    have e : 2 ^ k * q + 2 ^ k - 1 = (2 ^ k - 1) + q * 2 ^ k := by
      rw [Nat.mul_comm]; omega
    rw [e, Nat.add_mul_div_right _ _ hpos, Nat.div_eq_of_lt (by omega)]
    simp
  rw [this, Nat.mul_comm]


/-- Witness of claim C19: pages of 4096 bytes and the size 5000, which
`page_extend` rounds up to 8192. -/
theorem page_extend_rounds_up_witness :
    demo_config.getpagesize = 2 ^ 12 ∧ 5000 + 2 ^ 12 - 1 < 2 ^ 32 ∧
    (2 ^ 12 ∣ page_extend demo_config 5000 ∧
     5000 ≤ page_extend demo_config 5000 ∧
     (∀ m, 2 ^ 12 ∣ m → 5000 ≤ m → page_extend demo_config 5000 ≤ m) ∧
     page_extend demo_config 5000 < 5000 + 2 ^ 12 ∧
     (page_extend demo_config 5000 = 5000 ↔ 2 ^ 12 ∣ 5000) ∧
     page_extend demo_config (page_extend demo_config 5000) =
       page_extend demo_config 5000) :=
  ⟨by decide, by decide,
    page_extend_rounds_up demo_config 12 5000 (by decide) (by decide)⟩

/-- The example of claim C19 evaluated. -/
theorem demo_page_extend :
    page_extend demo_config 5000 = 8192 ∧ page_extend demo_config 8192 = 8192 ∧
    page_extend demo_config 0 = 0 := by
  refine ⟨by decide, by decide, by decide⟩

/-! ## The dirty flag and the all-clear scan -/

/-- Whatever the fuel, a pass that returned from a state with the guards intact
returned a state with the guards intact, all real pages CLEAR and
`mainBuffer.dirty` false. -/
theorem pass_result_clears (c : Config) (render : Nat → Nat → State → State)
    (hr : RenderOK render) (s s' : State) (fuel : Nat) (hg : GuardsIntact c s)
    (h : (vosf_loop c render fuel 0 s).map (set_dirty false) = some s') :
    GuardsIntact c s' ∧ (∀ i, i < c.pageCount → s'.dirtyPages i = false) ∧
      s'.dirty = false := by
  obtain ⟨s0, h0, rfl⟩ := Option.map_eq_some'.1 h
  obtain ⟨runs, rfl, _, hmem, hcov⟩ := vosf_loop_result c render hr s s0 fuel hg h0
  have hb : ∀ r ∈ runs, r.2 ≤ c.pageCount := fun r hr' => ((hmem r.1 r.2).1 hr').2.1
  obtain ⟨f1, f2, _⟩ := process_runs_frame c render hr runs s
  refine ⟨process_runs_guards c render hr runs s hb hg, ?_, rfl⟩
  intro i hi
  show (process_runs c render runs s).dirtyPages i = false
  by_cases hex : ∃ r ∈ runs, r.1 ≤ i ∧ i < r.2
  · exact f1 i hex
  · rw [f2 i hex]
    cases hs : s.dirtyPages i with
    | false => rfl
    | true => exact absurd (hcov i hi hs) hex

/-- One operation keeps the guards and the agreement of `mainBuffer.dirty` with
the flags of the real pages. -/
theorem step_dirty_iff (c : Config) (hc : RegionOK c) (s s' : State)
    (hg : GuardsIntact c s)
    (hd : s.dirty = true ↔ ∃ i, i < c.pageCount ∧ s.dirtyPages i = true)
    (h : Step c s s') :
    GuardsIntact c s' ∧
      (s'.dirty = true ↔ ∃ i, i < c.pageCount ∧ s'.dirtyPages i = true) := by
  refine ⟨(step_guards c hc s s' hg h).1, ?_⟩
  cases h with
  | fault a ip =>
    by_cases hin : c.memStart ≤ a ∧ a < c.memEnd
    · have hpage := fault_page_lt c hc a hin.1 hin.2
      have hin' : a ≥ c.memStart ∧ a < c.memEnd := hin
      have e1 : (screen_fault_handler c a ip s).2.dirty = true := by
        simp [screen_fault_handler, hin', emit, PFLAG_SET, vm_protect, set_dirty]
      have e2 : (screen_fault_handler c a ip s).2.dirtyPages
          ((a - c.memStart) >>> c.pageBits) = true := by
        simp [screen_fault_handler, hin', emit, PFLAG_SET, vm_protect, set_dirty]
      exact ⟨fun _ => ⟨_, hpage, e2⟩, fun _ => e1⟩
    · have hno : ¬ (a ≥ c.memStart ∧ a < c.memEnd) := hin
      have e1 : (screen_fault_handler c a ip s).2.dirty = s.dirty := by
        by_cases hip : ip = c.SIGSEGV_INVALID_PC <;>
          simp [screen_fault_handler, hno, hip, fprintf]
      have e2 : (screen_fault_handler c a ip s).2.dirtyPages = s.dirtyPages := by
        by_cases hip : ip = c.SIGSEGV_INVALID_PC <;>
          simp [screen_fault_handler, hno, hip, fprintf]
      rw [e1, e2]; exact hd
  | window fuel _ _ h =>
    obtain ⟨_, h2, h3⟩ := pass_result_clears c _ (window_render_ok c) s s' fuel hg h
    constructor
    · intro h'; rw [h3] at h'; simp at h'
    · rintro ⟨i, hi, hset⟩; rw [h2 i hi] at hset; simp at hset
  | dga fuel _ _ h =>
    obtain ⟨_, h2, h3⟩ := pass_result_clears c _ (dga_render_ok c) s s' fuel hg h
    constructor
    · intro h'; rw [h3] at h'; simp at h'
    · rintro ⟨i, hi, hset⟩; rw [h2 i hi] at hset; simp at hset

/-- Claim C14. Dirty-flag invariant: in a region that satisfies its invariants,
in every state reached from an initial state (guards intact, all real pages
CLEAR, `mainBuffer.dirty` false) by any sequence of fault handler calls and
complete update passes, `mainBuffer.dirty` is true if and only if the flag of
at least one real page is SET. -/
theorem dirty_iff_some_page_set (c : Config) (hc : RegionOK c) (s0 s : State)
    (hg : GuardsIntact c s0) (hclear : ∀ i, i < c.pageCount → s0.dirtyPages i = false)
    (hd : s0.dirty = false) (h : Relation.ReflTransGen (Step c) s0 s) :
    s.dirty = true ↔ ∃ i, i < c.pageCount ∧ s.dirtyPages i = true := by
  suffices hinv : GuardsIntact c s ∧
      (s.dirty = true ↔ ∃ i, i < c.pageCount ∧ s.dirtyPages i = true) from hinv.2
  induction h with
  | refl =>
    refine ⟨hg, ?_, ?_⟩
    · intro h'; rw [hd] at h'; simp at h'
    · rintro ⟨i, hi, hset⟩; rw [hclear i hi] at hset; simp at hset
  | tail _ hstep ih => exact step_dirty_iff c hc _ _ ih.1 ih.2 hstep

/-- Witness of claim C14: `demo_clean_state` and the state after a fault at
address 5000. -/
theorem dirty_iff_some_page_set_witness :
    RegionOK demo_config ∧ GuardsIntact demo_config demo_clean_state ∧
    (∀ i, i < demo_config.pageCount → demo_clean_state.dirtyPages i = false) ∧
    demo_clean_state.dirty = false ∧
    Relation.ReflTransGen (Step demo_config) demo_clean_state
      (screen_fault_handler demo_config 5000 0 demo_clean_state).2 ∧
    ((screen_fault_handler demo_config 5000 0 demo_clean_state).2.dirty = true ↔
      ∃ i, i < demo_config.pageCount ∧
        (screen_fault_handler demo_config 5000 0 demo_clean_state).2.dirtyPages i = true) :=
  ⟨by decide, by decide,
    fun i hi => by
      simp only [demo_config] at hi
      interval_cases i <;> rfl,
    rfl,
    Relation.ReflTransGen.single (Step.fault 5000 0 demo_clean_state),
    dirty_iff_some_page_set demo_config (by decide) demo_clean_state _ (by decide)
      (fun i hi => by
        simp only [demo_config] at hi
        interval_cases i <;> rfl)
      rfl (Relation.ReflTransGen.single (Step.fault 5000 0 demo_clean_state))⟩

/-- Counterexample to claim C18.  With four real pages, all CLEAR, and the
guards intact, the smallest index from 0 on whose flag is SET is the SET page
guard, at index 5: `find_next_page_set (0)` is 5, and not `pageCount`, which
is 4 and is the index of the CLEAR page guard. -/
theorem find_next_page_set_all_clear_example :
    GuardsIntact four_page_config all_clear_state ∧
    (∀ i, i < four_page_config.pageCount → all_clear_state.dirtyPages i = false) ∧
    find_next_page_set four_page_config all_clear_state 0 = some 5 ∧
    find_next_page_set four_page_config all_clear_state 0 ≠
      some four_page_config.pageCount := by
  refine ⟨by decide, ?_, by decide, by decide⟩
  intro i hi
  simp only [four_page_config] at hi
  interval_cases i <;> rfl

/-- Claim C18, amended.  When all real pages are CLEAR and the guards are
intact, `find_next_page_set (0)` returns `pageCount + 1`, the index of the SET
page guard, which is `>= pageCount`, so that either update pass leaves at its
first test: its only effect is the store `mainBuffer.dirty = false`. -/
theorem find_next_page_set_all_clear (c : Config) (s : State) (fuel : Nat)
    (hg : GuardsIntact c s) (hclear : ∀ i, i < c.pageCount → s.dirtyPages i = false)
    (hf : 0 < fuel) :
    find_next_page_set c s 0 = some (c.pageCount + 1) ∧
    c.pageCount + 1 ≥ c.pageCount ∧
    update_display_window_vosf c fuel s =
      some { s with dirty := false, trace := s.trace ++ [Event.set_dirty false] } ∧
    update_display_dga_vosf c fuel s =
      some { s with dirty := false, trace := s.trace ++ [Event.set_dirty false] } := by
  obtain ⟨r, hr, _, hr2, hr3, hr4⟩ := find_next_page_set_spec c s 0 hg (by omega)
  have hr5 : r = c.pageCount + 1 := by
    by_contra hne
    rcases Nat.lt_or_ge r c.pageCount with h | h
    · rw [hclear r h] at hr3; simp at hr3
    · have : r = c.pageCount := by omega
      rw [this, hg.1] at hr3; simp at hr3
  refine ⟨by rw [hr, hr5], by omega, ?_, ?_⟩
  · unfold update_display_window_vosf
    rw [vosf_loop_clean c _ s fuel hg hclear hf]
    simp [set_dirty, emit]
  · unfold update_display_dga_vosf
    rw [vosf_loop_clean c _ s fuel hg hclear hf]
    simp [set_dirty, emit]


/-- Witness of claim C18, amended: four real pages, all CLEAR. -/
theorem find_next_page_set_all_clear_witness :
    GuardsIntact four_page_config all_clear_state ∧
    (∀ i, i < four_page_config.pageCount → all_clear_state.dirtyPages i = false) ∧
    0 < 1 ∧
    (find_next_page_set four_page_config all_clear_state 0 =
        some (four_page_config.pageCount + 1) ∧
     four_page_config.pageCount + 1 ≥ four_page_config.pageCount ∧
     update_display_window_vosf four_page_config 1 all_clear_state =
       some { all_clear_state with
         dirty := false, trace := all_clear_state.trace ++ [Event.set_dirty false] } ∧
     update_display_dga_vosf four_page_config 1 all_clear_state =
       some { all_clear_state with
         dirty := false, trace := all_clear_state.trace ++ [Event.set_dirty false] }) :=
  ⟨by decide,
    fun i hi => by
      simp only [four_page_config] at hi
      interval_cases i <;> rfl,
    by decide,
    find_next_page_set_all_clear four_page_config all_clear_state 1 (by decide)
      (fun i hi => by
        simp only [four_page_config] at hi
        interval_cases i <;> rfl)
      (by decide)⟩

/-! ## Protection and flags -/

/-- A scan stops at the first flag equal to `v`: whatever its fuel, it reads no
index beyond one whose flag is `v`. -/
theorem scan_reads_le_guard (v : Bool) (flags : Nat → Bool) (g : Nat) (hgv : flags g = v) :
    ∀ (fuel page : Nat), page ≤ g → ∀ i ∈ scan_reads v flags fuel page, i ≤ g := by
  intro fuel
  induction fuel with
  | zero => intro page _ i hi; simp [scan_reads] at hi
  | succ n ih =>
    intro page hp i hi
    unfold scan_reads at hi
    rcases List.mem_cons.1 hi with h | h
    · omega
    · by_cases hv : flags page = v
      · simp [hv] at h
      · simp only [hv, if_false] at h
        have hne : page ≠ g := fun e => hv (e ▸ hgv)
        exact ih (page + 1) (by omega) i h

/-- With the guards intact every index that the loop uses lies inside its
table. -/
theorem vosf_loop_accesses_in_bounds (c : Config) (render : Nat → Nat → State → State)
    (hr : RenderOK render) :
    ∀ (fuel page : Nat) (s : State), GuardsIntact c s → page ≤ c.pageCount →
      ∀ acc ∈ vosf_loop_accesses c render fuel page s, Access.in_bounds c acc := by
  intro fuel
  induction fuel with
  | zero => intro page s _ _ acc h; simp [vosf_loop_accesses] at h
  | succ n ih =>
    intro page s hg hp acc hacc
    obtain ⟨first, hfs, hf1, hf2, hf3, hf4⟩ := find_next_page_set_spec c s page hg (by omega)
    unfold vosf_loop_accesses at hacc
    rw [hfs] at hacc
    rcases List.mem_append.1 hacc with h | h
    · obtain ⟨i, hi, rfl⟩ := List.mem_map.1 h
      exact scan_reads_le_guard true s.dirtyPages (c.pageCount + 1) hg.2 _ page (by omega) i hi
    · by_cases hbreak : first ≥ c.pageCount
      · simp [hbreak] at h
      · simp only [hbreak, if_false] at h
        obtain ⟨pg, hcs, hc1, hc2, hc3, hc4⟩ :=
          find_next_page_clear_spec c s first hg (by omega)
        have hlt : first < pg := by
          rcases Nat.eq_or_lt_of_le hc1 with e | e
          · subst e; rw [hf3] at hc3; simp at hc3
          · exact e
        rw [hcs] at h
        rcases List.mem_append.1 h with h | h
        · obtain ⟨i, hi, rfl⟩ := List.mem_map.1 h
          have := scan_reads_le_guard false s.dirtyPages c.pageCount hg.1 _ first (by omega) i hi
          show i ≤ c.pageCount + 1
          omega
        · rcases List.mem_append.1 h with h | h
          · simp only [List.mem_cons, List.mem_singleton, List.not_mem_nil, or_false] at h
            rcases h with rfl | rfl
            · show first < c.pageCount; omega
            · show pg - 1 < c.pageCount; omega
          · have hd := process_run_dirtyPages c render hr s (first, pg)
            have hg1 : GuardsIntact c (process_run c render s (first, pg)) := by
              unfold GuardsIntact
              rw [hd]
              have n1 : ¬ (first ≤ c.pageCount ∧ c.pageCount < pg) := by omega
              have n2 : ¬ (first ≤ c.pageCount + 1 ∧ c.pageCount + 1 < pg) := by omega
              simp only [n1, n2, if_false]
              exact hg
            exact ih pg _ hg1 hc2 acc h

/-- Claim C15. No array overrun: from a state whose guards are intact, either
update pass returns, so that no scan runs past the table of `pageCount + 2`
flags; every `find_next_page_clear` result `page`, with the `first_page` it
was entered at, satisfies `first_page < page <= pageCount` (they are the
arguments of the `PFLAG_CLEAR_RANGE` calls); every index the scans read in
`dirtyPages` is at most `pageCount + 1` and the two indices `first_page` and
`page - 1` used on `pageInfo` are below `pageCount`; a scan for a SET flag
entered at `pageCount + 1` or below reads no index above `pageCount + 1`,
and a scan for a CLEAR flag entered at `pageCount` or below none above
`pageCount`, whatever the length allowed; and in the fault handler the page
index of an address inside the region is below `pageCount` when the region
satisfies its invariants. -/
theorem no_array_overrun (c : Config) (s : State) (fuel : Nat)
    (hg : GuardsIntact c s) (hf : c.pageCount < fuel) :
    (∃ (s' : State) (evs : List Event), update_display_window_vosf c fuel s = some s' ∧
      s'.trace = s.trace ++ evs ∧
      ∀ r ∈ cleared_ranges evs, r.1 < r.2 ∧ r.2 ≤ c.pageCount) ∧
    (∃ (s' : State) (evs : List Event), update_display_dga_vosf c fuel s = some s' ∧
      s'.trace = s.trace ++ evs ∧
      ∀ r ∈ cleared_ranges evs, r.1 < r.2 ∧ r.2 ≤ c.pageCount) ∧
    (∀ acc ∈ vosf_loop_accesses c (window_render c) fuel 0 s, Access.in_bounds c acc) ∧
    (∀ acc ∈ vosf_loop_accesses c (dga_render c) fuel 0 s, Access.in_bounds c acc) ∧
    (∀ (n page : Nat), page ≤ c.pageCount + 1 →
      ∀ i ∈ scan_reads true s.dirtyPages n page, i ≤ c.pageCount + 1) ∧
    (∀ (n page : Nat), page ≤ c.pageCount →
      ∀ i ∈ scan_reads false s.dirtyPages n page, i ≤ c.pageCount) ∧
    (RegionOK c → ∀ a, c.memStart ≤ a → a < c.memEnd →
      (a - c.memStart) >>> c.pageBits < c.pageCount) := by
  have key : ∀ render, RenderOK render →
      (∃ (s' : State) (evs : List Event),
        (vosf_loop c render fuel 0 s).map (set_dirty false) = some s' ∧
        s'.trace = s.trace ++ evs ∧
        ∀ r ∈ cleared_ranges evs, r.1 < r.2 ∧ r.2 ≤ c.pageCount) ∧
      (∀ acc ∈ vosf_loop_accesses c render fuel 0 s, Access.in_bounds c acc) := by
    intro render hr
    obtain ⟨runs, h1, _, h3, _⟩ := vosf_pass c render hr s fuel hg hf
    obtain ⟨_, _, _, _, _, evs, f6, f7, _, _⟩ := process_runs_frame c render hr runs s
    refine ⟨⟨_, evs ++ [Event.set_dirty false], h1, ?_, ?_⟩,
      vosf_loop_accesses_in_bounds c render hr fuel 0 s hg (Nat.zero_le _)⟩
    · simp [set_dirty, emit, f6]
    · intro r hrm
      have e : cleared_ranges (evs ++ [Event.set_dirty false]) = runs := by
        rw [cleared_ranges_append, f7]; simp [cleared_ranges]
      rw [e] at hrm
      obtain ⟨k1, k2, _⟩ := (h3 r.1 r.2).1 hrm
      exact ⟨k1, k2⟩
  obtain ⟨w1, w2⟩ := key _ (window_render_ok c)
  obtain ⟨d1, d2⟩ := key _ (dga_render_ok c)
  exact ⟨w1, d1, w2, d2,
    fun n page h => scan_reads_le_guard true s.dirtyPages _ hg.2 n page h,
    fun n page h => scan_reads_le_guard false s.dirtyPages _ hg.1 n page h,
    fun hc a h1 h2 => fault_page_lt c hc a h1 h2⟩

/-- Witness of claim C15: the passes on `demo_state`, three pages of which
only page 2 is SET. -/
theorem no_array_overrun_witness :
    GuardsIntact demo_config demo_state ∧ demo_config.pageCount < 4 ∧
    ((∃ (s' : State) (evs : List Event),
        update_display_window_vosf demo_config 4 demo_state = some s' ∧
        s'.trace = demo_state.trace ++ evs ∧
        ∀ r ∈ cleared_ranges evs, r.1 < r.2 ∧ r.2 ≤ demo_config.pageCount) ∧
     (∃ (s' : State) (evs : List Event),
        update_display_dga_vosf demo_config 4 demo_state = some s' ∧
        s'.trace = demo_state.trace ++ evs ∧
        ∀ r ∈ cleared_ranges evs, r.1 < r.2 ∧ r.2 ≤ demo_config.pageCount) ∧
     (∀ acc ∈ vosf_loop_accesses demo_config (window_render demo_config) 4 0 demo_state,
        Access.in_bounds demo_config acc) ∧
     (∀ acc ∈ vosf_loop_accesses demo_config (dga_render demo_config) 4 0 demo_state,
        Access.in_bounds demo_config acc) ∧
     (∀ (n page : Nat), page ≤ demo_config.pageCount + 1 →
        ∀ i ∈ scan_reads true demo_state.dirtyPages n page, i ≤ demo_config.pageCount + 1) ∧
     (∀ (n page : Nat), page ≤ demo_config.pageCount →
        ∀ i ∈ scan_reads false demo_state.dirtyPages n page, i ≤ demo_config.pageCount) ∧
     (RegionOK demo_config → ∀ a, demo_config.memStart ≤ a → a < demo_config.memEnd →
        (a - demo_config.memStart) >>> demo_config.pageBits < demo_config.pageCount)) :=
  ⟨by decide, by decide, no_array_overrun demo_config demo_state 4 (by decide) (by decide)⟩

/-- The scenario of claim C15 evaluated: with three pages, of which only page
2 is SET, the scans of the pass return 2, then 3, then 4, and the loop leaves. -/
theorem demo_last_page_set :
    find_next_page_set demo_config demo_state 0 = some 2 ∧
    find_next_page_clear demo_config demo_state 2 = some 3 ∧
    find_next_page_set demo_config
      (process_run demo_config (window_render demo_config) demo_state (2, 3)) 3 = some 4 ∧
    4 ≥ demo_config.pageCount ∧
    vosf_loop_accesses demo_config (window_render demo_config) 4 0 demo_state =
      [Access.dirtyPages 0, Access.dirtyPages 1, Access.dirtyPages 2,
       Access.dirtyPages 2, Access.dirtyPages 3,
       Access.pageInfo 2, Access.pageInfo 2,
       Access.dirtyPages 3, Access.dirtyPages 4] := by
  refine ⟨by decide, by decide, by decide, by decide, by decide⟩


/-! ## The DGA update -/

/-- The rendering part of the DGA update in terms of the two columns of the
box. -/
theorem dga_render_eq (c : Config) (first_page page : Nat) (s : State) :
    dga_render c first_page page s =
      dga_copy_rows c
        (((c.bytes_per_row / c.x : Nat) : Int) *
          (dga_last_column c s (c.pageInfo first_page).top (c.pageInfo (page - 1)).bottom -
            dga_first_column c s (c.pageInfo first_page).top (c.pageInfo (page - 1)).bottom + 1))
        ((c.pageInfo (page - 1)).bottom - (c.pageInfo first_page).top + 1).toNat
        ((c.pageInfo first_page).top * c.bytes_per_row +
          dga_first_column c s (c.pageInfo first_page).top (c.pageInfo (page - 1)).bottom *
            ((c.bytes_per_row / c.x : Nat) : Int))
        s := rfl

/-- The scan of one row from the left: the result is either the bound it was
entered with or the index of a differing byte below the bound, and no byte
from `i` up to the result differs. -/
theorem diff_from_left_spec (p1 p2 : Int → Nat) :
    ∀ (n : Nat) (i x1 : Int), (x1 - i).toNat ≤ n →
      (diff_from_left p1 p2 n i x1 = x1 ∨
        (i ≤ diff_from_left p1 p2 n i x1 ∧ diff_from_left p1 p2 n i x1 < x1 ∧
          p1 (diff_from_left p1 p2 n i x1) ≠ p2 (diff_from_left p1 p2 n i x1))) ∧
      ∀ k, i ≤ k → k < diff_from_left p1 p2 n i x1 → p1 k = p2 k := by
  intro n
  induction n with
  | zero =>
    intro i x1 h
    exact ⟨Or.inl rfl, fun k h1 h2 => by
      have e : diff_from_left p1 p2 0 i x1 = x1 := rfl
      omega⟩
  | succ n ih =>
    intro i x1 h
    unfold diff_from_left
    by_cases hlt : i < x1
    · rw [if_pos hlt]
      by_cases hd : p1 i ≠ p2 i
      · rw [if_pos hd]
        exact ⟨Or.inr ⟨le_refl _, hlt, hd⟩, fun k h1 h2 => by omega⟩
      · rw [if_neg hd]
        obtain ⟨ha, hb⟩ := ih (i + 1) x1 (by omega)
        refine ⟨?_, ?_⟩
        · rcases ha with ha | ⟨h1, h2, h3⟩
          · exact Or.inl ha
          · exact Or.inr ⟨by omega, h2, h3⟩
        · intro k h1 h2
          by_cases hk : k = i
          · subst hk; exact not_not.1 hd
          · exact hb k (by omega) h2
    · rw [if_neg hlt]
      exact ⟨Or.inl rfl, fun k h1 h2 => by omega⟩

/-- The scan of one row from the right: the result is either the bound it was
entered with or the index of a differing byte above the bound, and no byte
above the result, up to `i`, differs. -/
theorem diff_from_right_spec (p1 p2 : Int → Nat) :
    ∀ (n : Nat) (i x2 : Int), (i - x2).toNat ≤ n →
      (diff_from_right p1 p2 n i x2 = x2 ∨
        (x2 < diff_from_right p1 p2 n i x2 ∧ diff_from_right p1 p2 n i x2 ≤ i ∧
          p1 (diff_from_right p1 p2 n i x2) ≠ p2 (diff_from_right p1 p2 n i x2))) ∧
      ∀ k, diff_from_right p1 p2 n i x2 < k → k ≤ i → p1 k = p2 k := by
  intro n
  induction n with
  | zero =>
    intro i x2 h
    exact ⟨Or.inl rfl, fun k h1 h2 => by
      have e : diff_from_right p1 p2 0 i x2 = x2 := rfl
      omega⟩
  | succ n ih =>
    intro i x2 h
    unfold diff_from_right
    by_cases hlt : i > x2
    · rw [if_pos hlt]
      by_cases hd : p1 i ≠ p2 i
      · rw [if_pos hd]
        exact ⟨Or.inr ⟨hlt, le_refl _, hd⟩, fun k h1 h2 => by omega⟩
      · rw [if_neg hd]
        obtain ⟨ha, hb⟩ := ih (i - 1) x2 (by omega)
        refine ⟨?_, ?_⟩
        · rcases ha with ha | ⟨h1, h2, h3⟩
          · exact Or.inl ha
          · exact Or.inr ⟨h1, by omega, h3⟩
        · intro k h1 h2
          by_cases hk : k = i
          · subst hk; exact not_not.1 hd
          · exact hb k h1 (by omega)
    · rw [if_neg hlt]
      exact ⟨Or.inl rfl, fun k h1 h2 => by omega⟩

/-- The scan of the rows `j .. j + n - 1` from the left: the result is either
the bound it was entered with or the index of a differing byte of one of the
rows, and in none of the rows a byte below the result differs. -/
theorem dga_x1_spec (c : Config) (s : State) :
    ∀ (n : Nat) (j x1 : Int),
      dga_x1 c s n j x1 ≤ x1 ∧
      (dga_x1 c s n j x1 = x1 ∨
        ∃ m : Nat, m < n ∧ 0 ≤ dga_x1 c s n j x1 ∧ differs c s (j + m) (dga_x1 c s n j x1)) ∧
      ∀ m : Nat, m < n → ∀ k, 0 ≤ k → k < dga_x1 c s n j x1 → ¬ differs c s (j + m) k := by
  intro n
  induction n with
  | zero =>
    intro j x1
    exact ⟨le_refl _, Or.inl rfl, fun m hm => by omega⟩
  | succ n ih =>
    intro j x1
    unfold dga_x1
    simp only []
    obtain ⟨ha, hb⟩ := diff_from_left_spec
      (fun i : Int => s.the_buffer (j * c.bytes_per_row + i))
      (fun i : Int => s.the_buffer_copy (j * c.bytes_per_row + i)) x1.toNat 0 x1 (by omega)
    generalize diff_from_left (fun i : Int => s.the_buffer (j * c.bytes_per_row + i))
      (fun i : Int => s.the_buffer_copy (j * c.bytes_per_row + i)) x1.toNat 0 x1 = x1' at ha hb
    obtain ⟨i1, i2, i3⟩ := ih (j + 1) x1'
    have hx1' : x1' ≤ x1 := by
      rcases ha with ha | ⟨_, h2, _⟩
      · omega
      · omega
    refine ⟨by omega, ?_, ?_⟩
    · rcases i2 with i2 | ⟨m, hm, h0, hd⟩
      · rcases ha with ha | ⟨h1, h2, h3⟩
        · left; rw [i2, ha]
        · right
          refine ⟨0, by omega, by rw [i2]; exact h1, ?_⟩
          rw [i2]
          simpa [differs] using h3
      · right
        refine ⟨m + 1, by omega, h0, ?_⟩
        have e : j + ((m + 1 : Nat) : Int) = j + 1 + (m : Int) := by push_cast; ring
        rw [e]; exact hd
    · intro m hm k hk0 hk
      rcases Nat.eq_zero_or_pos m with h0 | hpos
      · subst h0
        have := hb k hk0 (by omega)
        simpa [differs] using this
      · obtain ⟨m', rfl⟩ : ∃ m', m = m' + 1 := ⟨m - 1, by omega⟩
        have e : j + ((m' + 1 : Nat) : Int) = j + 1 + (m' : Int) := by push_cast; ring
        rw [e]
        exact i3 m' (by omega) k hk0 hk

/-- The scan of the rows `j, j - 1, .., j - n + 1` from the right: the result
is either the bound it was entered with or the index of a differing byte of
one of the rows, and in none of the rows a byte above the result, up to the
last visible byte, differs. -/
theorem dga_x2_spec (c : Config) (s : State) (bpp : Int) :
    ∀ (n : Nat) (j x2 : Int),
      x2 ≤ dga_x2 c s bpp n j x2 ∧
      (dga_x2 c s bpp n j x2 = x2 ∨
        ∃ m : Nat, m < n ∧ dga_x2 c s bpp n j x2 ≤ c.x * bpp - 1 ∧
          differs c s (j - m) (dga_x2 c s bpp n j x2)) ∧
      ∀ m : Nat, m < n → ∀ k, dga_x2 c s bpp n j x2 < k → k ≤ c.x * bpp - 1 →
        ¬ differs c s (j - m) k := by
  intro n
  induction n with
  | zero =>
    intro j x2
    exact ⟨le_refl _, Or.inl rfl, fun m hm => by omega⟩
  | succ n ih =>
    intro j x2
    unfold dga_x2
    simp only []
    obtain ⟨ha, hb⟩ := diff_from_right_spec
      (fun i : Int => s.the_buffer (j * c.bytes_per_row + i))
      (fun i : Int => s.the_buffer_copy (j * c.bytes_per_row + i))
      (c.x * bpp - 1 - x2).toNat (c.x * bpp - 1) x2 (le_refl _)
    generalize diff_from_right (fun i : Int => s.the_buffer (j * c.bytes_per_row + i))
      (fun i : Int => s.the_buffer_copy (j * c.bytes_per_row + i))
      (c.x * bpp - 1 - x2).toNat (c.x * bpp - 1) x2 = x2' at ha hb
    obtain ⟨i1, i2, i3⟩ := ih (j - 1) x2'
    have hx2' : x2 ≤ x2' := by
      rcases ha with ha | ⟨h1, _, _⟩
      · omega
      · omega
    refine ⟨by omega, ?_, ?_⟩
    · rcases i2 with i2 | ⟨m, hm, h0, hd⟩
      · rcases ha with ha | ⟨h1, h2, h3⟩
        · left; rw [i2, ha]
        · right
          refine ⟨0, by omega, by rw [i2]; exact h2, ?_⟩
          rw [i2]
          simpa [differs] using h3
      · right
        refine ⟨m + 1, by omega, h0, ?_⟩
        have e : j - ((m + 1 : Nat) : Int) = j - 1 - (m : Int) := by push_cast; ring
        rw [e]; exact hd
    · intro m hm k hk0 hk
      rcases Nat.eq_zero_or_pos m with h0 | hpos
      · subst h0
        have := hb k (by omega) hk
        simpa [differs] using this
      · obtain ⟨m', rfl⟩ : ∃ m', m = m' + 1 := ⟨m - 1, by omega⟩
        have e : j - ((m' + 1 : Nat) : Int) = j - 1 - (m' : Int) := by push_cast; ring
        rw [e]
        exact i3 m' (by omega) k hk0 hk


/-- The facts about the two byte bounds and the two columns of the box of a
run with rows `y1 .. y2`, for pixels of at least one byte: the bounds are
visible bytes, differing bytes unless nothing was found, no byte left of the
first or right of the second differs, and the columns are the pixel columns
of the bounds. -/
theorem dga_box_facts (c : Config) (s : State) (y1 y2 : Int)
    (hb : 1 ≤ c.bytes_per_row / c.x) :
    ∃ x1b x2b : Int,
      0 ≤ x1b ∧ x1b ≤ (c.x : Int) * ((c.bytes_per_row / c.x : Nat) : Int) - 1 ∧
      x1b / ((c.bytes_per_row / c.x : Nat) : Int) * ((c.bytes_per_row / c.x : Nat) : Int) ≤ x2b ∧
      x2b ≤ (c.x : Int) * ((c.bytes_per_row / c.x : Nat) : Int) - 1 ∧
      dga_first_column c s y1 y2 = x1b / ((c.bytes_per_row / c.x : Nat) : Int) ∧
      dga_last_column c s y1 y2 = x2b / ((c.bytes_per_row / c.x : Nat) : Int) ∧
      (x1b = (c.x : Int) * ((c.bytes_per_row / c.x : Nat) : Int) - 1 ∨
        ∃ row, y1 ≤ row ∧ row ≤ y2 ∧ differs c s row x1b) ∧
      (x2b = dga_first_column c s y1 y2 * ((c.bytes_per_row / c.x : Nat) : Int) ∨
        ∃ row, y1 ≤ row ∧ row ≤ y2 ∧ differs c s row x2b) ∧
      (∀ row k, y1 ≤ row → row ≤ y2 → 0 ≤ k → k < x1b → ¬ differs c s row k) ∧
      (∀ row k, y1 ≤ row → row ≤ y2 → x2b < k →
        k ≤ (c.x : Int) * ((c.bytes_per_row / c.x : Nat) : Int) - 1 → ¬ differs c s row k) := by
  have hB : (1 : Int) ≤ ((c.bytes_per_row / c.x : Nat) : Int) := by exact_mod_cast hb
  have hx : 1 ≤ c.x := by
    by_contra hcon
    have : c.x = 0 := by omega
    rw [this, Nat.div_zero] at hb
    omega
  have hX : (1 : Int) ≤ (c.x : Int) := by exact_mod_cast hx
  generalize hBdef : ((c.bytes_per_row / c.x : Nat) : Int) = B at hB
  have hW : 1 ≤ (c.x : Int) * B := by nlinarith
  obtain ⟨a1, a2, a3⟩ := dga_x1_spec c s (y2 - y1 + 1).toNat y1 ((c.x : Int) * B - 1)
  have hx1b0 : 0 ≤ dga_x1 c s (y2 - y1 + 1).toNat y1 ((c.x : Int) * B - 1) := by
    rcases a2 with h | ⟨_, _, h, _⟩
    · omega
    · exact h
  have hfc : dga_first_column c s y1 y2 =
      dga_x1 c s (y2 - y1 + 1).toNat y1 ((c.x : Int) * B - 1) / B := by
    unfold dga_first_column
    simp only [hBdef]
    exact Int.tdiv_eq_ediv hx1b0 (by omega)
  generalize hx1bdef : dga_x1 c s (y2 - y1 + 1).toNat y1 ((c.x : Int) * B - 1) = x1b
    at a1 a2 a3 hx1b0 hfc
  have hBpos : 0 < B := by omega
  have hd1 : x1b / B * B ≤ x1b := Int.ediv_mul_le x1b (ne_of_gt hBpos)
  obtain ⟨b1, b2, b3⟩ := dga_x2_spec c s B (y2 - y1 + 1).toNat y2 (x1b / B * B)
  have hlc : dga_last_column c s y1 y2 =
      dga_x2 c s B (y2 - y1 + 1).toNat y2 (x1b / B * B) / B := by
    unfold dga_last_column
    simp only [hBdef, hfc]
    have h0 : 0 ≤ x1b / B * B := by
      have : 0 ≤ x1b / B := Int.ediv_nonneg hx1b0 (by omega)
      positivity
    exact Int.tdiv_eq_ediv (by omega) (by omega)
  generalize hx2bdef : dga_x2 c s B (y2 - y1 + 1).toNat y2 (x1b / B * B) = x2b
    at b1 b2 b3 hlc
  have hrow_up : ∀ row, y1 ≤ row → row ≤ y2 →
      ∃ m : Nat, m < (y2 - y1 + 1).toNat ∧ y1 + (m : Int) = row := by
    intro row h1 h2
    refine ⟨(row - y1).toNat, by omega, ?_⟩
    rw [Int.toNat_of_nonneg (by omega)]; ring
  have hrow_down : ∀ row, y1 ≤ row → row ≤ y2 →
      ∃ m : Nat, m < (y2 - y1 + 1).toNat ∧ y2 - (m : Int) = row := by
    intro row h1 h2
    refine ⟨(y2 - row).toNat, by omega, ?_⟩
    rw [Int.toNat_of_nonneg (by omega)]; ring
  have hleft : ∀ row k, y1 ≤ row → row ≤ y2 → 0 ≤ k → k < x1b → ¬ differs c s row k := by
    intro row k h1 h2 h3 h4
    obtain ⟨m, hm, rfl⟩ := hrow_up row h1 h2
    exact a3 m hm k h3 h4
  have hright : ∀ row k, y1 ≤ row → row ≤ y2 → x2b < k → k ≤ (c.x : Int) * B - 1 →
      ¬ differs c s row k := by
    intro row k h1 h2 h3 h4
    obtain ⟨m, hm, rfl⟩ := hrow_down row h1 h2
    exact b3 m hm k h3 h4
  have hx2ble : x2b ≤ (c.x : Int) * B - 1 := by
    rcases b2 with h | ⟨_, _, h, _⟩
    · omega
    · exact h
  refine ⟨x1b, x2b, hx1b0, a1, b1, hx2ble, hfc, hlc, ?_, ?_, hleft, hright⟩
  · rcases a2 with h | ⟨m, hm, _, hd⟩
    · exact Or.inl h
    · exact Or.inr ⟨y1 + m, by omega, by omega, hd⟩
  · rcases b2 with h | ⟨m, hm, _, hd⟩
    · left; rw [h, hfc]
    · exact Or.inr ⟨y2 - m, by omega, by omega, hd⟩


/-- The effects of one more row. -/
theorem dga_row_events_succ (c : Config) (length : Int) (n : Nat) (i : Int) :
    dga_row_events c length (n + 1) i =
      Event.Screen_blit i i length :: Event.memcpy i i length ::
        dga_row_events c length n (i + c.bytes_per_row) := by
  unfold dga_row_events
  rw [List.range_succ_eq_map, List.flatMap_cons, List.flatMap_map]
  simp only [Nat.cast_zero, zero_mul, add_zero, List.cons_append, List.nil_append,
    List.cons.injEq, true_and]
  congr 1
  funext m
  simp only [Function.comp, Nat.cast_succ]
  have e : i + ((m : Int) + 1) * (c.bytes_per_row : Int) =
      i + (c.bytes_per_row : Int) + (m : Int) * (c.bytes_per_row : Int) := by ring
  rw [e]

/-- The row loop of the DGA update: its effects, and the bytes of
`the_buffer_copy` it writes. -/
theorem dga_copy_rows_spec (c : Config) (length : Int) :
    ∀ (n : Nat) (i : Int) (s : State),
      (dga_copy_rows c length n i s).trace = s.trace ++ dga_row_events c length n i ∧
      (∀ k, (∃ m : Nat, m < n ∧ i + (m : Int) * c.bytes_per_row ≤ k ∧
          k < i + (m : Int) * c.bytes_per_row + length) →
        (dga_copy_rows c length n i s).the_buffer_copy k = s.the_buffer k) ∧
      (∀ k, (¬ ∃ m : Nat, m < n ∧ i + (m : Int) * c.bytes_per_row ≤ k ∧
          k < i + (m : Int) * c.bytes_per_row + length) →
        (dga_copy_rows c length n i s).the_buffer_copy k = s.the_buffer_copy k) := by
  intro n
  induction n with
  | zero =>
    intro i s
    refine ⟨by simp [dga_copy_rows, dga_row_events], ?_, fun k _ => rfl⟩
    rintro k ⟨m, hm, _⟩; omega
  | succ n ih =>
    intro i s
    rw [dga_copy_rows]
    obtain ⟨h1, h2, h3⟩ := ih (i + c.bytes_per_row)
      (memcpy i i length (emit (Event.Screen_blit i i length) s))
    have hbuf : (memcpy i i length (emit (Event.Screen_blit i i length) s)).the_buffer =
        s.the_buffer := rfl
    have hcopy : ∀ k, (memcpy i i length (emit (Event.Screen_blit i i length) s)).the_buffer_copy k
        = if i ≤ k ∧ k < i + length then s.the_buffer k else s.the_buffer_copy k := by
      intro k
      simp only [memcpy, emit]
      by_cases hk : i ≤ k ∧ k < i + length
      · rw [if_pos hk, if_pos hk]
        congr 1; ring
      · rw [if_neg hk, if_neg hk]
    have hshift : ∀ (m : Nat), i + ((m + 1 : Nat) : Int) * (c.bytes_per_row : Int) =
        i + (c.bytes_per_row : Int) + (m : Int) * (c.bytes_per_row : Int) := by
      intro m; push_cast; ring
    refine ⟨?_, ?_, ?_⟩
    · rw [h1, dga_row_events_succ]
      simp [memcpy, emit]
    · rintro k ⟨m, hm, hk1, hk2⟩
      by_cases hex : ∃ m : Nat, m < n ∧ i + c.bytes_per_row + (m : Int) * c.bytes_per_row ≤ k ∧
          k < i + c.bytes_per_row + (m : Int) * c.bytes_per_row + length
      · rw [h2 k hex, hbuf]
      · rw [h3 k hex, hcopy k]
        rcases Nat.eq_zero_or_pos m with h0 | hpos
        · subst h0
          simp only [Nat.cast_zero, zero_mul, add_zero] at hk1 hk2
          rw [if_pos ⟨hk1, hk2⟩]
        · obtain ⟨m', rfl⟩ : ∃ m', m = m' + 1 := ⟨m - 1, by omega⟩
          rw [hshift] at hk1 hk2
          exact absurd ⟨m', by omega, hk1, hk2⟩ hex
    · intro k hno
      have hex : ¬ ∃ m : Nat, m < n ∧ i + c.bytes_per_row + (m : Int) * c.bytes_per_row ≤ k ∧
          k < i + c.bytes_per_row + (m : Int) * c.bytes_per_row + length := by
        rintro ⟨m, hm, hk1, hk2⟩
        apply hno
        refine ⟨m + 1, by omega, ?_, ?_⟩
        · rw [hshift]; exact hk1
        · rw [hshift]; exact hk2
      have h0 : ¬ (i ≤ k ∧ k < i + length) := by
        intro h
        apply hno
        exact ⟨0, by omega, by simpa using h.1, by simpa using h.2⟩
      rw [h3 k hex, hcopy k, if_neg h0]

/-- The row loop of the DGA update pushes nothing to the window. -/
theorem dga_row_events_no_push (c : Config) (length : Int) (n : Nat) (i : Int) :
    ∀ e ∈ dga_row_events c length n i, Event.is_push e = false := by
  intro e he
  unfold dga_row_events at he
  rw [List.mem_flatMap] at he
  obtain ⟨m, _, hm⟩ := he
  simp only [List.mem_cons, List.mem_singleton, List.not_mem_nil, or_false] at hm
  rcases hm with rfl | rfl <;> rfl

/-- The rendering part of the DGA update pushes nothing to the window. -/
theorem dga_render_no_push (c : Config) (a b : Nat) (s : State) :
    ∃ evs, (dga_render c a b s).trace = s.trace ++ evs ∧
      ∀ e ∈ evs, Event.is_push e = false := by
  rw [dga_render_eq]
  exact ⟨_, (dga_copy_rows_spec c _ _ _ s).1, dga_row_events_no_push _ _ _ _⟩

/-- The DGA update pushes nothing to the window, whatever runs it processes. -/
theorem process_runs_dga_no_push (c : Config) :
    ∀ (runs : List (Nat × Nat)) (s : State),
      ∃ evs, (process_runs c (dga_render c) runs s).trace = s.trace ++ evs ∧
        ∀ e ∈ evs, Event.is_push e = false := by
  intro runs
  induction runs with
  | nil => intro s; exact ⟨[], by simp [process_runs], by simp⟩
  | cons r t ih =>
    intro s
    have hfold : process_runs c (dga_render c) (r :: t) s =
        process_runs c (dga_render c) t (process_run c (dga_render c) s r) := by
      simp [process_runs]
    obtain ⟨evs, h1, h2⟩ := ih (process_run c (dga_render c) s r)
    obtain ⟨ev1, k1, k2⟩ := dga_render_no_push c r.1 r.2
      (vm_protect ((c.memStart : Int) + int32 (r.1 <<< c.pageBits)).toNat
        (uint32 ((r.2 - r.1) <<< c.pageBits))
        Prot.VM_PAGE_READ (PFLAG_CLEAR_RANGE r.1 r.2 s))
    have hrun : (process_run c (dga_render c) s r).trace =
        s.trace ++ (Event.PFLAG_CLEAR_RANGE r.1 r.2 ::
          Event.vm_protect ((c.memStart : Int) + int32 (r.1 <<< c.pageBits)).toNat
            (uint32 ((r.2 - r.1) <<< c.pageBits))
            Prot.VM_PAGE_READ :: ev1) := by
      unfold process_run
      rw [k1]
      simp [vm_protect, PFLAG_CLEAR_RANGE, emit]
    refine ⟨(Event.PFLAG_CLEAR_RANGE r.1 r.2 ::
          Event.vm_protect ((c.memStart : Int) + int32 (r.1 <<< c.pageBits)).toNat
            (uint32 ((r.2 - r.1) <<< c.pageBits))
            Prot.VM_PAGE_READ :: ev1) ++ evs, ?_, ?_⟩
    · rw [hfold, h1, hrun, List.append_assoc]
    · intro e he
      rcases List.mem_append.1 he with h | h
      · simp only [List.mem_cons] at h
        rcases h with rfl | rfl | h
        · rfl
        · rfl
        · exact k2 e h
      · exact h2 e h


/-- The effects of the row loop, row by row. -/
theorem dga_box_events_eq (c : Config) (y1 y2 x1 x2 : Int) :
    dga_row_events c (((c.bytes_per_row / c.x : Nat) : Int) * (x2 - x1 + 1))
      (y2 - y1 + 1).toNat
      (y1 * c.bytes_per_row + x1 * ((c.bytes_per_row / c.x : Nat) : Int)) =
    dga_box_events c y1 y2 x1 x2 := by
  unfold dga_row_events dga_box_events
  congr 1
  funext m
  have e : y1 * (c.bytes_per_row : Int) + x1 * ((c.bytes_per_row / c.x : Nat) : Int) +
      (m : Int) * (c.bytes_per_row : Int) =
      (y1 + (m : Int)) * (c.bytes_per_row : Int) + x1 * ((c.bytes_per_row / c.x : Nat) : Int) := by
    ring
  rw [e]

/-- What the rendering part of the DGA update does to a state, in terms of the
box of the run. -/
theorem dga_render_spec (c : Config) (first_page page : Nat) (s : State) :
    (dga_render c first_page page s).trace = s.trace ++
      dga_box_events c (c.pageInfo first_page).top (c.pageInfo (page - 1)).bottom
        (dga_first_column c s (c.pageInfo first_page).top (c.pageInfo (page - 1)).bottom)
        (dga_last_column c s (c.pageInfo first_page).top (c.pageInfo (page - 1)).bottom) ∧
    (∀ k, in_box c (c.pageInfo first_page).top (c.pageInfo (page - 1)).bottom
        (dga_first_column c s (c.pageInfo first_page).top (c.pageInfo (page - 1)).bottom)
        (dga_last_column c s (c.pageInfo first_page).top (c.pageInfo (page - 1)).bottom) k →
      (dga_render c first_page page s).the_buffer_copy k = s.the_buffer k) ∧
    (∀ k, ¬ in_box c (c.pageInfo first_page).top (c.pageInfo (page - 1)).bottom
        (dga_first_column c s (c.pageInfo first_page).top (c.pageInfo (page - 1)).bottom)
        (dga_last_column c s (c.pageInfo first_page).top (c.pageInfo (page - 1)).bottom) k →
      (dga_render c first_page page s).the_buffer_copy k = s.the_buffer_copy k) ∧
    (dga_render c first_page page s).the_buffer = s.the_buffer ∧
    (dga_render c first_page page s).dirtyPages = s.dirtyPages ∧
    (dga_render c first_page page s).dirty = s.dirty ∧
    (dga_render c first_page page s).stderr = s.stderr := by
  generalize hy1 : (c.pageInfo first_page).top = y1
  generalize hy2 : (c.pageInfo (page - 1)).bottom = y2
  have heq := dga_render_eq c first_page page s
  rw [hy1, hy2] at heq
  generalize hx1 : dga_first_column c s y1 y2 = x1 at heq
  generalize hx2 : dga_last_column c s y1 y2 = x2 at heq
  obtain ⟨k1, k2, k3⟩ := dga_copy_rows_spec c
    (((c.bytes_per_row / c.x : Nat) : Int) * (x2 - x1 + 1)) (y2 - y1 + 1).toNat
    (y1 * c.bytes_per_row + x1 * ((c.bytes_per_row / c.x : Nat) : Int)) s
  obtain ⟨o1, o2, o3, o4, _⟩ := dga_copy_rows_ok c
    (((c.bytes_per_row / c.x : Nat) : Int) * (x2 - x1 + 1)) (y2 - y1 + 1).toNat
    (y1 * c.bytes_per_row + x1 * ((c.bytes_per_row / c.x : Nat) : Int)) s
  have hiff : ∀ k, in_box c y1 y2 x1 x2 k ↔
      ∃ m : Nat, m < (y2 - y1 + 1).toNat ∧
        y1 * c.bytes_per_row + x1 * ((c.bytes_per_row / c.x : Nat) : Int) +
          (m : Int) * c.bytes_per_row ≤ k ∧
        k < y1 * c.bytes_per_row + x1 * ((c.bytes_per_row / c.x : Nat) : Int) +
          (m : Int) * c.bytes_per_row +
            ((c.bytes_per_row / c.x : Nat) : Int) * (x2 - x1 + 1) := by
    intro k
    unfold in_box
    constructor
    · rintro ⟨row, h1, h2, h3, h4⟩
      refine ⟨(row - y1).toNat, by omega, ?_, ?_⟩
      · rw [Int.toNat_of_nonneg (by omega)]
        have e : y1 * (c.bytes_per_row : Int) + x1 * ((c.bytes_per_row / c.x : Nat) : Int) +
            (row - y1) * (c.bytes_per_row : Int) =
            row * (c.bytes_per_row : Int) + x1 * ((c.bytes_per_row / c.x : Nat) : Int) := by ring
        rw [e]; exact h3
      · rw [Int.toNat_of_nonneg (by omega)]
        have e : y1 * (c.bytes_per_row : Int) + x1 * ((c.bytes_per_row / c.x : Nat) : Int) +
            (row - y1) * (c.bytes_per_row : Int) =
            row * (c.bytes_per_row : Int) + x1 * ((c.bytes_per_row / c.x : Nat) : Int) := by ring
        rw [e]; exact h4
    · rintro ⟨m, hm, h3, h4⟩
      have e : y1 * (c.bytes_per_row : Int) + x1 * ((c.bytes_per_row / c.x : Nat) : Int) +
          (m : Int) * (c.bytes_per_row : Int) =
          (y1 + (m : Int)) * (c.bytes_per_row : Int) +
            x1 * ((c.bytes_per_row / c.x : Nat) : Int) := by ring
      rw [e] at h3 h4
      exact ⟨y1 + m, by omega, by omega, h3, h4⟩
  rw [heq]
  refine ⟨?_, ?_, ?_, o3, o1, o2, o4⟩
  · rw [k1, dga_box_events_eq]
  · intro k hk; exact k2 k ((hiff k).1 hk)
  · intro k hk; exact k3 k (fun h => hk ((hiff k).2 h))


/-- Claim C11. Tight bounding box: for a run of the DGA update whose rows
are `y1 .. y2`, with pixels of at least one byte, if a byte of the visible
part `[0, x * bytes_per_pixel)` of one of the rows differs between
`the_buffer` and `the_buffer_copy`, then the computed `x1`
(`dga_first_column`) is the smallest and the computed `x2` (`dga_last_column`)
the largest pixel column that holds a differing visible byte of one of the
rows: each holds one, and the column `k / bytes_per_pixel` of every differing
byte `k` lies between them.  They are the columns with which the run is
rendered. -/
theorem dga_tight_box (c : Config) (s : State) (y1 y2 : Int)
    (hb : 1 ≤ c.bytes_per_row / c.x)
    (hdiff : ∃ row k : Int, y1 ≤ row ∧ row ≤ y2 ∧ 0 ≤ k ∧
      k < (c.x : Int) * ((c.bytes_per_row / c.x : Nat) : Int) ∧ differs c s row k) :
    (∀ first_page page, (c.pageInfo first_page).top = y1 →
      (c.pageInfo (page - 1)).bottom = y2 →
      (dga_render c first_page page s).trace = s.trace ++
        dga_box_events c y1 y2 (dga_first_column c s y1 y2) (dga_last_column c s y1 y2)) ∧
    (∃ row k : Int, y1 ≤ row ∧ row ≤ y2 ∧ 0 ≤ k ∧
      k < (c.x : Int) * ((c.bytes_per_row / c.x : Nat) : Int) ∧ differs c s row k ∧
      k / ((c.bytes_per_row / c.x : Nat) : Int) = dga_first_column c s y1 y2) ∧
    (∀ row k : Int, y1 ≤ row → row ≤ y2 → 0 ≤ k →
      k < (c.x : Int) * ((c.bytes_per_row / c.x : Nat) : Int) → differs c s row k →
      dga_first_column c s y1 y2 ≤ k / ((c.bytes_per_row / c.x : Nat) : Int)) ∧
    (∃ row k : Int, y1 ≤ row ∧ row ≤ y2 ∧ 0 ≤ k ∧
      k < (c.x : Int) * ((c.bytes_per_row / c.x : Nat) : Int) ∧ differs c s row k ∧
      k / ((c.bytes_per_row / c.x : Nat) : Int) = dga_last_column c s y1 y2) ∧
    (∀ row k : Int, y1 ≤ row → row ≤ y2 → 0 ≤ k →
      k < (c.x : Int) * ((c.bytes_per_row / c.x : Nat) : Int) → differs c s row k →
      k / ((c.bytes_per_row / c.x : Nat) : Int) ≤ dga_last_column c s y1 y2) := by
  obtain ⟨x1b, x2b, f0, f1, f2, f3, f4, f5, f6, f7, f8, f9⟩ := dga_box_facts c s y1 y2 hb
  have hB : (0 : Int) < ((c.bytes_per_row / c.x : Nat) : Int) := by exact_mod_cast hb
  obtain ⟨row0, k0, r1, r2, r3, r4, r5⟩ := hdiff
  have hge : ∀ row k : Int, y1 ≤ row → row ≤ y2 → 0 ≤ k → differs c s row k → x1b ≤ k := by
    intro row k h1 h2 h3 h4
    by_contra hcon
    exact f8 row k h1 h2 h3 (by omega) h4
  have hle : ∀ row k : Int, y1 ≤ row → row ≤ y2 →
      k < (c.x : Int) * ((c.bytes_per_row / c.x : Nat) : Int) → differs c s row k → k ≤ x2b := by
    intro row k h1 h2 h3 h4
    by_contra hcon
    exact f9 row k h1 h2 (by omega) (by omega) h4
  have hd1 := Int.ediv_mul_le x1b (ne_of_gt hB)
  refine ⟨?_, ?_, ?_, ?_, ?_⟩
  · intro first_page page h1 h2
    subst h1 h2
    exact (dga_render_spec c first_page page s).1
  · have hx1 : ∃ row, y1 ≤ row ∧ row ≤ y2 ∧ differs c s row x1b := by
      rcases f6 with h | h
      · have := hge row0 k0 r1 r2 r3 r5
        have e : k0 = x1b := by omega
        exact ⟨row0, r1, r2, e ▸ r5⟩
      · exact h
    obtain ⟨row, h1, h2, h3⟩ := hx1
    exact ⟨row, x1b, h1, h2, f0, by omega, h3, f4.symm⟩
  · intro row k h1 h2 h3 h4 h5
    rw [f4]
    exact Int.ediv_le_ediv hB (hge row k h1 h2 h3 h5)
  · have hx2 : ∃ row, y1 ≤ row ∧ row ≤ y2 ∧ differs c s row x2b := by
      rcases f7 with h | h
      · have h1 := hge row0 k0 r1 r2 r3 r5
        have h2 := hle row0 k0 r1 r2 r4 r5
        rw [f4] at h
        have e : k0 = x2b := by omega
        exact ⟨row0, r1, r2, e ▸ r5⟩
      · exact h
    obtain ⟨row, h1, h2, h3⟩ := hx2
    have h0 : 0 ≤ x2b := by
      have : 0 ≤ x1b / ((c.bytes_per_row / c.x : Nat) : Int) := Int.ediv_nonneg f0 (by omega)
      have : 0 ≤ x1b / ((c.bytes_per_row / c.x : Nat) : Int) *
          ((c.bytes_per_row / c.x : Nat) : Int) := by positivity
      omega
    exact ⟨row, x2b, h1, h2, h0, by omega, h3, f5.symm⟩
  · intro row k h1 h2 h3 h4 h5
    rw [f5]
    exact Int.ediv_le_ediv hB (hle row k h1 h2 h4 h5)

/-- Witness of claim C11: `box_state`, whose rows 10 to 12 differ in the
columns 50 to 60. -/
theorem dga_tight_box_witness :
    1 ≤ box_config.bytes_per_row / box_config.x ∧
    (∃ row k : Int, 10 ≤ row ∧ row ≤ 12 ∧ 0 ≤ k ∧
      k < (box_config.x : Int) * ((box_config.bytes_per_row / box_config.x : Nat) : Int) ∧
      differs box_config box_state row k) ∧
    ((∀ first_page page, (box_config.pageInfo first_page).top = 10 →
      (box_config.pageInfo (page - 1)).bottom = 12 →
      (dga_render box_config first_page page box_state).trace = box_state.trace ++
        dga_box_events box_config 10 12 (dga_first_column box_config box_state 10 12)
          (dga_last_column box_config box_state 10 12)) ∧
     (∃ row k : Int, 10 ≤ row ∧ row ≤ 12 ∧ 0 ≤ k ∧
      k < (box_config.x : Int) * ((box_config.bytes_per_row / box_config.x : Nat) : Int) ∧
      differs box_config box_state row k ∧
      k / ((box_config.bytes_per_row / box_config.x : Nat) : Int) =
        dga_first_column box_config box_state 10 12) ∧
     (∀ row k : Int, 10 ≤ row → row ≤ 12 → 0 ≤ k →
      k < (box_config.x : Int) * ((box_config.bytes_per_row / box_config.x : Nat) : Int) →
      differs box_config box_state row k →
      dga_first_column box_config box_state 10 12 ≤
        k / ((box_config.bytes_per_row / box_config.x : Nat) : Int)) ∧
     (∃ row k : Int, 10 ≤ row ∧ row ≤ 12 ∧ 0 ≤ k ∧
      k < (box_config.x : Int) * ((box_config.bytes_per_row / box_config.x : Nat) : Int) ∧
      differs box_config box_state row k ∧
      k / ((box_config.bytes_per_row / box_config.x : Nat) : Int) =
        dga_last_column box_config box_state 10 12) ∧
     (∀ row k : Int, 10 ≤ row → row ≤ 12 → 0 ≤ k →
      k < (box_config.x : Int) * ((box_config.bytes_per_row / box_config.x : Nat) : Int) →
      differs box_config box_state row k →
      k / ((box_config.bytes_per_row / box_config.x : Nat) : Int) ≤
        dga_last_column box_config box_state 10 12)) :=
  ⟨by decide,
    ⟨10, 50, by decide, by decide, by decide, by decide, by decide⟩,
    dga_tight_box box_config box_state 10 12 (by decide)
      ⟨10, 50, by decide, by decide, by decide, by decide, by decide⟩⟩

/-- The scenario of claim C11 evaluated: the rows 10 to 12 differ in the columns
50 to 60 only, the box is `x1 = 50`, `x2 = 60`, and the pass converts and
copies the 11 bytes of these columns in each of the three rows. -/
theorem box_example :
    dga_first_column box_config box_state 10 12 = 50 ∧
    dga_last_column box_config box_state 10 12 = 60 ∧
    (update_display_dga_vosf box_config 2 box_state).map State.trace =
      some [Event.PFLAG_CLEAR_RANGE 0 1, Event.vm_protect 0 4096 Prot.VM_PAGE_READ,
            Event.Screen_blit 690 690 11, Event.memcpy 690 690 11,
            Event.Screen_blit 754 754 11, Event.memcpy 754 754 11,
            Event.Screen_blit 818 818 11, Event.memcpy 818 818 11,
            Event.set_dirty false] := by
  refine ⟨by decide, by decide, by decide⟩

/-- Claim C16. Shadow synchronisation: for a run of the DGA update whose rows
are `y1 .. y2`, with pixels of at least one byte, every visible byte of these
rows whose pixel column lies outside the computed range `x1 .. x2` is the same
in `the_buffer` and in `the_buffer_copy` when the run is processed; hence,
after the run is rendered, `the_buffer_copy` equals `the_buffer` on the whole
visible part of every row of `y1 .. y2`. -/
theorem dga_shadow_sync (c : Config) (s : State) (y1 y2 : Int)
    (hb : 1 ≤ c.bytes_per_row / c.x) :
    (∀ row k : Int, y1 ≤ row → row ≤ y2 → 0 ≤ k →
      k < (c.x : Int) * ((c.bytes_per_row / c.x : Nat) : Int) →
      (k / ((c.bytes_per_row / c.x : Nat) : Int) < dga_first_column c s y1 y2 ∨
        dga_last_column c s y1 y2 < k / ((c.bytes_per_row / c.x : Nat) : Int)) →
      s.the_buffer (row * c.bytes_per_row + k) =
        s.the_buffer_copy (row * c.bytes_per_row + k)) ∧
    (∀ first_page page, (c.pageInfo first_page).top = y1 →
      (c.pageInfo (page - 1)).bottom = y2 →
      ∀ row k : Int, y1 ≤ row → row ≤ y2 → 0 ≤ k →
        k < (c.x : Int) * ((c.bytes_per_row / c.x : Nat) : Int) →
        (dga_render c first_page page s).the_buffer_copy (row * c.bytes_per_row + k) =
          (dga_render c first_page page s).the_buffer (row * c.bytes_per_row + k)) := by
  obtain ⟨x1b, x2b, f0, f1, f2, f3, f4, f5, f6, f7, f8, f9⟩ := dga_box_facts c s y1 y2 hb
  have hB : (0 : Int) < ((c.bytes_per_row / c.x : Nat) : Int) := by exact_mod_cast hb
  have hout : ∀ row k : Int, y1 ≤ row → row ≤ y2 → 0 ≤ k →
      k < (c.x : Int) * ((c.bytes_per_row / c.x : Nat) : Int) →
      (k / ((c.bytes_per_row / c.x : Nat) : Int) < dga_first_column c s y1 y2 ∨
        dga_last_column c s y1 y2 < k / ((c.bytes_per_row / c.x : Nat) : Int)) →
      s.the_buffer (row * c.bytes_per_row + k) =
        s.the_buffer_copy (row * c.bytes_per_row + k) := by
    intro row k h1 h2 h3 h4 h5
    rcases h5 with h5 | h5
    · rw [f4] at h5
      have hlt : k < x1b := by
        by_contra hcon
        have := Int.ediv_le_ediv hB (Int.not_lt.1 hcon)
        omega
      exact not_not.1 (f8 row k h1 h2 h3 hlt)
    · rw [f5] at h5
      have hlt : x2b < k := by
        by_contra hcon
        have := Int.ediv_le_ediv hB (Int.not_lt.1 hcon)
        omega
      exact not_not.1 (f9 row k h1 h2 hlt (by omega))
  refine ⟨hout, ?_⟩
  intro first_page page e1 e2 row k h1 h2 h3 h4
  obtain ⟨_, g2, g3, g4, _⟩ := dga_render_spec c first_page page s
  rw [e1, e2] at g2 g3
  rw [g4]
  by_cases hin : in_box c y1 y2 (dga_first_column c s y1 y2) (dga_last_column c s y1 y2)
      (row * c.bytes_per_row + k)
  · exact g2 _ hin
  · rw [g3 _ hin]
    symm
    apply hout row k h1 h2 h3 h4
    by_contra hcon
    have c1 : dga_first_column c s y1 y2 ≤ k / ((c.bytes_per_row / c.x : Nat) : Int) := by
      by_contra h; exact hcon (Or.inl (by omega))
    have c2 : k / ((c.bytes_per_row / c.x : Nat) : Int) < dga_last_column c s y1 y2 + 1 := by
      by_contra h; exact hcon (Or.inr (by omega))
    rw [Int.le_ediv_iff_mul_le hB] at c1
    rw [Int.ediv_lt_iff_lt_mul hB] at c2
    apply hin
    refine ⟨row, h1, h2, by omega, ?_⟩
    have e : ((c.bytes_per_row / c.x : Nat) : Int) *
        (dga_last_column c s y1 y2 - dga_first_column c s y1 y2 + 1) =
        (dga_last_column c s y1 y2 + 1) * ((c.bytes_per_row / c.x : Nat) : Int) -
          dga_first_column c s y1 y2 * ((c.bytes_per_row / c.x : Nat) : Int) := by ring
    rw [e]
    omega

/-- Witness of claim C16: the rows 10 to 12 of `box_state`. -/
theorem dga_shadow_sync_witness :
    1 ≤ box_config.bytes_per_row / box_config.x ∧
    ((∀ row k : Int, 10 ≤ row → row ≤ 12 → 0 ≤ k →
      k < (box_config.x : Int) * ((box_config.bytes_per_row / box_config.x : Nat) : Int) →
      (k / ((box_config.bytes_per_row / box_config.x : Nat) : Int) <
          dga_first_column box_config box_state 10 12 ∨
        dga_last_column box_config box_state 10 12 <
          k / ((box_config.bytes_per_row / box_config.x : Nat) : Int)) →
      box_state.the_buffer (row * box_config.bytes_per_row + k) =
        box_state.the_buffer_copy (row * box_config.bytes_per_row + k)) ∧
     (∀ first_page page, (box_config.pageInfo first_page).top = 10 →
      (box_config.pageInfo (page - 1)).bottom = 12 →
      ∀ row k : Int, 10 ≤ row → row ≤ 12 → 0 ≤ k →
        k < (box_config.x : Int) * ((box_config.bytes_per_row / box_config.x : Nat) : Int) →
        (dga_render box_config first_page page box_state).the_buffer_copy
            (row * box_config.bytes_per_row + k) =
          (dga_render box_config first_page page box_state).the_buffer
            (row * box_config.bytes_per_row + k))) :=
  ⟨by decide, dga_shadow_sync box_config box_state 10 12 (by decide)⟩

/-- Counterexample to claim C17.  In `wide_state` the two buffers are equal
everywhere, rows have five pixels of two bytes, and pages 0 and 2 are SET.
The DGA update computes `x1 = x2 = 4`, the last column, for both runs, and
converts and copies two bytes, one pixel, in each row (at offset 8 in row 0,
at offset 18 in row 1): not the ten bytes of the five columns of the row. -/
theorem dga_degenerate_box_one_pixel :
    (∀ k, wide_state.the_buffer k = wide_state.the_buffer_copy k) ∧
    GuardsIntact wide_config wide_state ∧
    dga_first_column wide_config wide_state 0 0 = 4 ∧
    dga_last_column wide_config wide_state 0 0 = 4 ∧
    (update_display_dga_vosf wide_config 6 wide_state).map State.trace =
      some [Event.PFLAG_CLEAR_RANGE 0 1, Event.vm_protect 0 4 Prot.VM_PAGE_READ,
            Event.Screen_blit 8 8 2, Event.memcpy 8 8 2,
            Event.PFLAG_CLEAR_RANGE 2 3, Event.vm_protect 8 4 Prot.VM_PAGE_READ,
            Event.Screen_blit 8 8 2, Event.memcpy 8 8 2,
            Event.Screen_blit 18 18 2, Event.memcpy 18 18 2,
            Event.set_dirty false] ∧
    ((wide_config.bytes_per_row / wide_config.x : Nat) : Int) * (4 - 4 + 1) ≠
      ((wide_config.bytes_per_row / wide_config.x : Nat) : Int) * wide_config.x := by
  refine ⟨fun _ => rfl, by decide, by decide, by decide, by decide, by decide⟩

/-- Claim C17, amended.  For a run of the DGA update whose rows are
`y1 .. y2`, with pixels of at least one byte, in which no visible byte of the
rows differs between `the_buffer` and `the_buffer_copy`, the bound stays at
its default, the last visible byte, so that the box is the last pixel column:
`x1 = x2 = VideoMonitor.x - 1`, and for each row `j` of `y1 .. y2` the pass
converts and copies that one pixel, `bytes_per_pixel` bytes at offset
`j * bytes_per_row + (VideoMonitor.x - 1) * bytes_per_pixel`. -/
theorem dga_degenerate_box (c : Config) (s : State) (y1 y2 : Int)
    (hb : 1 ≤ c.bytes_per_row / c.x)
    (hsame : ∀ row k : Int, y1 ≤ row → row ≤ y2 → 0 ≤ k →
      k < (c.x : Int) * ((c.bytes_per_row / c.x : Nat) : Int) →
      s.the_buffer (row * c.bytes_per_row + k) =
        s.the_buffer_copy (row * c.bytes_per_row + k)) :
    dga_first_column c s y1 y2 = (c.x : Int) - 1 ∧
    dga_last_column c s y1 y2 = (c.x : Int) - 1 ∧
    ∀ first_page page, (c.pageInfo first_page).top = y1 →
      (c.pageInfo (page - 1)).bottom = y2 →
      (dga_render c first_page page s).trace = s.trace ++
        (List.range (y2 - y1 + 1).toNat).flatMap (fun (m : Nat) =>
          [Event.Screen_blit
             ((y1 + (m : Int)) * c.bytes_per_row +
               ((c.x : Int) - 1) * ((c.bytes_per_row / c.x : Nat) : Int))
             ((y1 + (m : Int)) * c.bytes_per_row +
               ((c.x : Int) - 1) * ((c.bytes_per_row / c.x : Nat) : Int))
             ((c.bytes_per_row / c.x : Nat) : Int),
           Event.memcpy
             ((y1 + (m : Int)) * c.bytes_per_row +
               ((c.x : Int) - 1) * ((c.bytes_per_row / c.x : Nat) : Int))
             ((y1 + (m : Int)) * c.bytes_per_row +
               ((c.x : Int) - 1) * ((c.bytes_per_row / c.x : Nat) : Int))
             ((c.bytes_per_row / c.x : Nat) : Int)]) := by
  obtain ⟨x1b, x2b, f0, f1, f2, f3, f4, f5, f6, f7, f8, f9⟩ := dga_box_facts c s y1 y2 hb
  have hB : (0 : Int) < ((c.bytes_per_row / c.x : Nat) : Int) := by exact_mod_cast hb
  have hno : ∀ row k : Int, y1 ≤ row → row ≤ y2 → 0 ≤ k →
      k < (c.x : Int) * ((c.bytes_per_row / c.x : Nat) : Int) → ¬ differs c s row k :=
    fun row k h1 h2 h3 h4 h => h (hsame row k h1 h2 h3 h4)
  have hx1b : x1b = (c.x : Int) * ((c.bytes_per_row / c.x : Nat) : Int) - 1 := by
    rcases f6 with h | ⟨row, h1, h2, h3⟩
    · exact h
    · exact absurd h3 (hno row x1b h1 h2 f0 (by omega))
  have hx1 : dga_first_column c s y1 y2 = (c.x : Int) - 1 := by
    rw [f4, hx1b]
    have e : (c.x : Int) * ((c.bytes_per_row / c.x : Nat) : Int) - 1 =
        (((c.bytes_per_row / c.x : Nat) : Int) - 1) +
          ((c.x : Int) - 1) * ((c.bytes_per_row / c.x : Nat) : Int) := by ring
    rw [e, Int.add_mul_ediv_right _ _ (ne_of_gt hB),
      Int.ediv_eq_zero_of_lt (by omega) (by omega)]
    ring
  have hx2b : x2b = ((c.x : Int) - 1) * ((c.bytes_per_row / c.x : Nat) : Int) := by
    rcases f7 with h | ⟨row, h1, h2, h3⟩
    · rw [h, hx1]
    · exfalso
      have h0 : 0 ≤ x2b := by
        have : 0 ≤ x1b / ((c.bytes_per_row / c.x : Nat) : Int) := Int.ediv_nonneg f0 (by omega)
        have : 0 ≤ x1b / ((c.bytes_per_row / c.x : Nat) : Int) *
            ((c.bytes_per_row / c.x : Nat) : Int) := by positivity
        omega
      exact hno row x2b h1 h2 h0 (by omega) h3
  have hx2 : dga_last_column c s y1 y2 = (c.x : Int) - 1 := by
    rw [f5, hx2b, Int.mul_ediv_cancel _ (ne_of_gt hB)]
  refine ⟨hx1, hx2, ?_⟩
  intro first_page page e1 e2
  obtain ⟨g1, _⟩ := dga_render_spec c first_page page s
  rw [e1, e2, hx1, hx2] at g1
  rw [g1]
  unfold dga_box_events
  congr 2
  funext m
  have e : ((c.bytes_per_row / c.x : Nat) : Int) * ((c.x : Int) - 1 - ((c.x : Int) - 1) + 1) =
      ((c.bytes_per_row / c.x : Nat) : Int) := by ring
  rw [e]

/-- Witness of claim C17, amended: row 0 of `wide_state`, whose two buffers
are equal. -/
theorem dga_degenerate_box_witness :
    1 ≤ wide_config.bytes_per_row / wide_config.x ∧
    (∀ row k : Int, 0 ≤ row → row ≤ 0 → 0 ≤ k →
      k < (wide_config.x : Int) * ((wide_config.bytes_per_row / wide_config.x : Nat) : Int) →
      wide_state.the_buffer (row * wide_config.bytes_per_row + k) =
        wide_state.the_buffer_copy (row * wide_config.bytes_per_row + k)) ∧
    (dga_first_column wide_config wide_state 0 0 = (wide_config.x : Int) - 1 ∧
     dga_last_column wide_config wide_state 0 0 = (wide_config.x : Int) - 1 ∧
     ∀ first_page page, (wide_config.pageInfo first_page).top = 0 →
      (wide_config.pageInfo (page - 1)).bottom = 0 →
      (dga_render wide_config first_page page wide_state).trace = wide_state.trace ++
        (List.range ((0 : Int) - 0 + 1).toNat).flatMap (fun (m : Nat) =>
          [Event.Screen_blit
             ((0 + (m : Int)) * wide_config.bytes_per_row +
               ((wide_config.x : Int) - 1) *
                 ((wide_config.bytes_per_row / wide_config.x : Nat) : Int))
             ((0 + (m : Int)) * wide_config.bytes_per_row +
               ((wide_config.x : Int) - 1) *
                 ((wide_config.bytes_per_row / wide_config.x : Nat) : Int))
             ((wide_config.bytes_per_row / wide_config.x : Nat) : Int),
           Event.memcpy
             ((0 + (m : Int)) * wide_config.bytes_per_row +
               ((wide_config.x : Int) - 1) *
                 ((wide_config.bytes_per_row / wide_config.x : Nat) : Int))
             ((0 + (m : Int)) * wide_config.bytes_per_row +
               ((wide_config.x : Int) - 1) *
                 ((wide_config.bytes_per_row / wide_config.x : Nat) : Int))
             ((wide_config.bytes_per_row / wide_config.x : Nat) : Int)])) :=
  ⟨by decide, fun _ _ _ _ _ _ => rfl,
    dga_degenerate_box wide_config wide_state 0 0 (by decide) (fun _ _ _ _ _ _ => rfl)⟩

/-- Claim C12. Direct-addressed output and frame: from a state whose guards are
intact, `update_display_dga_vosf` processes the maximal runs `runs` of SET
pages by the loop body, and none of its effects is a push to the window; and
whenever the loop body renders a run `(first_page, page)` from a state `st`,
with rows `y1 .. y2` and computed columns `x1` and `x2`, its effects are, for
each row `j` of `y1 .. y2` in order, exactly one conversion and one copy to
`the_buffer_copy`, both at offset `j * bytes_per_row + x1 * bytes_per_pixel`
and of `bytes_per_pixel * (x2 - x1 + 1)` bytes (`dga_box_events`); the bytes
of `the_buffer_copy` in these ranges (`in_box`) become those of `the_buffer`,
every other byte of `the_buffer_copy` is unchanged, and `the_buffer` is
unchanged. -/
theorem dga_pass_output (c : Config) (s : State) (fuel : Nat)
    (hg : GuardsIntact c s) (hf : c.pageCount < fuel) :
    (∃ (runs : List (Nat × Nat)) (s' : State) (evs : List Event),
      update_display_dga_vosf c fuel s = some s' ∧
      s' = set_dirty false (process_runs c (dga_render c) runs s) ∧
      (∀ a b, (a, b) ∈ runs ↔ IsDirtyRun s.dirtyPages c.pageCount a b) ∧
      s'.trace = s.trace ++ evs ∧
      ∀ e ∈ evs, Event.is_push e = false) ∧
    ∀ (first_page page : Nat) (st : State),
      (dga_render c first_page page st).trace = st.trace ++
        dga_box_events c (c.pageInfo first_page).top (c.pageInfo (page - 1)).bottom
          (dga_first_column c st (c.pageInfo first_page).top (c.pageInfo (page - 1)).bottom)
          (dga_last_column c st (c.pageInfo first_page).top (c.pageInfo (page - 1)).bottom) ∧
      (∀ k, in_box c (c.pageInfo first_page).top (c.pageInfo (page - 1)).bottom
          (dga_first_column c st (c.pageInfo first_page).top (c.pageInfo (page - 1)).bottom)
          (dga_last_column c st (c.pageInfo first_page).top (c.pageInfo (page - 1)).bottom) k →
        (dga_render c first_page page st).the_buffer_copy k = st.the_buffer k) ∧
      (∀ k, ¬ in_box c (c.pageInfo first_page).top (c.pageInfo (page - 1)).bottom
          (dga_first_column c st (c.pageInfo first_page).top (c.pageInfo (page - 1)).bottom)
          (dga_last_column c st (c.pageInfo first_page).top (c.pageInfo (page - 1)).bottom) k →
        (dga_render c first_page page st).the_buffer_copy k = st.the_buffer_copy k) ∧
      (dga_render c first_page page st).the_buffer = st.the_buffer := by
  constructor
  · obtain ⟨runs, h1, _, h3, _⟩ := vosf_pass c _ (dga_render_ok c) s fuel hg hf
    obtain ⟨evs, k1, k2⟩ := process_runs_dga_no_push c runs s
    refine ⟨runs, _, evs ++ [Event.set_dirty false], h1, rfl, h3, ?_, ?_⟩
    · simp [set_dirty, emit, k1]
    · intro e he
      rcases List.mem_append.1 he with h | h
      · exact k2 e h
      · simp only [List.mem_singleton] at h
        subst h; rfl
  · intro first_page page st
    obtain ⟨g1, g2, g3, g4, _⟩ := dga_render_spec c first_page page st
    exact ⟨g1, g2, g3, g4⟩


/-- Witness of claim C12: the DGA update on `demo_state`. -/
theorem dga_pass_output_witness :
    GuardsIntact demo_config demo_state ∧ demo_config.pageCount < 4 ∧
    ((∃ (runs : List (Nat × Nat)) (s' : State) (evs : List Event),
      update_display_dga_vosf demo_config 4 demo_state = some s' ∧
      s' = set_dirty false
        (process_runs demo_config (dga_render demo_config) runs demo_state) ∧
      (∀ a b, (a, b) ∈ runs ↔
        IsDirtyRun demo_state.dirtyPages demo_config.pageCount a b) ∧
      s'.trace = demo_state.trace ++ evs ∧
      ∀ e ∈ evs, Event.is_push e = false) ∧
     ∀ (first_page page : Nat) (st : State),
      (dga_render demo_config first_page page st).trace = st.trace ++
        dga_box_events demo_config (demo_config.pageInfo first_page).top
          (demo_config.pageInfo (page - 1)).bottom
          (dga_first_column demo_config st (demo_config.pageInfo first_page).top
            (demo_config.pageInfo (page - 1)).bottom)
          (dga_last_column demo_config st (demo_config.pageInfo first_page).top
            (demo_config.pageInfo (page - 1)).bottom) ∧
      (∀ k, in_box demo_config (demo_config.pageInfo first_page).top
          (demo_config.pageInfo (page - 1)).bottom
          (dga_first_column demo_config st (demo_config.pageInfo first_page).top
            (demo_config.pageInfo (page - 1)).bottom)
          (dga_last_column demo_config st (demo_config.pageInfo first_page).top
            (demo_config.pageInfo (page - 1)).bottom) k →
        (dga_render demo_config first_page page st).the_buffer_copy k = st.the_buffer k) ∧
      (∀ k, ¬ in_box demo_config (demo_config.pageInfo first_page).top
          (demo_config.pageInfo (page - 1)).bottom
          (dga_first_column demo_config st (demo_config.pageInfo first_page).top
            (demo_config.pageInfo (page - 1)).bottom)
          (dga_last_column demo_config st (demo_config.pageInfo first_page).top
            (demo_config.pageInfo (page - 1)).bottom) k →
        (dga_render demo_config first_page page st).the_buffer_copy k =
          st.the_buffer_copy k) ∧
      (dga_render demo_config first_page page st).the_buffer = st.the_buffer) :=
  ⟨by decide, by decide, dga_pass_output demo_config demo_state 4 (by decide) (by decide)⟩

end VOSF
